import Mathlib

/-!
Verification development for the LwPKT packet protocol library
(`src/lwpkt/src/lwpkt/lwpkt.c`, v1.3.0) and its LwRB ring buffer
(`src/libs/lwrb/src/lwrb/lwrb.c`, v3.0.0-rc1).

Machine integers are modelled as `Nat` with explicit `% 2^w` where the C
type width matters.  The ring buffer is a storage list plus the two
indices `w` and `r`, exactly as in the C structure.
-/

set_option maxRecDepth 10000

namespace Lwpkt

/-! ## LwRB ring buffer (lwrb.c) -/

/-- Ring buffer handle: storage bytes, storage size, write and read index.
Mirrors `lwrb_t` (`buff`, `size`, `w`, `r`). -/
structure Lwrb where
  size : Nat
  buff : List Nat
  w : Nat
  r : Nat
deriving Repr, DecidableEq

/-- `BUF_IS_VALID`: non-null storage of positive size.  In the embedding the
storage list must have exactly `size` elements. -/
def lwrb_is_valid (rb : Lwrb) : Bool :=
  0 < rb.size && rb.buff.length == rb.size

/-- `lwrb_get_free`: bytes available for write (`size - 1` of usable space). -/
def lwrb_get_free (rb : Lwrb) : Nat :=
  if lwrb_is_valid rb = false then 0
  else
    let size :=
      if rb.w = rb.r then rb.size
      else if rb.r > rb.w then rb.r - rb.w
      else rb.size - (rb.w - rb.r)
    size - 1

/-- `lwrb_get_full`: bytes available for read. -/
def lwrb_get_full (rb : Lwrb) : Nat :=
  if lwrb_is_valid rb = false then 0
  else
    if rb.w = rb.r then 0
    else if rb.w > rb.r then rb.w - rb.r
    else rb.size - (rb.r - rb.w)

/-- `memcpy (&dst[pos], src, src.length)` on a byte list. -/
def listCopy (dst : List Nat) (pos : Nat) (src : List Nat) : List Nat :=
  dst.take pos ++ (src ++ dst.drop (pos + src.length))

/-- `lwrb_write buff data btw`: write up to `btw` bytes of `data`, in two
linear `memcpy` steps with wrap, returning the new buffer and the number of
bytes written. -/
def lwrb_write (rb : Lwrb) (data : List Nat) (btw : Nat) : Lwrb × Nat :=
  if lwrb_is_valid rb = false ∨ btw = 0 then (rb, 0)
  else
    let free := lwrb_get_free rb
    let btw := min free btw
    if btw = 0 then (rb, 0)
    else
      let buff_w_ptr := rb.w
      /- Step 1: linear part -/
      let tocopy := min (rb.size - buff_w_ptr) btw
      let buff1 := listCopy rb.buff buff_w_ptr (data.take tocopy)
      let buff_w_ptr := buff_w_ptr + tocopy
      let btw_rem := btw - tocopy
      /- Step 2: overflow part at the beginning -/
      let buff2 := if btw_rem > 0 then listCopy buff1 0 ((data.drop tocopy).take btw_rem) else buff1
      let buff_w_ptr := if btw_rem > 0 then btw_rem else buff_w_ptr
      /- Step 3: end-of-buffer wrap -/
      let buff_w_ptr := if buff_w_ptr ≥ rb.size then 0 else buff_w_ptr
      ({ rb with buff := buff2, w := buff_w_ptr }, tocopy + btw_rem)

/-- `lwrb_read buff data btr`: read up to `btr` bytes, returning the new
buffer and the bytes read (the C fills the caller's array; the embedding
returns that array). -/
def lwrb_read (rb : Lwrb) (btr : Nat) : Lwrb × List Nat :=
  if lwrb_is_valid rb = false ∨ btr = 0 then (rb, [])
  else
    let full := lwrb_get_full rb
    let btr := min full btr
    if btr = 0 then (rb, [])
    else
      let buff_r_ptr := rb.r
      /- Step 1: linear part -/
      let tocopy := min (rb.size - buff_r_ptr) btr
      let out1 := (rb.buff.drop buff_r_ptr).take tocopy
      let buff_r_ptr := buff_r_ptr + tocopy
      let btr_rem := btr - tocopy
      /- Step 2: overflow part -/
      let out2 := rb.buff.take btr_rem
      let buff_r_ptr := if btr_rem > 0 then btr_rem else buff_r_ptr
      /- Step 3: end-of-buffer wrap -/
      let buff_r_ptr := if buff_r_ptr ≥ rb.size then 0 else buff_r_ptr
      ({ rb with r := buff_r_ptr }, out1 ++ out2)

/-- The readable region of the ring, in FIFO order (consumer view). -/
def lwrb_contents (rb : Lwrb) : List Nat :=
  if rb.r ≤ rb.w then (rb.buff.drop rb.r).take (rb.w - rb.r)
  else rb.buff.drop rb.r ++ rb.buff.take rb.w

/-- Sanity predicate for a reachable ring state: valid with in-range indices. -/
def lwrb_ok (rb : Lwrb) : Bool :=
  lwrb_is_valid rb && rb.w < rb.size && rb.r < rb.size

/-! ### Ring buffer lemmas -/

lemma lwrb_ok_elim {rb : Lwrb} (h : lwrb_ok rb = true) :
    0 < rb.size ∧ rb.buff.length = rb.size ∧ rb.w < rb.size ∧ rb.r < rb.size := by
  simp [lwrb_ok, lwrb_is_valid] at h
  tauto

lemma lwrb_is_valid_of_ok {rb : Lwrb} (h : lwrb_ok rb = true) :
    lwrb_is_valid rb = true := by
  simp [lwrb_ok] at h
  simp [h.1.1]

lemma lwrb_get_free_eq {rb : Lwrb} (h : lwrb_ok rb = true) :
    lwrb_get_free rb = rb.size - 1 - lwrb_get_full rb := by
  obtain ⟨hs, hb, hw, hr⟩ := lwrb_ok_elim h
  have hv := lwrb_is_valid_of_ok h
  rw [lwrb_get_free, lwrb_get_full]
  simp only [hv, Bool.true_eq_false, if_false]
  split_ifs <;> omega

lemma lwrb_contents_length {rb : Lwrb} (h : lwrb_ok rb = true) :
    (lwrb_contents rb).length = lwrb_get_full rb := by
  obtain ⟨hs, hb, hw, hr⟩ := lwrb_ok_elim h
  have hv := lwrb_is_valid_of_ok h
  rw [lwrb_contents, lwrb_get_full]
  simp only [hv, Bool.true_eq_false, if_false]
  split_ifs <;>
    simp only [List.length_append, List.length_drop, List.length_take, hb] <;>
    omega

lemma lwrb_write_eq_no_wrap {rb : Lwrb} {data : List Nat} {btw : Nat}
    (h : lwrb_ok rb = true) (h0 : 0 < btw) (hfree : btw ≤ lwrb_get_free rb)
    (hA : btw ≤ rb.size - rb.w) :
    lwrb_write rb data btw =
      ({ rb with buff := listCopy rb.buff rb.w (data.take btw),
                 w := if rb.w + btw ≥ rb.size then 0 else rb.w + btw }, btw) := by
  have hv := lwrb_is_valid_of_ok h
  rw [lwrb_write, if_neg (by simp [hv]; omega)]
  have hmin1 : min (lwrb_get_free rb) btw = btw := Nat.min_eq_right hfree
  have hmin2 : min (rb.size - rb.w) btw = btw := Nat.min_eq_right hA
  simp only [hmin1, hmin2]
  rw [if_neg (by omega)]
  simp only [Nat.sub_self, gt_iff_lt, Nat.lt_irrefl, if_false, Nat.add_zero]

lemma lwrb_write_eq_wrap {rb : Lwrb} {data : List Nat} {btw : Nat}
    (h : lwrb_ok rb = true) (h0 : 0 < btw) (hfree : btw ≤ lwrb_get_free rb)
    (hB : rb.size - rb.w < btw) :
    lwrb_write rb data btw =
      ({ rb with buff := listCopy (listCopy rb.buff rb.w (data.take (rb.size - rb.w))) 0
                   ((data.drop (rb.size - rb.w)).take (btw - (rb.size - rb.w))),
                 w := btw - (rb.size - rb.w) }, btw) := by
  obtain ⟨hs, hb, hw, hr⟩ := lwrb_ok_elim h
  have hv := lwrb_is_valid_of_ok h
  have hfull := lwrb_get_free_eq h
  rw [lwrb_write, if_neg (by simp [hv]; omega)]
  have hmin1 : min (lwrb_get_free rb) btw = btw := Nat.min_eq_right hfree
  have hmin2 : min (rb.size - rb.w) btw = rb.size - rb.w :=
    Nat.min_eq_left (Nat.le_of_lt hB)
  simp only [hmin1, hmin2]
  rw [if_neg (by omega)]
  have hrem : btw - (rb.size - rb.w) > 0 := by omega
  simp only [if_pos hrem]
  rw [if_neg (by omega)]
  have hcnt : rb.size - rb.w + (btw - (rb.size - rb.w)) = btw := by omega
  rw [hcnt]

lemma listCopy_length {dst src : List Nat} {pos : Nat}
    (h : pos + src.length ≤ dst.length) : (listCopy dst pos src).length = dst.length := by
  simp only [listCopy, List.length_append, List.length_take, List.length_drop]
  omega

lemma lwrb_get_free_formula {rb : Lwrb} (h : lwrb_ok rb = true) :
    lwrb_get_free rb =
      if rb.r ≤ rb.w then rb.size - 1 - (rb.w - rb.r) else rb.r - rb.w - 1 := by
  obtain ⟨hs, hb, hw, hr⟩ := lwrb_ok_elim h
  have hv := lwrb_is_valid_of_ok h
  rw [lwrb_get_free]
  simp only [hv, Bool.true_eq_false, if_false]
  split_ifs <;> omega

lemma lwrb_get_full_formula {rb : Lwrb} (h : lwrb_ok rb = true) :
    lwrb_get_full rb =
      if rb.r ≤ rb.w then rb.w - rb.r else rb.size - (rb.r - rb.w) := by
  obtain ⟨hs, hb, hw, hr⟩ := lwrb_ok_elim h
  have hv := lwrb_is_valid_of_ok h
  rw [lwrb_get_full]
  simp only [hv, Bool.true_eq_false, if_false]
  split_ifs <;> omega

lemma take_len_append {l1 l2 : List Nat} {n : Nat} (h : l1.length = n) :
    (l1 ++ l2).take n = l1 := by
  subst h; exact List.take_left l1 l2

lemma drop_len_append {l1 l2 : List Nat} {n : Nat} (h : l1.length = n) :
    (l1 ++ l2).drop n = l2 := by
  subst h; exact List.drop_left l1 l2

lemma lwrb_ok_mk {S : Nat} {buf : List Nat} {w r : Nat}
    (hs : 0 < S) (hbuf : buf.length = S) (hw : w < S) (hr : r < S) :
    lwrb_ok ⟨S, buf, w, r⟩ = true := by
  simp [lwrb_ok, lwrb_is_valid, hs, hbuf, hw, hr]

/-- Behaviour of `lwrb_write` on the abstract FIFO view: with enough free
space it writes exactly the first `btw` bytes of `data`, appending them to
the readable region and leaving the read side alone. -/
lemma lwrb_write_spec {rb : Lwrb} {data : List Nat} {btw : Nat}
    (h : lwrb_ok rb = true) (hfree : btw ≤ lwrb_get_free rb)
    (hdata : btw ≤ data.length) :
    (lwrb_write rb data btw).2 = btw ∧
    (lwrb_write rb data btw).1.size = rb.size ∧
    (lwrb_write rb data btw).1.r = rb.r ∧
    lwrb_ok (lwrb_write rb data btw).1 = true ∧
    lwrb_contents (lwrb_write rb data btw).1 = lwrb_contents rb ++ data.take btw := by
  obtain ⟨hs, hb, hw, hr⟩ := lwrb_ok_elim h
  rcases Nat.eq_zero_or_pos btw with hz | hpos
  · subst hz
    rw [lwrb_write, if_pos (Or.inr rfl)]
    simpa using h
  have hffree := lwrb_get_free_formula h
  have hdt : (data.take btw).length = btw := by
    simp only [List.length_take]; omega
  by_cases hrw : rb.r ≤ rb.w
  · -- readable region is linear: contents = (drop r).take (w - r)
    rw [if_pos hrw] at hffree
    have hfree2 : btw + (rb.w - rb.r) ≤ rb.size - 1 := by omega
    have hcl : lwrb_contents rb = (rb.buff.drop rb.r).take (rb.w - rb.r) := by
      rw [lwrb_contents, if_pos hrw]
    have hdseg : (rb.buff.take rb.w).drop rb.r = (rb.buff.drop rb.r).take (rb.w - rb.r) :=
      List.drop_take rb.w rb.r rb.buff
    by_cases hA : btw ≤ rb.size - rb.w
    · -- single linear copy
      rw [lwrb_write_eq_no_wrap h hpos hfree hA]
      have hlc : (listCopy rb.buff rb.w (data.take btw)).length = rb.size := by
        rw [listCopy_length (by rw [hdt, hb]; omega)]; exact hb
      have hdropr : (listCopy rb.buff rb.w (data.take btw)).drop rb.r =
          (rb.buff.take rb.w).drop rb.r ++ (data.take btw ++ rb.buff.drop (rb.w + btw)) := by
        rw [listCopy, hdt]
        exact List.drop_append_of_le_length (by simp only [List.length_take]; omega)
      have hlen1 : ((rb.buff.take rb.w).drop rb.r).length = rb.w - rb.r := by
        simp only [List.length_drop, List.length_take]; omega
      refine ⟨rfl, rfl, rfl, ?_, ?_⟩
      · exact lwrb_ok_mk hs hlc (by split_ifs <;> omega) hr
      · by_cases hws : rb.w + btw ≥ rb.size
        · -- write pointer lands exactly on size and wraps to 0
          have hwe : rb.w + btw = rb.size := by omega
          have hrpos : 0 < rb.r := by omega
          rw [hcl]
          simp only [if_pos hws, lwrb_contents]
          rw [if_neg (show ¬ rb.r ≤ 0 by omega)]
          simp only [List.take_zero, List.append_nil]
          rw [hdropr, hwe, List.drop_of_length_le (le_of_eq hb), List.append_nil, hdseg]
        · rw [hcl]
          simp only [if_neg hws, lwrb_contents]
          rw [if_pos (show rb.r ≤ rb.w + btw by omega)]
          rw [hdropr]
          have hsplit : rb.w + btw - rb.r = ((rb.buff.take rb.w).drop rb.r).length + btw := by
            rw [hlen1]; omega
          rw [hsplit, List.take_append,
            List.take_append_of_le_length (by rw [hdt]),
            List.take_take, min_self, hdseg]
    · -- wrapped copy: tail part at the end, remainder at the beginning
      have hB : rb.size - rb.w < btw := by omega
      rw [lwrb_write_eq_wrap h hpos hfree hB]
      set tc := rb.size - rb.w with htc
      set rem := btw - tc with hremdef
      have hremr : rem ≤ rb.r - 1 := by omega
      have hrpos : 0 < rb.r := by omega
      have hd1 : (data.take tc).length = tc := by
        simp only [List.length_take]; omega
      have hd2 : ((data.drop tc).take rem).length = rem := by
        simp only [List.length_take, List.length_drop]; omega
      have hb1 : (listCopy rb.buff rb.w (data.take tc)).length = rb.size := by
        rw [listCopy_length (by rw [hd1, hb]; omega)]; exact hb
      have hb1eq : listCopy rb.buff rb.w (data.take tc) =
          rb.buff.take rb.w ++ (data.take tc ++ []) := by
        rw [listCopy, hd1, show rb.w + tc = rb.size by omega,
          List.drop_of_length_le (le_of_eq hb)]
      have hb2 : (listCopy (listCopy rb.buff rb.w (data.take tc)) 0
          ((data.drop tc).take rem)).length = rb.size := by
        rw [listCopy_length (by rw [hd2, hb1]; omega)]; exact hb1
      have hb2eq : listCopy (listCopy rb.buff rb.w (data.take tc)) 0
            ((data.drop tc).take rem) =
          (data.drop tc).take rem ++ (listCopy rb.buff rb.w (data.take tc)).drop rem := by
        rw [listCopy, hd2, List.take_zero, List.nil_append, Nat.zero_add]
      refine ⟨rfl, rfl, rfl, ?_, ?_⟩
      · exact lwrb_ok_mk hs hb2 (by omega) hr
      · rw [hcl]
        simp only [lwrb_contents]
        rw [if_neg (show ¬ rb.r ≤ rem by omega)]
        rw [hb2eq]
        have hdrr : ((data.drop tc).take rem ++
              (listCopy rb.buff rb.w (data.take tc)).drop rem).drop rb.r =
            (listCopy rb.buff rb.w (data.take tc)).drop rb.r := by
          rw [show rb.r = ((data.drop tc).take rem).length + (rb.r - rem) by rw [hd2]; omega,
            List.drop_append, List.drop_drop]
          congr 1
          omega
        have hdtk : ((data.drop tc).take rem ++
              (listCopy rb.buff rb.w (data.take tc)).drop rem).take rem =
            (data.drop tc).take rem := take_len_append hd2
        rw [hdrr, hdtk, hb1eq, List.append_nil,
          List.drop_append_of_le_length (by simp only [List.length_take]; omega),
          hdseg, List.append_assoc]
        congr 1
        rw [← List.take_add]
        congr 1
        omega
  · -- wrapped readable region: w < r, write is always a single linear copy
    have hwr : rb.w < rb.r := by omega
    rw [if_neg hrw] at hffree
    have hfree2 : btw ≤ rb.r - rb.w - 1 := by omega
    have hA : btw ≤ rb.size - rb.w := by omega
    have hcl : lwrb_contents rb = rb.buff.drop rb.r ++ rb.buff.take rb.w := by
      rw [lwrb_contents, if_neg hrw]
    rw [lwrb_write_eq_no_wrap h hpos hfree hA]
    have hws : ¬ rb.w + btw ≥ rb.size := by omega
    have hlc : (listCopy rb.buff rb.w (data.take btw)).length = rb.size := by
      rw [listCopy_length (by rw [hdt, hb]; omega)]; exact hb
    refine ⟨rfl, rfl, rfl, ?_, ?_⟩
    · exact lwrb_ok_mk hs hlc (by split_ifs <;> omega) hr
    · rw [hcl]
      simp only [if_neg hws, lwrb_contents]
      rw [if_neg (show ¬ rb.r ≤ rb.w + btw by omega)]
      have hassoc : listCopy rb.buff rb.w (data.take btw) =
          (rb.buff.take rb.w ++ data.take btw) ++ rb.buff.drop (rb.w + btw) := by
        rw [listCopy, hdt, ← List.append_assoc]
      have hpre : (rb.buff.take rb.w ++ data.take btw).length = rb.w + btw := by
        simp only [List.length_append, List.length_take, hdt]; omega
      have hdropr : (listCopy rb.buff rb.w (data.take btw)).drop rb.r =
          rb.buff.drop rb.r := by
        rw [hassoc,
          show rb.r = (rb.buff.take rb.w ++ data.take btw).length + (rb.r - (rb.w + btw)) by
            rw [hpre]; omega,
          List.drop_append, List.drop_drop]
        congr 1
        omega
      have htakew : (listCopy rb.buff rb.w (data.take btw)).take (rb.w + btw) =
          rb.buff.take rb.w ++ data.take btw := by
        rw [hassoc]
        exact take_len_append hpre
      rw [hdropr, htakew, List.append_assoc]

lemma lwrb_read_eq_no_wrap {rb : Lwrb} {btr btreff : Nat}
    (h : lwrb_ok rb = true) (hbtr : 0 < btr)
    (heff : btreff = min (lwrb_get_full rb) btr) (h0 : 0 < btreff)
    (hA : btreff ≤ rb.size - rb.r) :
    lwrb_read rb btr =
      ({ rb with r := if rb.r + btreff ≥ rb.size then 0 else rb.r + btreff },
       (rb.buff.drop rb.r).take btreff) := by
  have hv := lwrb_is_valid_of_ok h
  rw [lwrb_read, if_neg (by simp [hv]; omega)]
  simp only [← heff]
  rw [if_neg (by omega)]
  have hmin2 : min (rb.size - rb.r) btreff = btreff := Nat.min_eq_right hA
  simp only [hmin2]
  simp only [Nat.sub_self, gt_iff_lt, Nat.lt_irrefl, if_false, List.take_zero,
    List.append_nil, Nat.add_zero]

lemma lwrb_read_eq_wrap {rb : Lwrb} {btr btreff : Nat}
    (h : lwrb_ok rb = true) (hbtr : 0 < btr)
    (heff : btreff = min (lwrb_get_full rb) btr) (h0 : 0 < btreff)
    (hB : rb.size - rb.r < btreff) :
    lwrb_read rb btr =
      ({ rb with r := btreff - (rb.size - rb.r) },
       (rb.buff.drop rb.r).take (rb.size - rb.r) ++ rb.buff.take (btreff - (rb.size - rb.r))) := by
  obtain ⟨hs, hb, hw, hr⟩ := lwrb_ok_elim h
  have hv := lwrb_is_valid_of_ok h
  rw [lwrb_read, if_neg (by simp [hv]; omega)]
  simp only [← heff]
  rw [if_neg (by omega)]
  have hmin2 : min (rb.size - rb.r) btreff = rb.size - rb.r :=
    Nat.min_eq_left (Nat.le_of_lt hB)
  simp only [hmin2]
  have hrem : btreff - (rb.size - rb.r) > 0 := by omega
  simp only [if_pos hrem]
  have hfull : lwrb_get_full rb ≤ rb.size := by
    rw [lwrb_get_full]; simp only [hv, Bool.true_eq_false, if_false]
    split_ifs <;> omega
  rw [if_neg (by omega)]

lemma lwrb_read_empty {rb : Lwrb} {btr : Nat} (h : lwrb_ok rb = true)
    (hf : lwrb_get_full rb = 0) : lwrb_read rb btr = (rb, []) := by
  have hv := lwrb_is_valid_of_ok h
  rcases Nat.eq_zero_or_pos btr with hz | hp
  · subst hz
    rw [lwrb_read, if_pos (Or.inr rfl)]
  · rw [lwrb_read, if_neg (by simp [hv]; omega)]
    simp [hf]

/-- Behaviour of `lwrb_read` on the abstract FIFO view: it removes and
returns the first `btr` readable bytes, leaving storage and write side
alone. -/
lemma lwrb_read_spec {rb : Lwrb} {btr : Nat}
    (h : lwrb_ok rb = true) (hbtr : btr ≤ lwrb_get_full rb) :
    (lwrb_read rb btr).2 = (lwrb_contents rb).take btr ∧
    (lwrb_read rb btr).1.size = rb.size ∧
    (lwrb_read rb btr).1.w = rb.w ∧
    (lwrb_read rb btr).1.buff = rb.buff ∧
    lwrb_ok (lwrb_read rb btr).1 = true ∧
    lwrb_contents (lwrb_read rb btr).1 = (lwrb_contents rb).drop btr := by
  obtain ⟨hs, hb, hw, hr⟩ := lwrb_ok_elim h
  rcases Nat.eq_zero_or_pos btr with hz | hpos
  · subst hz
    rw [lwrb_read, if_pos (Or.inr rfl)]
    simpa using h
  have heff : btr = min (lwrb_get_full rb) btr := (Nat.min_eq_right hbtr).symm
  have hff := lwrb_get_full_formula h
  by_cases hrw : rb.r ≤ rb.w
  · -- linear readable region
    rw [if_pos hrw] at hff
    have hbtr2 : btr ≤ rb.w - rb.r := by omega
    have hA : btr ≤ rb.size - rb.r := by omega
    rw [lwrb_read_eq_no_wrap h hpos heff hpos hA]
    have hnw : ¬ rb.r + btr ≥ rb.size := by omega
    rw [if_neg hnw]
    have hcl : lwrb_contents rb = (rb.buff.drop rb.r).take (rb.w - rb.r) := by
      rw [lwrb_contents, if_pos hrw]
    refine ⟨?_, rfl, rfl, rfl, ?_, ?_⟩
    · rw [hcl, List.take_take, min_eq_left hbtr2]
    · exact lwrb_ok_mk hs hb hw (by omega)
    · rw [hcl]
      simp only [lwrb_contents]
      rw [if_pos (show rb.r + btr ≤ rb.w by omega)]
      rw [List.drop_take, List.drop_drop]
      congr 1
      omega
  · -- wrapped readable region
    have hwr : rb.w < rb.r := by omega
    rw [if_neg hrw] at hff
    have hcl : lwrb_contents rb = rb.buff.drop rb.r ++ rb.buff.take rb.w := by
      rw [lwrb_contents, if_neg hrw]
    have hl1 : (rb.buff.drop rb.r).length = rb.size - rb.r := by
      simp only [List.length_drop, hb]
    by_cases hA : btr ≤ rb.size - rb.r
    · rw [lwrb_read_eq_no_wrap h hpos heff hpos hA]
      refine ⟨?_, rfl, rfl, rfl, ?_, ?_⟩
      · rw [hcl, List.take_append_of_le_length (by rw [hl1]; omega)]
      · refine lwrb_ok_mk hs hb hw ?_
        split_ifs <;> omega
      · by_cases hE : rb.r + btr ≥ rb.size
        · have hE2 : btr = rb.size - rb.r := by omega
          rw [if_pos hE]
          rw [hcl]
          simp only [lwrb_contents]
          rw [if_pos (Nat.zero_le rb.w)]
          rw [List.drop_zero, Nat.sub_zero, hE2, drop_len_append hl1]
        · rw [if_neg hE]
          rw [hcl]
          simp only [lwrb_contents]
          rw [if_neg (show ¬ rb.r + btr ≤ rb.w by omega)]
          rw [List.drop_append_of_le_length (by rw [hl1]; omega), List.drop_drop]
      
    · have hB : rb.size - rb.r < btr := by omega
      rw [lwrb_read_eq_wrap h hpos heff hpos hB]
      have hrem : btr - (rb.size - rb.r) ≤ rb.w := by omega
      have hrempos : 0 < btr - (rb.size - rb.r) := by omega
      refine ⟨?_, rfl, rfl, rfl, ?_, ?_⟩
      · dsimp only
        conv_rhs => rw [hcl,
          show btr = (rb.buff.drop rb.r).length + (btr - (rb.size - rb.r)) by rw [hl1]; omega,
          List.take_append]
        rw [List.take_of_length_le (le_of_eq hl1), List.take_take, min_eq_left hrem]
      · exact lwrb_ok_mk hs hb hw (by omega)
      · rw [hcl]
        simp only [lwrb_contents]
        rw [if_pos (show btr - (rb.size - rb.r) ≤ rb.w by omega)]
        conv_rhs => rw [
          show btr = (rb.buff.drop rb.r).length + (btr - (rb.size - rb.r)) by rw [hl1]; omega,
          List.drop_append]
        rw [List.drop_take]

/-- `lwrb_find` inner comparison: does `needle[0..len)` match the buffer
starting `skip` bytes past the read pointer (with wrap)? -/
def lwrb_find_match (rb : Lwrb) (needle : List Nat) (len skip : Nat) : Bool :=
  (List.range len).all
    (fun i => rb.buff.getD ((rb.r + skip + i) % rb.size) 0 == needle.getD i 0)

/-- `lwrb_find buff bts len start_offset`: search for the needle starting at
consumer offset `start_offset`.  The outer loop of the C source runs
`skip_x` from `start_offset` while `skip_x < full - start_offset - len`,
returning the first match. -/
def lwrb_find (rb : Lwrb) (needle : List Nat) (len start_offset : Nat) : Option Nat :=
  if lwrb_is_valid rb = false ∨ needle = [] ∨ len = 0 then none
  else
    let full := lwrb_get_full rb
    if full < len + start_offset then none
    else
      (List.range' start_offset ((full - start_offset - len) - start_offset)).find?
        (fun skip => lwrb_find_match rb needle len skip)

/-! ## LwPKT (lwpkt.c, v1.3.0)

The instance structure of v1.3.0 is not shipped in `src` (the header there
is the stale v1.2.0 one), so field widths follow the v1.3.0 `lwpkt.c` code
and, where only the spec records them, the spec: `m.flags` and the CRC
accumulator/`crc_data` are 32-bit, `m.len`/`m.index` are `size_t` (64-bit
here), `lwpkt_addr_t` is 32-bit iff `LWPKT_CFG_ADDR_EXTENDED != 0` else
8-bit. -/

/-- Compile-time feature configuration; each field is the value of the
corresponding `LWPKT_CFG_*` macro (0 disabled, 1 enabled, 2 dynamic). -/
structure lwpkt_cfg where
  use_addr : Nat
  addr_extended : Nat
  use_flags : Nat
  use_cmd : Nat
  use_crc : Nat
  crc32 : Nat
deriving Repr, DecidableEq

def LWPKT_FLAG_USE_CRC : Nat := 0x01
def LWPKT_FLAG_USE_ADDR : Nat := 0x02
def LWPKT_FLAG_USE_CMD : Nat := 0x04
def LWPKT_FLAG_ADDR_EXTENDED : Nat := 0x08
def LWPKT_FLAG_USE_FLAGS : Nat := 0x10
def LWPKT_FLAG_CRC32 : Nat := 0x20

def LWPKT_START_BYTE : Nat := 0xAA
def LWPKT_STOP_BYTE : Nat := 0x55
def CRC_POLY_32 : Nat := 0xEDB88320
def CRC_POLY_8 : Nat := 0x8C
def LWPKT_CFG_MAX_DATA_LEN : Nat := 256
def LWPKT_CFG_PROCESS_INPROG_TIMEOUT : Nat := 100

/-- `CHECK_FEATURE_CONFIG_MODE_ENABLED`: feature active when its compile
mode is 1 (always on) or 2 with the matching bit set in the instance flag
byte. -/
def CHECK_FEATURE_CONFIG_MODE_ENABLED (mode pflags mask : Nat) : Bool :=
  mode == 1 || (mode == 2 && (pflags &&& mask != 0))

/-- Width of `lwpkt_addr_t` as a modulus: `uint32_t` when extended
addressing is compiled in, else `uint8_t`. -/
def lwpkt_addr_mod (cfg : lwpkt_cfg) : Nat :=
  if cfg.addr_extended != 0 then 2 ^ 32 else 2 ^ 8

def lwpkt_crc32_on (cfg : lwpkt_cfg) (pflags : Nat) : Bool :=
  CHECK_FEATURE_CONFIG_MODE_ENABLED cfg.crc32 pflags LWPKT_FLAG_CRC32

def lwpkt_crc_on (cfg : lwpkt_cfg) (pflags : Nat) : Bool :=
  CHECK_FEATURE_CONFIG_MODE_ENABLED cfg.use_crc pflags LWPKT_FLAG_USE_CRC

/-- `CRC_DATA_LEN`: number of on-wire CRC bytes. -/
def CRC_DATA_LEN (cfg : lwpkt_cfg) (pflags : Nat) : Nat :=
  if lwpkt_crc32_on cfg pflags then 4 else 1

/-- Polynomial selected by `prv_crc_in`. -/
def lwpkt_crc_poly (cfg : lwpkt_cfg) (pflags : Nat) : Nat :=
  if lwpkt_crc32_on cfg pflags then CRC_POLY_32 else CRC_POLY_8

/-- `prv_crc_calc_one`: 8 rounds of the reflected bit-serial CRC update. -/
def prv_crc_calc_one (crc_curr new_entry poly : Nat) : Nat :=
  ((List.range 8).foldl
    (fun st _ =>
      let mix := (st.1 ^^^ st.2) &&& 0x01
      let c := st.1 >>> 1
      let c := if mix > 0 then c ^^^ poly else c
      (c, st.2 >>> 1))
    (crc_curr, new_entry)).1

/-- `prv_crc_in` over a byte list (the per-byte loop). -/
def prv_crc_in (cfg : lwpkt_cfg) (pflags : Nat) (crc : Nat) (bytes : List Nat) : Nat :=
  bytes.foldl (fun c b => prv_crc_calc_one c b (lwpkt_crc_poly cfg pflags)) crc

/-- `prv_crc_init`: zero, then `0xFFFFFFFF` when CRC-32 is active. -/
def prv_crc_init (cfg : lwpkt_cfg) (pflags : Nat) : Nat :=
  if lwpkt_crc32_on cfg pflags then 0xFFFFFFFF else 0

/-- `prv_crc_finish`: final XOR for CRC-32, identity for CRC-8. -/
def prv_crc_finish (cfg : lwpkt_cfg) (pflags : Nat) (crc : Nat) : Nat :=
  if lwpkt_crc32_on cfg pflags then crc ^^^ 0xFFFFFFFF else crc

/-- Variable 7-bit encoding, least significant group first: the do-while
emit loop of `lwpkt_write` / `WRITE_BYTES_VAR_ENCODED`.  The fuel bounds
the number of 7-bit digits; 10 digits cover every value below `2^70`, far
above any C-typed input (`uint32_t`/`size_t`). -/
def vlqBytesAux : Nat → Nat → List Nat
  | 0, _ => []
  | fuel + 1, v =>
      let b := (v &&& 0x7F) ||| (if v > 0x7F then 0x80 else 0)
      b :: (if v >>> 7 > 0 then vlqBytesAux fuel (v >>> 7) else [])

def vlqBytes (v : Nat) : List Nat := vlqBytesAux 10 v

/-- `CALC_BYTES_NUM_FOR_LEN`: the byte count of the same do-while loop. -/
def vlqLen (v : Nat) : Nat := (vlqBytes v).length

/-- Decoder states (`lwpkt_state_t`, v1.3.0 including `FLAGS` and the
`END` dispatch sentinel). -/
inductive lwpkt_state_t where
  | START | FROM | TO | FLAGS | CMD | LEN | DATA | CRC | STOP | END
deriving Repr, DecidableEq

/-- Result enumeration (`lwpktr_t`). -/
inductive lwpktr_t where
  | OK | ERR | INPROG | VALID | ERRCRC | ERRSTOP | WAITDATA | ERRMEM
deriving Repr, DecidableEq

/-- The per-frame parser sub-state `m`. -/
structure lwpkt_m_t where
  state : lwpkt_state_t
  crc : Nat
  crc_data : Nat
  from_ : Nat
  to_ : Nat
  flags : Nat
  cmd : Nat
  len : Nat
  index : Nat
deriving Repr, DecidableEq

/-- The packet instance (`lwpkt_t`) minus the two ring-buffer pointers,
which the embedding passes explicitly. -/
structure lwpkt_t where
  addr : Nat
  data : List Nat
  flags : Nat
  last_rx_time : Nat
  m : lwpkt_m_t
deriving Repr, DecidableEq

def LWPKT_M_ZERO : lwpkt_m_t :=
  { state := .START, crc := 0, crc_data := 0, from_ := 0, to_ := 0,
    flags := 0, cmd := 0, len := 0, index := 0 }

/-- `LWPKT_RESET`: zero the whole of `m` and set the `Start` state. -/
def LWPKT_RESET (p : lwpkt_t) : lwpkt_t := { p with m := LWPKT_M_ZERO }

/-- `LWPKT_SET_STATE`: switch state and zero the index. -/
def LWPKT_SET_STATE (p : lwpkt_t) (s : lwpkt_state_t) : lwpkt_t :=
  { p with m := { p.m with state := s, index := 0 } }

/-- `lwpkt_init`: zero the instance, reset the parser and enable every
dynamically controllable feature (`flags |= 0xFF`). -/
def lwpkt_init : lwpkt_t :=
  let p : lwpkt_t :=
    { addr := 0, data := List.replicate LWPKT_CFG_MAX_DATA_LEN 0, flags := 0,
      last_rx_time := 0, m := LWPKT_M_ZERO }
  { p with flags := p.flags ||| 0xFF }

def lwpkt_feat_addr (cfg : lwpkt_cfg) (pflags : Nat) : Bool :=
  CHECK_FEATURE_CONFIG_MODE_ENABLED cfg.use_addr pflags LWPKT_FLAG_USE_ADDR

def lwpkt_feat_addr_ext (cfg : lwpkt_cfg) (pflags : Nat) : Bool :=
  CHECK_FEATURE_CONFIG_MODE_ENABLED cfg.addr_extended pflags LWPKT_FLAG_ADDR_EXTENDED

def lwpkt_feat_flags (cfg : lwpkt_cfg) (pflags : Nat) : Bool :=
  CHECK_FEATURE_CONFIG_MODE_ENABLED cfg.use_flags pflags LWPKT_FLAG_USE_FLAGS

def lwpkt_feat_cmd (cfg : lwpkt_cfg) (pflags : Nat) : Bool :=
  CHECK_FEATURE_CONFIG_MODE_ENABLED cfg.use_cmd pflags LWPKT_FLAG_USE_CMD

/-- Fall-through chain of `prv_go_to_next_packet_rx_state` from the `TO`
case on. -/
def prv_next_after_to (cfg : lwpkt_cfg) (pflags : Nat) : lwpkt_state_t :=
  if lwpkt_feat_flags cfg pflags then .FLAGS
  else if lwpkt_feat_cmd cfg pflags then .CMD
  else .LEN

def prv_next_after_flags (cfg : lwpkt_cfg) (pflags : Nat) : lwpkt_state_t :=
  if lwpkt_feat_cmd cfg pflags then .CMD else .LEN

def prv_next_after_data (cfg : lwpkt_cfg) (pflags : Nat) : lwpkt_state_t :=
  if lwpkt_crc_on cfg pflags then .CRC else .STOP

def prv_next_after_len (cfg : lwpkt_cfg) (pflags len : Nat) : lwpkt_state_t :=
  if len > 0 then .DATA else prv_next_after_data cfg pflags

/-- `prv_go_to_next_packet_rx_state`: compute the next enabled state via
the fall-through switch, then `LWPKT_SET_STATE` unless the sentinel. -/
def prv_go_to_next_packet_rx_state (cfg : lwpkt_cfg) (p : lwpkt_t) : lwpkt_t :=
  let next_state : lwpkt_state_t :=
    match p.m.state with
    | .START => if lwpkt_feat_addr cfg p.flags then .FROM else prv_next_after_to cfg p.flags
    | .TO => prv_next_after_to cfg p.flags
    | .FLAGS => prv_next_after_flags cfg p.flags
    | .CMD => .LEN
    | .LEN => prv_next_after_len cfg p.flags p.m.len
    | .DATA => prv_next_after_data cfg p.flags
    | .CRC => .STOP
    | .STOP => .START
    | .FROM => .TO
    | .END => .END
  if next_state ≠ .END then LWPKT_SET_STATE p next_state else p

/-- `ADD_IN_TO_CRC`: update the running CRC with one byte when the CRC
feature is active for this instance. -/
def ADD_IN_TO_CRC (cfg : lwpkt_cfg) (p : lwpkt_t) (b : Nat) : lwpkt_t :=
  if lwpkt_crc_on cfg p.flags then
    { p with m := { p.m with crc := prv_crc_calc_one p.m.crc b (lwpkt_crc_poly cfg p.flags) } }
  else p

/-- One iteration of the `lwpkt_read` while-loop on one consumed byte:
either the loop continues or a terminal verdict is produced. -/
inductive lwpkt_step_t where
  | cont (p : lwpkt_t)
  | term (res : lwpktr_t) (p : lwpkt_t)
deriving Repr, DecidableEq

def lwpkt_read_step (cfg : lwpkt_cfg) (p : lwpkt_t) (b : Nat) : lwpkt_step_t :=
  match p.m.state with
  | .START =>
      if b = LWPKT_START_BYTE then
        let p := LWPKT_RESET p
        /- `INIT_CRC` is compiled only when `LWPKT_CFG_USE_CRC` is set -/
        let p := if cfg.use_crc ≠ 0 then
            { p with m := { p.m with crc := prv_crc_init cfg p.flags } }
          else p
        .cont (prv_go_to_next_packet_rx_state cfg p)
      else .cont p
  | .FROM =>
      /- case compiled only under `LWPKT_CFG_USE_ADDR`; otherwise `default` -/
      if cfg.use_addr = 0 then .term .ERR (LWPKT_RESET p)
      else
        let p := ADD_IN_TO_CRC cfg p b
        let p := if lwpkt_feat_addr_ext cfg p.flags then
            { p with m := { p.m with
                from_ := (p.m.from_ ||| ((b &&& 0x7F) <<< (7 * p.m.index))) % lwpkt_addr_mod cfg,
                index := p.m.index + 1 } }
          else { p with m := { p.m with from_ := b } }
        /- NOTE: completion here tests the compile-time `LWPKT_CFG_ADDR_EXTENDED`,
           not the runtime feature check used in the `TO` state. -/
        if cfg.addr_extended = 0 ∨ (cfg.addr_extended ≠ 0 ∧ b &&& 0x80 = 0) then
          .cont (prv_go_to_next_packet_rx_state cfg p)
        else .cont p
  | .TO =>
      if cfg.use_addr = 0 then .term .ERR (LWPKT_RESET p)
      else
        let p := ADD_IN_TO_CRC cfg p b
        let p := if lwpkt_feat_addr_ext cfg p.flags then
            { p with m := { p.m with
                to_ := (p.m.to_ ||| ((b &&& 0x7F) <<< (7 * p.m.index))) % lwpkt_addr_mod cfg,
                index := p.m.index + 1 } }
          else { p with m := { p.m with to_ := b } }
        if lwpkt_feat_addr_ext cfg p.flags = false ∨ b &&& 0x80 = 0 then
          .cont (prv_go_to_next_packet_rx_state cfg p)
        else .cont p
  | .FLAGS =>
      if cfg.use_flags = 0 then .term .ERR (LWPKT_RESET p)
      else
        let p := { p with m := { p.m with
            flags := (p.m.flags ||| ((b &&& 0x7F) <<< (7 * p.m.index))) % 2 ^ 32,
            index := p.m.index + 1 } }
        let p := ADD_IN_TO_CRC cfg p b
        if b &&& 0x80 = 0 then .cont (prv_go_to_next_packet_rx_state cfg p)
        else .cont p
  | .CMD =>
      if cfg.use_cmd = 0 then .term .ERR (LWPKT_RESET p)
      else
        let p := { p with m := { p.m with cmd := b } }
        let p := ADD_IN_TO_CRC cfg p b
        .cont (prv_go_to_next_packet_rx_state cfg p)
  | .LEN =>
      let p := { p with m := { p.m with
          len := (p.m.len ||| ((b &&& 0x7F) <<< (7 * p.m.index))) % 2 ^ 64,
          index := p.m.index + 1 } }
      let p := ADD_IN_TO_CRC cfg p b
      if b &&& 0x80 = 0 then .cont (prv_go_to_next_packet_rx_state cfg p)
      else .cont p
  | .DATA =>
      if p.m.index < LWPKT_CFG_MAX_DATA_LEN then
        let p := { p with data := p.data.set p.m.index b,
                          m := { p.m with index := p.m.index + 1 } }
        let p := ADD_IN_TO_CRC cfg p b
        if p.m.index = p.m.len then .cont (prv_go_to_next_packet_rx_state cfg p)
        else .cont p
      else .term .ERRMEM (LWPKT_RESET p)
  | .CRC =>
      if cfg.use_crc = 0 then .term .ERR (LWPKT_RESET p)
      else
        let p := if p.m.index < CRC_DATA_LEN cfg p.flags then
            { p with m := { p.m with
                crc_data := (p.m.crc_data ||| (b <<< (8 * p.m.index))) % 2 ^ 32,
                index := p.m.index + 1 } }
          else p
        if p.m.index = CRC_DATA_LEN cfg p.flags then
          let crcv := prv_crc_finish cfg p.flags p.m.crc
          let p := { p with m := { p.m with crc := crcv } }
          if crcv = p.m.crc_data then .cont (LWPKT_SET_STATE p .STOP)
          else .term .ERRCRC (LWPKT_RESET p)
        else .cont p
  | .STOP =>
      let p := prv_go_to_next_packet_rx_state cfg p
      if b = LWPKT_STOP_BYTE then .term .VALID p else .term .ERRSTOP p
  | .END => .term .ERR (LWPKT_RESET p)

/-- The `lwpkt_read` while-loop over an explicit byte list: consume bytes
through the state machine until a terminal verdict or the list is
exhausted; returns the verdict, the final instance and the unconsumed
bytes. -/
def lwpkt_read_list (cfg : lwpkt_cfg) (p : lwpkt_t) :
    List Nat → lwpktr_t × lwpkt_t × List Nat
  | [] => ((if p.m.state = .START then .WAITDATA else .INPROG), p, [])
  | b :: rest =>
      match lwpkt_read_step cfg p b with
      | .cont p' => lwpkt_read_list cfg p' rest
      | .term res p' => (res, p', rest)

/-- The `lwpkt_read` while-loop reading byte-by-byte from the RX ring via
`lwrb_read`, with fuel bounding the iteration count (`rx.size` always
suffices, as at most `size - 1` bytes are readable). -/
def lwpkt_read_loop (cfg : lwpkt_cfg) :
    Nat → lwpkt_t → Lwrb → lwpktr_t × lwpkt_t × Lwrb
  | 0, p, rx => ((if p.m.state = .START then .WAITDATA else .INPROG), p, rx)
  | fuel + 1, p, rx =>
      let res := lwrb_read rx 1
      match res.2 with
      | [b] =>
          match lwpkt_read_step cfg p b with
          | .cont p' => lwpkt_read_loop cfg fuel p' res.1
          | .term r p' => (r, p', res.1)
      | _ => ((if p.m.state = .START then .WAITDATA else .INPROG), p, res.1)

/-- `lwpkt_read` on an RX ring. -/
def lwpkt_read (cfg : lwpkt_cfg) (p : lwpkt_t) (rx : Lwrb) :
    lwpktr_t × lwpkt_t × Lwrb :=
  lwpkt_read_loop cfg rx.size p rx

/-- `WRITE_WITH_CRC`: push bytes to the TX ring and update the running
CRC when the CRC feature is active.  State is `(tx ring, crc)`. -/
def WRITE_WITH_CRC (cfg : lwpkt_cfg) (pflags : Nat) (st : Lwrb × Nat)
    (bytes : List Nat) : Lwrb × Nat :=
  ((lwrb_write st.1 bytes bytes.length).1,
   if lwpkt_crc_on cfg pflags then prv_crc_in cfg pflags st.2 bytes else st.2)

/-- The do-while VLQ7 emit loop of `lwpkt_write`, one byte per
`WRITE_WITH_CRC` call. -/
def lwpkt_write_vlq (cfg : lwpkt_cfg) (pflags : Nat) (st : Lwrb × Nat) (v : Nat) :
    Lwrb × Nat :=
  (vlqBytes v).foldl (fun st b => WRITE_WITH_CRC cfg pflags st [b]) st

/-- The CRC emit loop: `CRC_DATA_LEN` bytes, least significant first. -/
def crcLeBytes : Nat → Nat → List Nat
  | 0, _ => []
  | n + 1, v => (v &&& 0xFF) :: crcLeBytes n (v >>> 8)

/-- The `min_mem` computation at the top of `lwpkt_write`. -/
def lwpkt_write_min_mem (cfg : lwpkt_cfg) (p : lwpkt_t)
    (to_ flags_ len : Nat) : Nat :=
  2
  + (if lwpkt_feat_addr cfg p.flags then
      (if lwpkt_feat_addr_ext cfg p.flags then vlqLen p.addr + vlqLen to_ else 2)
     else 0)
  + (if lwpkt_feat_flags cfg p.flags then vlqLen flags_ else 0)
  + (if lwpkt_feat_cmd cfg p.flags then 1 else 0)
  + vlqLen len + len
  + (if lwpkt_crc_on cfg p.flags then CRC_DATA_LEN cfg p.flags else 0)

/-- `lwpkt_write`: check `min_mem` against the TX free space, then emit
START, addresses (VLQ7 when extended is active, else the low byte of the
`lwpkt_addr_t` object), flags, cmd, VLQ7 length, payload, CRC (LE) and
STOP.  Returns `ERRMEM` with the ring untouched when space is short. -/
def lwpkt_write (cfg : lwpkt_cfg) (p : lwpkt_t) (tx : Lwrb)
    (to_ flags_ cmd : Nat) (data : List Nat) (len : Nat) : lwpktr_t × Lwrb :=
  let min_mem := lwpkt_write_min_mem cfg p to_ flags_ len
  if lwrb_get_free tx < min_mem then (.ERRMEM, tx)
  else
    let crc0 := if lwpkt_crc_on cfg p.flags then prv_crc_init cfg p.flags else 0
    let tx := (lwrb_write tx [LWPKT_START_BYTE] 1).1
    let st : Lwrb × Nat := (tx, crc0)
    let st := if lwpkt_feat_addr cfg p.flags then
        (if lwpkt_feat_addr_ext cfg p.flags then
          lwpkt_write_vlq cfg p.flags (lwpkt_write_vlq cfg p.flags st p.addr) to_
        else
          WRITE_WITH_CRC cfg p.flags
            (WRITE_WITH_CRC cfg p.flags st [p.addr % 256]) [to_ % 256])
      else st
    let st := if lwpkt_feat_flags cfg p.flags then lwpkt_write_vlq cfg p.flags st flags_
      else st
    let st := if lwpkt_feat_cmd cfg p.flags then WRITE_WITH_CRC cfg p.flags st [cmd]
      else st
    let st := lwpkt_write_vlq cfg p.flags st len
    let st := if len > 0 then WRITE_WITH_CRC cfg p.flags st (data.take len) else st
    let tx := if lwpkt_crc_on cfg p.flags then
        (crcLeBytes (CRC_DATA_LEN cfg p.flags) (prv_crc_finish cfg p.flags st.2)).foldl
          (fun t byt => (lwrb_write t [byt] 1).1) st.1
      else st.1
    let tx := (lwrb_write tx [LWPKT_STOP_BYTE] 1).1
    (.OK, tx)

/-- Events observable from `lwpkt_process`. -/
inductive lwpkt_evt_type_t where
  | PKT | TIMEOUT
deriving Repr, DecidableEq

/-- `lwpkt_process`: run the decoder once, then update `last_rx_time` /
reset on inactivity, emitting the corresponding event.  `time` is a
`uint32_t`; the C elapsed-time subtraction is modular. -/
def lwpkt_process (cfg : lwpkt_cfg) (p : lwpkt_t) (rx : Lwrb) (time : Nat) :
    lwpktr_t × lwpkt_t × Lwrb × List lwpkt_evt_type_t :=
  let res := lwpkt_read cfg p rx
  let pktres := res.1
  let p1 := res.2.1
  let rx1 := res.2.2
  if pktres = .VALID then (pktres, { p1 with last_rx_time := time }, rx1, [.PKT])
  else if pktres = .INPROG then
    if (time + 2 ^ 32 - p1.last_rx_time) % 2 ^ 32 ≥ LWPKT_CFG_PROCESS_INPROG_TIMEOUT then
      (pktres, { (LWPKT_RESET p1) with last_rx_time := time }, rx1, [.TIMEOUT])
    else (pktres, p1, rx1, [])
  else (pktres, { p1 with last_rx_time := time }, rx1, [])

/-- Terminal verdicts in the sense of the spec. -/
def lwpkt_result_is_terminal : lwpktr_t → Bool
  | .VALID | .ERRCRC | .ERRSTOP | .ERRMEM | .ERR => true
  | _ => false

/-! ### Arithmetic and VLQ7 helper lemmas -/

lemma lor_shift_add (a d s : Nat) (h : a < 2 ^ s) : a ||| (d <<< s) = a + d * 2 ^ s := by
  apply Nat.eq_of_testBit_eq
  intro i
  rw [Nat.testBit_lor, Nat.testBit_shiftLeft]
  rcases Nat.lt_or_ge i s with hi | hi
  · have h1 : decide (i ≥ s) = false := by simp; omega
    rw [h1, Bool.false_and, Bool.or_false]
    rw [Nat.testBit_to_div_mod, Nat.testBit_to_div_mod]
    congr 2
    rw [show d * 2 ^ s = d * 2 ^ (s - i - 1) * 2 * 2 ^ i by
      rw [mul_assoc, mul_assoc, ← pow_succ', ← pow_add]; congr 2; omega]
    rw [Nat.add_mul_div_right _ _ (Nat.pos_pow_of_pos i (by norm_num))]
    rw [Nat.add_mul_mod_self_right]
  · have h1 : decide (i ≥ s) = true := by simp [hi]
    rw [h1, Bool.true_and]
    have ha : a.testBit i = false :=
      Nat.testBit_lt_two_pow (lt_of_lt_of_le h (Nat.pow_le_pow_right (by norm_num) hi))
    rw [ha, Bool.false_or]
    rw [Nat.testBit_to_div_mod, Nat.testBit_to_div_mod]
    congr 2
    rw [show (2:Nat) ^ i = 2 ^ s * 2 ^ (i - s) by rw [← pow_add]; congr 1; omega]
    rw [← Nat.div_div_eq_div_mul]
    congr 2
    rw [show d * 2 ^ s = 2 ^ s * d by ring]
    rw [Nat.add_mul_div_left _ _ (Nat.pos_pow_of_pos s (by norm_num))]
    rw [Nat.div_eq_of_lt h]
    omega

lemma and_7f_eq (v : Nat) : v &&& 0x7F = v % 128 := by
  have h : v &&& 2 ^ 7 - 1 = v % 2 ^ 7 := Nat.and_pow_two_sub_one_eq_mod v 7
  norm_num at h
  exact h

lemma and_ff_eq (v : Nat) : v &&& 0xFF = v % 256 := by
  have h : v &&& 2 ^ 8 - 1 = v % 2 ^ 8 := Nat.and_pow_two_sub_one_eq_mod v 8
  norm_num at h
  exact h

lemma and_80_of_lt {v : Nat} (h : v < 128) : v &&& 0x80 = 0 := by
  have : (0x80 : Nat) = 2 ^ 7 := by norm_num
  rw [this, Nat.and_two_pow]
  rw [Nat.testBit_lt_two_pow (by norm_num at *; omega)]
  rfl

lemma vlq_head_or_eighty (v : Nat) :
    ((v &&& 0x7F) ||| 0x80) &&& 0x7F = v &&& 0x7F := by
  rw [Nat.and_distrib_right, Nat.and_assoc]
  have h1 : (127 : Nat) &&& 127 = 127 := by decide
  have h2 : (128 : Nat) &&& 127 = 0 := by decide
  rw [h1, h2, Nat.or_zero]

lemma vlq_head_or_eighty_hi (v : Nat) : ((v &&& 0x7F) ||| 0x80) &&& 0x80 = 0x80 := by
  rw [Nat.and_distrib_right]
  have h1 : v &&& 0x7F &&& 0x80 = 0 := by
    rw [Nat.and_assoc]
    have h2 : (127 : Nat) &&& 128 = 0 := by decide
    rw [h2, Nat.and_zero]
  rw [h1]
  norm_num

lemma and_7f_lt (v : Nat) : v &&& 0x7F < 128 := by
  rw [and_7f_eq]; omega

lemma vlq_byte_lt (fuel v : Nat) : ∀ b ∈ vlqBytesAux fuel v, b < 256 := by
  induction fuel generalizing v with
  | zero => intro b hb; simp [vlqBytesAux] at hb
  | succ fuel ih =>
      intro b hb
      simp only [vlqBytesAux, List.mem_cons] at hb
      rcases hb with hb | hb
      · subst hb
        split_ifs with h
        · have := and_7f_lt v
          have : (v &&& 0x7F) ||| 0x80 < 256 := by
            have h1 : v &&& 0x7F < 2 ^ 8 := by have := and_7f_lt v; omega
            have h2 : (0x80 : Nat) < 2 ^ 8 := by norm_num
            calc (v &&& 0x7F) ||| 0x80 < 2 ^ 8 := Nat.or_lt_two_pow h1 h2
            _ = 256 := by norm_num
          simpa using this
        · have := and_7f_lt v
          simpa using by omega
      · split_ifs at hb with h
        · exact ih _ _ hb
        · simp at hb

/-- Byte-list view of the `vlqBytesAux` recursion used throughout. -/
lemma vlqBytesAux_eq (fuel v : Nat) :
    vlqBytesAux (fuel + 1) v =
      ((v &&& 0x7F) ||| (if v > 0x7F then 0x80 else 0)) ::
        (if v >>> 7 > 0 then vlqBytesAux fuel (v >>> 7) else []) := rfl

lemma vlqLen_le (fuel v : Nat) (hv : v < 2 ^ (7 * fuel)) (hf : 0 < fuel) :
    (vlqBytesAux fuel v).length ≤ fuel := by
  induction fuel generalizing v with
  | zero => omega
  | succ fuel ih =>
      rw [vlqBytesAux_eq]
      simp only [List.length_cons]
      split_ifs with h
      · have h7 : v >>> 7 < 2 ^ (7 * fuel) := by
          rw [Nat.shiftRight_eq_div_pow]
          have : v < 2 ^ (7 * fuel) * 2 ^ 7 := by
            rw [← pow_add]
            calc v < 2 ^ (7 * (fuel + 1)) := hv
            _ = 2 ^ (7 * fuel + 7) := by ring_nf
          omega
        rcases Nat.eq_zero_or_pos fuel with hf0 | hfp
        · subst hf0
          simp [vlqBytesAux]
        · have := ih (v >>> 7) h7 hfp
          omega
      · simp

/-! ### Decoder consume relation -/

/-- `lwpkt_consume cfg p bytes = some p'` when the state machine consumes
all of `bytes` without producing a terminal verdict. -/
def lwpkt_consume (cfg : lwpkt_cfg) (p : lwpkt_t) : List Nat → Option lwpkt_t
  | [] => some p
  | b :: rest =>
      match lwpkt_read_step cfg p b with
      | .cont p' => lwpkt_consume cfg p' rest
      | .term _ _ => none

lemma lwpkt_read_list_of_consume {cfg : lwpkt_cfg} {p p' : lwpkt_t} {xs : List Nat}
    (h : lwpkt_consume cfg p xs = some p') (ys : List Nat) :
    lwpkt_read_list cfg p (xs ++ ys) = lwpkt_read_list cfg p' ys := by
  induction xs generalizing p with
  | nil => simp [lwpkt_consume] at h; subst h; rfl
  | cons b t ih =>
      rw [List.cons_append]
      rw [lwpkt_read_list]
      rw [lwpkt_consume] at h
      cases hstep : lwpkt_read_step cfg p b with
      | cont q => rw [hstep] at h; exact ih h
      | term r q => rw [hstep] at h; cases h

lemma lwpkt_consume_append {cfg : lwpkt_cfg} {p q : lwpkt_t} {xs : List Nat}
    (h : lwpkt_consume cfg p xs = some q) (ys : List Nat) :
    lwpkt_consume cfg p (xs ++ ys) = lwpkt_consume cfg q ys := by
  induction xs generalizing p with
  | nil => simp [lwpkt_consume] at h; subst h; rfl
  | cons b t ih =>
      rw [List.cons_append]
      rw [lwpkt_consume] at h ⊢
      cases hstep : lwpkt_read_step cfg p b with
      | cont p' => rw [hstep] at h; exact ih h
      | term r p' => rw [hstep] at h; cases h

lemma lwpkt_read_step_term_props {cfg : lwpkt_cfg} {p : lwpkt_t} {b : Nat}
    {r : lwpktr_t} {p' : lwpkt_t}
    (h : lwpkt_read_step cfg p b = .term r p') :
    lwpkt_result_is_terminal r = true ∧ p'.m.state = .START ∧ p'.m.index = 0 ∧
    ((r = .ERRCRC ∨ r = .ERRMEM ∨ r = .ERR) → p'.m = LWPKT_M_ZERO) := by
  unfold lwpkt_read_step at h
  cases hst : p.m.state <;> rw [hst] at h <;> (try dsimp only at h) <;>
    (try split_ifs at h) <;> (try cases h) <;>
    simp_all [lwpkt_result_is_terminal, LWPKT_RESET, LWPKT_M_ZERO,
      prv_go_to_next_packet_rx_state, LWPKT_SET_STATE, hst]

lemma lwpkt_read_list_term_props {cfg : lwpkt_cfg} {p : lwpkt_t} {bytes : List Nat}
    {r : lwpktr_t} {p' : lwpkt_t} {rest : List Nat}
    (h : lwpkt_read_list cfg p bytes = (r, p', rest))
    (ht : lwpkt_result_is_terminal r = true) :
    p'.m.state = .START ∧ p'.m.index = 0 ∧
    ((r = .ERRCRC ∨ r = .ERRMEM ∨ r = .ERR) → p'.m = LWPKT_M_ZERO) := by
  induction bytes generalizing p with
  | nil =>
      rw [lwpkt_read_list] at h
      simp only [Prod.mk.injEq] at h
      obtain ⟨h1, -, -⟩ := h
      subst h1
      split_ifs at ht <;> simp [lwpkt_result_is_terminal] at ht
  | cons b t ih =>
      rw [lwpkt_read_list] at h
      cases hstep : lwpkt_read_step cfg p b with
      | cont q => rw [hstep] at h; exact ih h
      | term r0 q =>
          rw [hstep] at h
          dsimp only at h
          simp only [Prod.mk.injEq] at h
          obtain ⟨rfl, rfl, rfl⟩ := h
          obtain ⟨-, hs, hi, hz⟩ := lwpkt_read_step_term_props hstep
          exact ⟨hs, hi, hz⟩

/-- Splitting the input stream: a terminal verdict stops consumption
immediately (the remaining bytes survive), and a non-terminal call is a
no-op prefix of any continuation. -/
lemma lwpkt_read_list_append (cfg : lwpkt_cfg) (p : lwpkt_t) (xs ys : List Nat) :
    (lwpkt_result_is_terminal (lwpkt_read_list cfg p xs).1 = true →
      lwpkt_read_list cfg p (xs ++ ys) =
        ((lwpkt_read_list cfg p xs).1, (lwpkt_read_list cfg p xs).2.1,
         (lwpkt_read_list cfg p xs).2.2 ++ ys)) ∧
    (lwpkt_result_is_terminal (lwpkt_read_list cfg p xs).1 = false →
      (lwpkt_read_list cfg p xs).2.2 = [] ∧
      lwpkt_read_list cfg p (xs ++ ys) =
        lwpkt_read_list cfg (lwpkt_read_list cfg p xs).2.1 ys) := by
  induction xs generalizing p with
  | nil =>
      constructor
      · intro ht
        rw [lwpkt_read_list] at ht
        split_ifs at ht <;> simp [lwpkt_result_is_terminal] at ht
      · intro _
        exact ⟨rfl, rfl⟩
  | cons b t ih =>
      rw [List.cons_append, lwpkt_read_list, lwpkt_read_list]
      cases hstep : lwpkt_read_step cfg p b with
      | cont q => exact ih q
      | term r0 q =>
          obtain ⟨ht0, -, -, -⟩ := lwpkt_read_step_term_props hstep
          constructor
          · intro _; rfl
          · intro hf
            rw [ht0] at hf
            cases hf

lemma lwrb_get_full_le {rb : Lwrb} (h : lwrb_ok rb = true) :
    lwrb_get_full rb ≤ rb.size - 1 := by
  obtain ⟨hs, hb, hw, hr⟩ := lwrb_ok_elim h
  rw [lwrb_get_full_formula h]
  split_ifs <;> omega

lemma lwrb_read_one_cons {rb : Lwrb} {b : Nat} {t : List Nat}
    (h : lwrb_ok rb = true) (hc : lwrb_contents rb = b :: t) :
    (lwrb_read rb 1).2 = [b] ∧
    lwrb_ok (lwrb_read rb 1).1 = true ∧
    (lwrb_read rb 1).1.size = rb.size ∧
    (lwrb_read rb 1).1.w = rb.w ∧
    (lwrb_read rb 1).1.buff = rb.buff ∧
    lwrb_contents (lwrb_read rb 1).1 = t := by
  have hfull : 1 ≤ lwrb_get_full rb := by
    rw [← lwrb_contents_length h, hc]
    simp
  obtain ⟨h1, h2, h3, h4, h5, h6⟩ := lwrb_read_spec h hfull
  refine ⟨?_, h5, h2, h3, h4, ?_⟩
  · rw [h1, hc]; rfl
  · rw [h6, hc]; rfl

/-- The ring-level `lwpkt_read` loop agrees with the list-level loop run
on the ring contents; the unconsumed bytes stay in the RX ring. -/
lemma lwpkt_read_loop_eq (cfg : lwpkt_cfg) :
    ∀ (fuel : Nat) (p : lwpkt_t) (rx : Lwrb), lwrb_ok rx = true →
    (lwrb_contents rx).length < fuel →
    (lwpkt_read_loop cfg fuel p rx).1 = (lwpkt_read_list cfg p (lwrb_contents rx)).1 ∧
    (lwpkt_read_loop cfg fuel p rx).2.1 = (lwpkt_read_list cfg p (lwrb_contents rx)).2.1 ∧
    lwrb_ok (lwpkt_read_loop cfg fuel p rx).2.2 = true ∧
    (lwpkt_read_loop cfg fuel p rx).2.2.size = rx.size ∧
    (lwpkt_read_loop cfg fuel p rx).2.2.w = rx.w ∧
    (lwpkt_read_loop cfg fuel p rx).2.2.buff = rx.buff ∧
    lwrb_contents (lwpkt_read_loop cfg fuel p rx).2.2 =
      (lwpkt_read_list cfg p (lwrb_contents rx)).2.2 := by
  intro fuel
  induction fuel with
  | zero => intro p rx _ hlt; omega
  | succ fuel ih =>
      intro p rx hok hlt
      cases hc : lwrb_contents rx with
      | nil =>
          have hf0 : lwrb_get_full rx = 0 := by
            rw [← lwrb_contents_length hok, hc]; rfl
          have hunfold : lwpkt_read_loop cfg (fuel + 1) p rx =
              ((if p.m.state = .START then lwpktr_t.WAITDATA else .INPROG), p, rx) := by
            rw [lwpkt_read_loop, lwrb_read_empty hok hf0]
          rw [hunfold, lwpkt_read_list]
          exact ⟨rfl, rfl, hok, rfl, rfl, rfl, hc⟩
      | cons b t =>
          obtain ⟨h1, h2, h3, h4, h5, h6⟩ := lwrb_read_one_cons hok hc
          have hunfold : lwpkt_read_loop cfg (fuel + 1) p rx =
              (match lwpkt_read_step cfg p b with
               | .cont p' => lwpkt_read_loop cfg fuel p' (lwrb_read rx 1).1
               | .term r p' => (r, p', (lwrb_read rx 1).1)) := by
            rw [lwpkt_read_loop, h1]
          rw [hunfold, lwpkt_read_list]
          cases hstep : lwpkt_read_step cfg p b with
          | cont p' =>
              have hlt' : (lwrb_contents (lwrb_read rx 1).1).length < fuel := by
                rw [h6]
                rw [hc] at hlt
                simp at hlt ⊢
                omega
              obtain ⟨g1, g2, g3, g4, g5, g6, g7⟩ := ih p' (lwrb_read rx 1).1 h2 hlt'
              rw [h6] at g1 g2 g7
              exact ⟨g1, g2, g3, g4.trans h3, g5.trans h4, g6.trans h5, g7⟩
          | term r q =>
              exact ⟨rfl, rfl, h2, h3, h4, h5, h6⟩

/-- `lwpkt_read` on the ring equals the list-level decoder on the ring's
readable bytes. -/
lemma lwpkt_read_eq_list {cfg : lwpkt_cfg} {p : lwpkt_t} {rx : Lwrb}
    (h : lwrb_ok rx = true) :
    (lwpkt_read cfg p rx).1 = (lwpkt_read_list cfg p (lwrb_contents rx)).1 ∧
    (lwpkt_read cfg p rx).2.1 = (lwpkt_read_list cfg p (lwrb_contents rx)).2.1 ∧
    lwrb_ok (lwpkt_read cfg p rx).2.2 = true ∧
    (lwpkt_read cfg p rx).2.2.size = rx.size ∧
    (lwpkt_read cfg p rx).2.2.w = rx.w ∧
    (lwpkt_read cfg p rx).2.2.buff = rx.buff ∧
    lwrb_contents (lwpkt_read cfg p rx).2.2 =
      (lwpkt_read_list cfg p (lwrb_contents rx)).2.2 := by
  obtain ⟨hs, hb, hw, hr⟩ := lwrb_ok_elim h
  apply lwpkt_read_loop_eq cfg rx.size p rx h
  rw [lwrb_contents_length h]
  have := lwrb_get_full_le h
  omega

/-! ### Per-state decoding lemmas -/

/-- One `ADD_IN_TO_CRC` update as a pure function on the accumulator. -/
def lwpkt_crc_add1 (cfg : lwpkt_cfg) (pflags c b : Nat) : Nat :=
  if lwpkt_crc_on cfg pflags then prv_crc_calc_one c b (lwpkt_crc_poly cfg pflags) else c

def lwpkt_crc_add (cfg : lwpkt_cfg) (pflags c : Nat) (bs : List Nat) : Nat :=
  bs.foldl (lwpkt_crc_add1 cfg pflags) c

lemma ADD_IN_TO_CRC_eq (cfg : lwpkt_cfg) (p : lwpkt_t) (b : Nat) :
    ADD_IN_TO_CRC cfg p b =
      { p with m := { p.m with crc := lwpkt_crc_add1 cfg p.flags p.m.crc b } } := by
  unfold ADD_IN_TO_CRC lwpkt_crc_add1
  split_ifs <;> rfl

lemma lwpkt_crc_add_cons (cfg : lwpkt_cfg) (pflags c b : Nat) (bs : List Nat) :
    lwpkt_crc_add cfg pflags c (b :: bs) =
      lwpkt_crc_add cfg pflags (lwpkt_crc_add1 cfg pflags c b) bs := rfl

lemma lwpkt_crc_add_append (cfg : lwpkt_cfg) (pflags c : Nat) (xs ys : List Nat) :
    lwpkt_crc_add cfg pflags c (xs ++ ys) =
      lwpkt_crc_add cfg pflags (lwpkt_crc_add cfg pflags c xs) ys := by
  unfold lwpkt_crc_add
  rw [List.foldl_append]

lemma lwpkt_crc_add_eq (cfg : lwpkt_cfg) (pflags c : Nat) (bs : List Nat) :
    lwpkt_crc_add cfg pflags c bs =
      if lwpkt_crc_on cfg pflags then prv_crc_in cfg pflags c bs else c := by
  induction bs generalizing c with
  | nil => unfold lwpkt_crc_add prv_crc_in; split_ifs <;> rfl
  | cons b bs ih =>
      rw [lwpkt_crc_add_cons, ih]
      unfold lwpkt_crc_add1 prv_crc_in
      split_ifs with h <;> simp [h]

lemma vlq_shift_bound {v fuel : Nat} (hv : v < 2 ^ (7 * (fuel + 1))) :
    v >>> 7 < 2 ^ (7 * fuel) := by
  rw [Nat.shiftRight_eq_div_pow]
  have : v < 2 ^ (7 * fuel) * 2 ^ 7 := by
    rw [← pow_add]
    calc v < 2 ^ (7 * (fuel + 1)) := hv
    _ = 2 ^ (7 * fuel + 7) := by ring_nf
  omega

/-- Consuming one complete VLQ7 encoding in the `LEN` state accumulates
the encoded value, advances `index` by the byte count, folds the bytes
into the CRC and finally steps to the next state. -/
lemma lwpkt_consume_vlq_len (cfg : lwpkt_cfg) :
    ∀ (fuel : Nat) (p : lwpkt_t) (v : Nat), 0 < fuel →
    p.m.state = .LEN →
    v < 2 ^ (7 * fuel) →
    p.m.len < 2 ^ (7 * p.m.index) →
    p.m.len + v * 2 ^ (7 * p.m.index) < 2 ^ 64 →
    lwpkt_consume cfg p (vlqBytesAux fuel v) =
      some (prv_go_to_next_packet_rx_state cfg
        { p with m := { p.m with
            len := p.m.len + v * 2 ^ (7 * p.m.index),
            index := p.m.index + (vlqBytesAux fuel v).length,
            crc := lwpkt_crc_add cfg p.flags p.m.crc (vlqBytesAux fuel v) } }) := by
  intro fuel
  induction fuel with
  | zero => omega
  | succ fuel ih =>
      intro p v _ hst hv hacc hbound
      have hstep : ∀ b : Nat, lwpkt_read_step cfg p b =
          (if b &&& 0x80 = 0 then
            lwpkt_step_t.cont (prv_go_to_next_packet_rx_state cfg
              { p with m := { p.m with
                  len := (p.m.len ||| ((b &&& 0x7F) <<< (7 * p.m.index))) % 2 ^ 64,
                  index := p.m.index + 1,
                  crc := lwpkt_crc_add1 cfg p.flags p.m.crc b } })
          else lwpkt_step_t.cont
              { p with m := { p.m with
                  len := (p.m.len ||| ((b &&& 0x7F) <<< (7 * p.m.index))) % 2 ^ 64,
                  index := p.m.index + 1,
                  crc := lwpkt_crc_add1 cfg p.flags p.m.crc b } }) := by
        intro b
        simp only [lwpkt_read_step, hst, ADD_IN_TO_CRC_eq]
      rw [vlqBytesAux_eq]
      by_cases hbig : v > 0x7F
      · -- continuation byte, more to come
        have hshift : v >>> 7 > 0 := by
          rw [Nat.shiftRight_eq_div_pow]; omega
        rw [if_pos hbig, if_pos hshift]
        rw [lwpkt_consume, hstep]
        rw [if_neg (by rw [vlq_head_or_eighty_hi]; omega)]
        have hlow : ((v &&& 0x7F) ||| 0x80) &&& 0x7F = v % 128 := by
          rw [vlq_head_or_eighty, and_7f_eq]
        rw [hlow]
        have hupd : (p.m.len ||| ((v % 128) <<< (7 * p.m.index))) % 2 ^ 64 =
            p.m.len + (v % 128) * 2 ^ (7 * p.m.index) := by
          rw [lor_shift_add _ _ _ hacc]
          apply Nat.mod_eq_of_lt
          have : (v % 128) * 2 ^ (7 * p.m.index) ≤ v * 2 ^ (7 * p.m.index) :=
            Nat.mul_le_mul_right _ (Nat.mod_le _ _)
          omega
        rw [hupd]
        set q : lwpkt_t := { p with m := { p.m with
            len := p.m.len + (v % 128) * 2 ^ (7 * p.m.index),
            index := p.m.index + 1,
            crc := lwpkt_crc_add1 cfg p.flags p.m.crc ((v &&& 0x7F) ||| 0x80) } } with hq
        dsimp only
        have hvid : p.m.len + (v % 128) * 2 ^ (7 * p.m.index)
            + (v >>> 7) * 2 ^ (7 * (p.m.index + 1)) =
            p.m.len + v * 2 ^ (7 * p.m.index) := by
          rw [Nat.shiftRight_eq_div_pow]
          have h1 : (2:Nat) ^ (7 * (p.m.index + 1)) = 2 ^ (7 * p.m.index) * 128 := by
            rw [show 7 * (p.m.index + 1) = 7 * p.m.index + 7 by ring, pow_add]
            norm_num
          have h2 : (2:Nat) ^ 7 = 128 := by norm_num
          rw [h1, h2]
          have h3 : v % 128 + v / 128 * 128 = v := Nat.mod_add_div' v 128
          calc p.m.len + v % 128 * 2 ^ (7 * p.m.index)
                + v / 128 * (2 ^ (7 * p.m.index) * 128)
              = p.m.len + (v % 128 + v / 128 * 128) * 2 ^ (7 * p.m.index) := by ring
            _ = p.m.len + v * 2 ^ (7 * p.m.index) := by rw [h3]
        have := ih q (v >>> 7) (by
            rcases Nat.eq_zero_or_pos fuel with h0 | hp
            · exfalso
              subst h0
              have : v < 2 ^ 7 := by simpa using hv
              omega
            · exact hp)
          hst (vlq_shift_bound hv)
          (by
            rw [hq]
            show p.m.len + (v % 128) * 2 ^ (7 * p.m.index) < 2 ^ (7 * (p.m.index + 1))
            have h1 : (2:Nat) ^ (7 * (p.m.index + 1)) = 2 ^ (7 * p.m.index) * 128 := by
              rw [show 7 * (p.m.index + 1) = 7 * p.m.index + 7 by ring, pow_add]
              norm_num
            have h2 : v % 128 ≤ 127 := by omega
            have h3 : (v % 128) * 2 ^ (7 * p.m.index) ≤ 127 * 2 ^ (7 * p.m.index) :=
              Nat.mul_le_mul_right _ h2
            have h4 : (0:Nat) < 2 ^ (7 * p.m.index) := Nat.pos_pow_of_pos _ (by norm_num)
            rw [h1]
            nlinarith)
          (by
            show q.m.len + (v >>> 7) * 2 ^ (7 * q.m.index) < 2 ^ 64
            rw [hq]
            show p.m.len + (v % 128) * 2 ^ (7 * p.m.index)
              + (v >>> 7) * 2 ^ (7 * (p.m.index + 1)) < 2 ^ 64
            rw [hvid]
            exact hbound)
        rw [this]
        congr 1
        congr 1
        rw [hq]
        show ({ p with m := { p.m with
            len := (p.m.len + (v % 128) * 2 ^ (7 * p.m.index))
              + (v >>> 7) * 2 ^ (7 * (p.m.index + 1)),
            index := (p.m.index + 1) + (vlqBytesAux fuel (v >>> 7)).length,
            crc := lwpkt_crc_add cfg p.flags
              (lwpkt_crc_add1 cfg p.flags p.m.crc ((v &&& 0x7F) ||| 0x80))
              (vlqBytesAux fuel (v >>> 7)) } } : lwpkt_t) =
          { p with m := { p.m with
            len := p.m.len + v * 2 ^ (7 * p.m.index),
            index := p.m.index + ((((v &&& 0x7F) ||| 0x80) ::
              vlqBytesAux fuel (v >>> 7)).length),
            crc := lwpkt_crc_add cfg p.flags p.m.crc
              (((v &&& 0x7F) ||| 0x80) :: vlqBytesAux fuel (v >>> 7)) } }
        rw [hvid, lwpkt_crc_add_cons]
        simp only [List.length_cons]
        congr 2
        omega
      · -- final byte (high bit clear)
        have hv128 : v < 128 := by omega
        have hb : (v &&& 0x7F) ||| (if v > 0x7F then 0x80 else 0) = v := by
          rw [if_neg hbig, Nat.or_zero, and_7f_eq, Nat.mod_eq_of_lt hv128]
        have hshift : ¬ v >>> 7 > 0 := by
          rw [Nat.shiftRight_eq_div_pow]
          simp
          omega
        rw [if_neg hshift, hb]
        rw [lwpkt_consume, hstep]
        rw [if_pos (and_80_of_lt hv128)]
        have hupd : (p.m.len ||| ((v &&& 0x7F) <<< (7 * p.m.index))) % 2 ^ 64 =
            p.m.len + v * 2 ^ (7 * p.m.index) := by
          rw [and_7f_eq, Nat.mod_eq_of_lt hv128, lor_shift_add _ _ _ hacc,
            Nat.mod_eq_of_lt hbound]
        rw [hupd]
        dsimp only
        rw [lwpkt_consume]
        rfl

lemma lwpkt_feat_addr_ext_ne_zero {cfg : lwpkt_cfg} {pflags : Nat}
    (h : lwpkt_feat_addr_ext cfg pflags = true) : cfg.addr_extended ≠ 0 := by
  unfold lwpkt_feat_addr_ext CHECK_FEATURE_CONFIG_MODE_ENABLED at h
  simp at h
  rcases h with h | h <;> omega

lemma lwpkt_addr_mod_ext {cfg : lwpkt_cfg} (h : cfg.addr_extended ≠ 0) :
    lwpkt_addr_mod cfg = 2 ^ 32 := by
  unfold lwpkt_addr_mod
  simp [h]

/-- VLQ7 consumption in the `FLAGS` state (32-bit accumulator). -/
lemma lwpkt_consume_vlq_flags (cfg : lwpkt_cfg) (hf : cfg.use_flags ≠ 0) :
    ∀ (fuel : Nat) (p : lwpkt_t) (v : Nat), 0 < fuel →
    p.m.state = .FLAGS →
    v < 2 ^ (7 * fuel) →
    p.m.flags < 2 ^ (7 * p.m.index) →
    p.m.flags + v * 2 ^ (7 * p.m.index) < 2 ^ 32 →
    lwpkt_consume cfg p (vlqBytesAux fuel v) =
      some (prv_go_to_next_packet_rx_state cfg
        { p with m := { p.m with
            flags := p.m.flags + v * 2 ^ (7 * p.m.index),
            index := p.m.index + (vlqBytesAux fuel v).length,
            crc := lwpkt_crc_add cfg p.flags p.m.crc (vlqBytesAux fuel v) } }) := by
  intro fuel
  induction fuel with
  | zero => omega
  | succ fuel ih =>
      intro p v _ hst hv hacc hbound
      have hstep : ∀ b : Nat, lwpkt_read_step cfg p b =
          (if b &&& 0x80 = 0 then
            lwpkt_step_t.cont (prv_go_to_next_packet_rx_state cfg
              { p with m := { p.m with
                  flags := (p.m.flags ||| ((b &&& 0x7F) <<< (7 * p.m.index))) % 2 ^ 32,
                  index := p.m.index + 1,
                  crc := lwpkt_crc_add1 cfg p.flags p.m.crc b } })
          else lwpkt_step_t.cont
              { p with m := { p.m with
                  flags := (p.m.flags ||| ((b &&& 0x7F) <<< (7 * p.m.index))) % 2 ^ 32,
                  index := p.m.index + 1,
                  crc := lwpkt_crc_add1 cfg p.flags p.m.crc b } }) := by
        intro b
        simp only [lwpkt_read_step, hst, ADD_IN_TO_CRC_eq, if_neg hf]
      rw [vlqBytesAux_eq]
      by_cases hbig : v > 0x7F
      · have hshift : v >>> 7 > 0 := by
          rw [Nat.shiftRight_eq_div_pow]; omega
        rw [if_pos hbig, if_pos hshift]
        rw [lwpkt_consume, hstep]
        rw [if_neg (by rw [vlq_head_or_eighty_hi]; omega)]
        have hlow : ((v &&& 0x7F) ||| 0x80) &&& 0x7F = v % 128 := by
          rw [vlq_head_or_eighty, and_7f_eq]
        rw [hlow]
        have hupd : (p.m.flags ||| ((v % 128) <<< (7 * p.m.index))) % 2 ^ 32 =
            p.m.flags + (v % 128) * 2 ^ (7 * p.m.index) := by
          rw [lor_shift_add _ _ _ hacc]
          apply Nat.mod_eq_of_lt
          have : (v % 128) * 2 ^ (7 * p.m.index) ≤ v * 2 ^ (7 * p.m.index) :=
            Nat.mul_le_mul_right _ (Nat.mod_le _ _)
          omega
        rw [hupd]
        set q : lwpkt_t := { p with m := { p.m with
            flags := p.m.flags + (v % 128) * 2 ^ (7 * p.m.index),
            index := p.m.index + 1,
            crc := lwpkt_crc_add1 cfg p.flags p.m.crc ((v &&& 0x7F) ||| 0x80) } } with hq
        dsimp only
        have hvid : p.m.flags + (v % 128) * 2 ^ (7 * p.m.index)
            + (v >>> 7) * 2 ^ (7 * (p.m.index + 1)) =
            p.m.flags + v * 2 ^ (7 * p.m.index) := by
          rw [Nat.shiftRight_eq_div_pow]
          have h1 : (2:Nat) ^ (7 * (p.m.index + 1)) = 2 ^ (7 * p.m.index) * 128 := by
            rw [show 7 * (p.m.index + 1) = 7 * p.m.index + 7 by ring, pow_add]
            norm_num
          have h2 : (2:Nat) ^ 7 = 128 := by norm_num
          rw [h1, h2]
          have h3 : v % 128 + v / 128 * 128 = v := Nat.mod_add_div' v 128
          calc p.m.flags + v % 128 * 2 ^ (7 * p.m.index)
                + v / 128 * (2 ^ (7 * p.m.index) * 128)
              = p.m.flags + (v % 128 + v / 128 * 128) * 2 ^ (7 * p.m.index) := by ring
            _ = p.m.flags + v * 2 ^ (7 * p.m.index) := by rw [h3]
        have := ih q (v >>> 7) (by
            rcases Nat.eq_zero_or_pos fuel with h0 | hp
            · exfalso
              subst h0
              have : v < 2 ^ 7 := by simpa using hv
              omega
            · exact hp)
          hst (vlq_shift_bound hv)
          (by
            rw [hq]
            show p.m.flags + (v % 128) * 2 ^ (7 * p.m.index) < 2 ^ (7 * (p.m.index + 1))
            have h1 : (2:Nat) ^ (7 * (p.m.index + 1)) = 2 ^ (7 * p.m.index) * 128 := by
              rw [show 7 * (p.m.index + 1) = 7 * p.m.index + 7 by ring, pow_add]
              norm_num
            have h2 : v % 128 ≤ 127 := by omega
            have h3 : (v % 128) * 2 ^ (7 * p.m.index) ≤ 127 * 2 ^ (7 * p.m.index) :=
              Nat.mul_le_mul_right _ h2
            have h4 : (0:Nat) < 2 ^ (7 * p.m.index) := Nat.pos_pow_of_pos _ (by norm_num)
            rw [h1]
            nlinarith)
          (by
            show q.m.flags + (v >>> 7) * 2 ^ (7 * q.m.index) < 2 ^ 32
            rw [hq]
            show p.m.flags + (v % 128) * 2 ^ (7 * p.m.index)
              + (v >>> 7) * 2 ^ (7 * (p.m.index + 1)) < 2 ^ 32
            rw [hvid]
            exact hbound)
        rw [this]
        congr 1
        congr 1
        rw [hq]
        show ({ p with m := { p.m with
            flags := (p.m.flags + (v % 128) * 2 ^ (7 * p.m.index))
              + (v >>> 7) * 2 ^ (7 * (p.m.index + 1)),
            index := (p.m.index + 1) + (vlqBytesAux fuel (v >>> 7)).length,
            crc := lwpkt_crc_add cfg p.flags
              (lwpkt_crc_add1 cfg p.flags p.m.crc ((v &&& 0x7F) ||| 0x80))
              (vlqBytesAux fuel (v >>> 7)) } } : lwpkt_t) =
          { p with m := { p.m with
            flags := p.m.flags + v * 2 ^ (7 * p.m.index),
            index := p.m.index + ((((v &&& 0x7F) ||| 0x80) ::
              vlqBytesAux fuel (v >>> 7)).length),
            crc := lwpkt_crc_add cfg p.flags p.m.crc
              (((v &&& 0x7F) ||| 0x80) :: vlqBytesAux fuel (v >>> 7)) } }
        rw [hvid, lwpkt_crc_add_cons]
        simp only [List.length_cons]
        congr 2
        omega
      · have hv128 : v < 128 := by omega
        have hb : (v &&& 0x7F) ||| (if v > 0x7F then 0x80 else 0) = v := by
          rw [if_neg hbig, Nat.or_zero, and_7f_eq, Nat.mod_eq_of_lt hv128]
        have hshift : ¬ v >>> 7 > 0 := by
          rw [Nat.shiftRight_eq_div_pow]
          simp
          omega
        rw [if_neg hshift, hb]
        rw [lwpkt_consume, hstep]
        rw [if_pos (and_80_of_lt hv128)]
        have hupd : (p.m.flags ||| ((v &&& 0x7F) <<< (7 * p.m.index))) % 2 ^ 32 =
            p.m.flags + v * 2 ^ (7 * p.m.index) := by
          rw [and_7f_eq, Nat.mod_eq_of_lt hv128, lor_shift_add _ _ _ hacc,
            Nat.mod_eq_of_lt hbound]
        rw [hupd]
        dsimp only
        rw [lwpkt_consume]
        rfl

/-- VLQ7 consumption in the `FROM` state with extended addressing active
(the completion check is the compile-time `LWPKT_CFG_ADDR_EXTENDED`,
which is nonzero whenever the runtime feature is on). -/
lemma lwpkt_consume_vlq_from (cfg : lwpkt_cfg) (huse : cfg.use_addr ≠ 0) :
    ∀ (fuel : Nat) (p : lwpkt_t) (v : Nat), 0 < fuel →
    p.m.state = .FROM →
    lwpkt_feat_addr_ext cfg p.flags = true →
    v < 2 ^ (7 * fuel) →
    p.m.from_ < 2 ^ (7 * p.m.index) →
    p.m.from_ + v * 2 ^ (7 * p.m.index) < 2 ^ 32 →
    lwpkt_consume cfg p (vlqBytesAux fuel v) =
      some (prv_go_to_next_packet_rx_state cfg
        { p with m := { p.m with
            from_ := p.m.from_ + v * 2 ^ (7 * p.m.index),
            index := p.m.index + (vlqBytesAux fuel v).length,
            crc := lwpkt_crc_add cfg p.flags p.m.crc (vlqBytesAux fuel v) } }) := by
  intro fuel
  induction fuel with
  | zero => omega
  | succ fuel ih =>
      intro p v _ hst hext hv hacc hbound
      have hstep : ∀ b : Nat, lwpkt_read_step cfg p b =
          (if b &&& 0x80 = 0 then
            lwpkt_step_t.cont (prv_go_to_next_packet_rx_state cfg
              { p with m := { p.m with
                  from_ := (p.m.from_ ||| ((b &&& 0x7F) <<< (7 * p.m.index))) % 2 ^ 32,
                  index := p.m.index + 1,
                  crc := lwpkt_crc_add1 cfg p.flags p.m.crc b } })
          else lwpkt_step_t.cont
              { p with m := { p.m with
                  from_ := (p.m.from_ ||| ((b &&& 0x7F) <<< (7 * p.m.index))) % 2 ^ 32,
                  index := p.m.index + 1,
                  crc := lwpkt_crc_add1 cfg p.flags p.m.crc b } }) := by
        intro b
        have hextne := lwpkt_feat_addr_ext_ne_zero hext
        simp only [lwpkt_read_step, hst, ADD_IN_TO_CRC_eq, if_neg huse, hext,
          lwpkt_addr_mod_ext hextne, if_true]
        by_cases hb : b &&& 0x80 = 0
        · rw [if_pos (Or.inr ⟨hextne, hb⟩), if_pos hb]
        · rw [if_neg (by rintro (h0 | ⟨-, hbit⟩); exacts [hextne h0, hb hbit]), if_neg hb]
      rw [vlqBytesAux_eq]
      by_cases hbig : v > 0x7F
      · have hshift : v >>> 7 > 0 := by
          rw [Nat.shiftRight_eq_div_pow]; omega
        rw [if_pos hbig, if_pos hshift]
        rw [lwpkt_consume, hstep]
        rw [if_neg (by rw [vlq_head_or_eighty_hi]; omega)]
        have hlow : ((v &&& 0x7F) ||| 0x80) &&& 0x7F = v % 128 := by
          rw [vlq_head_or_eighty, and_7f_eq]
        rw [hlow]
        have hupd : (p.m.from_ ||| ((v % 128) <<< (7 * p.m.index))) % 2 ^ 32 =
            p.m.from_ + (v % 128) * 2 ^ (7 * p.m.index) := by
          rw [lor_shift_add _ _ _ hacc]
          apply Nat.mod_eq_of_lt
          have : (v % 128) * 2 ^ (7 * p.m.index) ≤ v * 2 ^ (7 * p.m.index) :=
            Nat.mul_le_mul_right _ (Nat.mod_le _ _)
          omega
        rw [hupd]
        set q : lwpkt_t := { p with m := { p.m with
            from_ := p.m.from_ + (v % 128) * 2 ^ (7 * p.m.index),
            index := p.m.index + 1,
            crc := lwpkt_crc_add1 cfg p.flags p.m.crc ((v &&& 0x7F) ||| 0x80) } } with hq
        dsimp only
        have hvid : p.m.from_ + (v % 128) * 2 ^ (7 * p.m.index)
            + (v >>> 7) * 2 ^ (7 * (p.m.index + 1)) =
            p.m.from_ + v * 2 ^ (7 * p.m.index) := by
          rw [Nat.shiftRight_eq_div_pow]
          have h1 : (2:Nat) ^ (7 * (p.m.index + 1)) = 2 ^ (7 * p.m.index) * 128 := by
            rw [show 7 * (p.m.index + 1) = 7 * p.m.index + 7 by ring, pow_add]
            norm_num
          have h2 : (2:Nat) ^ 7 = 128 := by norm_num
          rw [h1, h2]
          have h3 : v % 128 + v / 128 * 128 = v := Nat.mod_add_div' v 128
          calc p.m.from_ + v % 128 * 2 ^ (7 * p.m.index)
                + v / 128 * (2 ^ (7 * p.m.index) * 128)
              = p.m.from_ + (v % 128 + v / 128 * 128) * 2 ^ (7 * p.m.index) := by ring
            _ = p.m.from_ + v * 2 ^ (7 * p.m.index) := by rw [h3]
        have := ih q (v >>> 7) (by
            rcases Nat.eq_zero_or_pos fuel with h0 | hp
            · exfalso
              subst h0
              have : v < 2 ^ 7 := by simpa using hv
              omega
            · exact hp)
          hst hext (vlq_shift_bound hv)
          (by
            rw [hq]
            show p.m.from_ + (v % 128) * 2 ^ (7 * p.m.index) < 2 ^ (7 * (p.m.index + 1))
            have h1 : (2:Nat) ^ (7 * (p.m.index + 1)) = 2 ^ (7 * p.m.index) * 128 := by
              rw [show 7 * (p.m.index + 1) = 7 * p.m.index + 7 by ring, pow_add]
              norm_num
            have h2 : v % 128 ≤ 127 := by omega
            have h3 : (v % 128) * 2 ^ (7 * p.m.index) ≤ 127 * 2 ^ (7 * p.m.index) :=
              Nat.mul_le_mul_right _ h2
            have h4 : (0:Nat) < 2 ^ (7 * p.m.index) := Nat.pos_pow_of_pos _ (by norm_num)
            rw [h1]
            nlinarith)
          (by
            show q.m.from_ + (v >>> 7) * 2 ^ (7 * q.m.index) < 2 ^ 32
            rw [hq]
            show p.m.from_ + (v % 128) * 2 ^ (7 * p.m.index)
              + (v >>> 7) * 2 ^ (7 * (p.m.index + 1)) < 2 ^ 32
            rw [hvid]
            exact hbound)
        rw [this]
        congr 1
        congr 1
        rw [hq]
        show ({ p with m := { p.m with
            from_ := (p.m.from_ + (v % 128) * 2 ^ (7 * p.m.index))
              + (v >>> 7) * 2 ^ (7 * (p.m.index + 1)),
            index := (p.m.index + 1) + (vlqBytesAux fuel (v >>> 7)).length,
            crc := lwpkt_crc_add cfg p.flags
              (lwpkt_crc_add1 cfg p.flags p.m.crc ((v &&& 0x7F) ||| 0x80))
              (vlqBytesAux fuel (v >>> 7)) } } : lwpkt_t) =
          { p with m := { p.m with
            from_ := p.m.from_ + v * 2 ^ (7 * p.m.index),
            index := p.m.index + ((((v &&& 0x7F) ||| 0x80) ::
              vlqBytesAux fuel (v >>> 7)).length),
            crc := lwpkt_crc_add cfg p.flags p.m.crc
              (((v &&& 0x7F) ||| 0x80) :: vlqBytesAux fuel (v >>> 7)) } }
        rw [hvid, lwpkt_crc_add_cons]
        simp only [List.length_cons]
        congr 2
        omega
      · have hv128 : v < 128 := by omega
        have hb : (v &&& 0x7F) ||| (if v > 0x7F then 0x80 else 0) = v := by
          rw [if_neg hbig, Nat.or_zero, and_7f_eq, Nat.mod_eq_of_lt hv128]
        have hshift : ¬ v >>> 7 > 0 := by
          rw [Nat.shiftRight_eq_div_pow]
          simp
          omega
        rw [if_neg hshift, hb]
        rw [lwpkt_consume, hstep]
        rw [if_pos (and_80_of_lt hv128)]
        have hupd : (p.m.from_ ||| ((v &&& 0x7F) <<< (7 * p.m.index))) % 2 ^ 32 =
            p.m.from_ + v * 2 ^ (7 * p.m.index) := by
          rw [and_7f_eq, Nat.mod_eq_of_lt hv128, lor_shift_add _ _ _ hacc,
            Nat.mod_eq_of_lt hbound]
        rw [hupd]
        dsimp only
        rw [lwpkt_consume]
        rfl


/-- VLQ7 consumption in the `TO` state with extended addressing active
(completion here uses the runtime feature check). -/
lemma lwpkt_consume_vlq_to (cfg : lwpkt_cfg) (huse : cfg.use_addr ≠ 0) :
    ∀ (fuel : Nat) (p : lwpkt_t) (v : Nat), 0 < fuel →
    p.m.state = .TO →
    lwpkt_feat_addr_ext cfg p.flags = true →
    v < 2 ^ (7 * fuel) →
    p.m.to_ < 2 ^ (7 * p.m.index) →
    p.m.to_ + v * 2 ^ (7 * p.m.index) < 2 ^ 32 →
    lwpkt_consume cfg p (vlqBytesAux fuel v) =
      some (prv_go_to_next_packet_rx_state cfg
        { p with m := { p.m with
            to_ := p.m.to_ + v * 2 ^ (7 * p.m.index),
            index := p.m.index + (vlqBytesAux fuel v).length,
            crc := lwpkt_crc_add cfg p.flags p.m.crc (vlqBytesAux fuel v) } }) := by
  intro fuel
  induction fuel with
  | zero => omega
  | succ fuel ih =>
      intro p v _ hst hext hv hacc hbound
      have hstep : ∀ b : Nat, lwpkt_read_step cfg p b =
          (if b &&& 0x80 = 0 then
            lwpkt_step_t.cont (prv_go_to_next_packet_rx_state cfg
              { p with m := { p.m with
                  to_ := (p.m.to_ ||| ((b &&& 0x7F) <<< (7 * p.m.index))) % 2 ^ 32,
                  index := p.m.index + 1,
                  crc := lwpkt_crc_add1 cfg p.flags p.m.crc b } })
          else lwpkt_step_t.cont
              { p with m := { p.m with
                  to_ := (p.m.to_ ||| ((b &&& 0x7F) <<< (7 * p.m.index))) % 2 ^ 32,
                  index := p.m.index + 1,
                  crc := lwpkt_crc_add1 cfg p.flags p.m.crc b } }) := by
        intro b
        have hextne := lwpkt_feat_addr_ext_ne_zero hext
        simp only [lwpkt_read_step, hst, ADD_IN_TO_CRC_eq, if_neg huse, hext,
          lwpkt_addr_mod_ext hextne, if_true]
        by_cases hb : b &&& 0x80 = 0
        · rw [if_pos (Or.inr hb), if_pos hb]
        · rw [if_neg (by
              rintro (h0 | hbit)
              · simp at h0
              · exact hb hbit), if_neg hb]
      rw [vlqBytesAux_eq]
      by_cases hbig : v > 0x7F
      · have hshift : v >>> 7 > 0 := by
          rw [Nat.shiftRight_eq_div_pow]; omega
        rw [if_pos hbig, if_pos hshift]
        rw [lwpkt_consume, hstep]
        rw [if_neg (by rw [vlq_head_or_eighty_hi]; omega)]
        have hlow : ((v &&& 0x7F) ||| 0x80) &&& 0x7F = v % 128 := by
          rw [vlq_head_or_eighty, and_7f_eq]
        rw [hlow]
        have hupd : (p.m.to_ ||| ((v % 128) <<< (7 * p.m.index))) % 2 ^ 32 =
            p.m.to_ + (v % 128) * 2 ^ (7 * p.m.index) := by
          rw [lor_shift_add _ _ _ hacc]
          apply Nat.mod_eq_of_lt
          have : (v % 128) * 2 ^ (7 * p.m.index) ≤ v * 2 ^ (7 * p.m.index) :=
            Nat.mul_le_mul_right _ (Nat.mod_le _ _)
          omega
        rw [hupd]
        set q : lwpkt_t := { p with m := { p.m with
            to_ := p.m.to_ + (v % 128) * 2 ^ (7 * p.m.index),
            index := p.m.index + 1,
            crc := lwpkt_crc_add1 cfg p.flags p.m.crc ((v &&& 0x7F) ||| 0x80) } } with hq
        dsimp only
        have hvid : p.m.to_ + (v % 128) * 2 ^ (7 * p.m.index)
            + (v >>> 7) * 2 ^ (7 * (p.m.index + 1)) =
            p.m.to_ + v * 2 ^ (7 * p.m.index) := by
          rw [Nat.shiftRight_eq_div_pow]
          have h1 : (2:Nat) ^ (7 * (p.m.index + 1)) = 2 ^ (7 * p.m.index) * 128 := by
            rw [show 7 * (p.m.index + 1) = 7 * p.m.index + 7 by ring, pow_add]
            norm_num
          have h2 : (2:Nat) ^ 7 = 128 := by norm_num
          rw [h1, h2]
          have h3 : v % 128 + v / 128 * 128 = v := Nat.mod_add_div' v 128
          calc p.m.to_ + v % 128 * 2 ^ (7 * p.m.index)
                + v / 128 * (2 ^ (7 * p.m.index) * 128)
              = p.m.to_ + (v % 128 + v / 128 * 128) * 2 ^ (7 * p.m.index) := by ring
            _ = p.m.to_ + v * 2 ^ (7 * p.m.index) := by rw [h3]
        have := ih q (v >>> 7) (by
            rcases Nat.eq_zero_or_pos fuel with h0 | hp
            · exfalso
              subst h0
              have : v < 2 ^ 7 := by simpa using hv
              omega
            · exact hp)
          hst hext (vlq_shift_bound hv)
          (by
            rw [hq]
            show p.m.to_ + (v % 128) * 2 ^ (7 * p.m.index) < 2 ^ (7 * (p.m.index + 1))
            have h1 : (2:Nat) ^ (7 * (p.m.index + 1)) = 2 ^ (7 * p.m.index) * 128 := by
              rw [show 7 * (p.m.index + 1) = 7 * p.m.index + 7 by ring, pow_add]
              norm_num
            have h2 : v % 128 ≤ 127 := by omega
            have h3 : (v % 128) * 2 ^ (7 * p.m.index) ≤ 127 * 2 ^ (7 * p.m.index) :=
              Nat.mul_le_mul_right _ h2
            have h4 : (0:Nat) < 2 ^ (7 * p.m.index) := Nat.pos_pow_of_pos _ (by norm_num)
            rw [h1]
            nlinarith)
          (by
            show q.m.to_ + (v >>> 7) * 2 ^ (7 * q.m.index) < 2 ^ 32
            rw [hq]
            show p.m.to_ + (v % 128) * 2 ^ (7 * p.m.index)
              + (v >>> 7) * 2 ^ (7 * (p.m.index + 1)) < 2 ^ 32
            rw [hvid]
            exact hbound)
        rw [this]
        congr 1
        congr 1
        rw [hq]
        show ({ p with m := { p.m with
            to_ := (p.m.to_ + (v % 128) * 2 ^ (7 * p.m.index))
              + (v >>> 7) * 2 ^ (7 * (p.m.index + 1)),
            index := (p.m.index + 1) + (vlqBytesAux fuel (v >>> 7)).length,
            crc := lwpkt_crc_add cfg p.flags
              (lwpkt_crc_add1 cfg p.flags p.m.crc ((v &&& 0x7F) ||| 0x80))
              (vlqBytesAux fuel (v >>> 7)) } } : lwpkt_t) =
          { p with m := { p.m with
            to_ := p.m.to_ + v * 2 ^ (7 * p.m.index),
            index := p.m.index + ((((v &&& 0x7F) ||| 0x80) ::
              vlqBytesAux fuel (v >>> 7)).length),
            crc := lwpkt_crc_add cfg p.flags p.m.crc
              (((v &&& 0x7F) ||| 0x80) :: vlqBytesAux fuel (v >>> 7)) } }
        rw [hvid, lwpkt_crc_add_cons]
        simp only [List.length_cons]
        congr 2
        omega
      · have hv128 : v < 128 := by omega
        have hb : (v &&& 0x7F) ||| (if v > 0x7F then 0x80 else 0) = v := by
          rw [if_neg hbig, Nat.or_zero, and_7f_eq, Nat.mod_eq_of_lt hv128]
        have hshift : ¬ v >>> 7 > 0 := by
          rw [Nat.shiftRight_eq_div_pow]
          simp
          omega
        rw [if_neg hshift, hb]
        rw [lwpkt_consume, hstep]
        rw [if_pos (and_80_of_lt hv128)]
        have hupd : (p.m.to_ ||| ((v &&& 0x7F) <<< (7 * p.m.index))) % 2 ^ 32 =
            p.m.to_ + v * 2 ^ (7 * p.m.index) := by
          rw [and_7f_eq, Nat.mod_eq_of_lt hv128, lor_shift_add _ _ _ hacc,
            Nat.mod_eq_of_lt hbound]
        rw [hupd]
        dsimp only
        rw [lwpkt_consume]
        rfl


/-- Successive in-place stores `data[i par] = b`, as the `DATA` state does. -/
def listSetSeq (d : List Nat) (i : Nat) : List Nat → List Nat
  | [] => d
  | b :: bs => listSetSeq (d.set i b) (i + 1) bs

lemma listSetSeq_eq_copy : ∀ (bs : List Nat) (d : List Nat) (i : Nat),
    i + bs.length ≤ d.length → listSetSeq d i bs = listCopy d i bs := by
  intro bs
  induction bs with
  | nil =>
      intro d i h
      unfold listSetSeq listCopy
      simp
  | cons b bs ih =>
      intro d i h
      simp only [List.length_cons] at h
      have hid : i < d.length := by omega
      have hlen : (d.set i b).length = d.length := by simp
      rw [listSetSeq, ih (d.set i b) (i + 1) (by rw [hlen]; omega)]
      have hdecomp : d.set i b = (d.take i ++ [b]) ++ d.drop (i + 1) := by
        rw [List.set_eq_take_cons_drop b hid, List.append_assoc]
        rfl
      unfold listCopy
      rw [hdecomp]
      have hpre : (d.take i ++ [b]).length = i + 1 := by
        simp only [List.length_append, List.length_take, List.length_cons,
          List.length_nil]
        omega
      rw [take_len_append hpre]
      have hdrop : ∀ j, i + 1 ≤ j →
          ((d.take i ++ [b]) ++ d.drop (i + 1)).drop j = d.drop j := by
        intro j hj
        rw [show j = (d.take i ++ [b]).length + (j - (i + 1)) by rw [hpre]; omega,
          List.drop_append, List.drop_drop]
        congr 1
        omega
      rw [hdrop (i + 1 + bs.length) (by omega)]
      simp only [List.length_cons]
      rw [show i + (bs.length + 1) = i + 1 + bs.length by omega]
      rw [List.append_assoc, List.singleton_append, List.cons_append]

lemma lwpkt_consume_start (cfg : lwpkt_cfg) (p : lwpkt_t) (hst : p.m.state = .START) :
    lwpkt_consume cfg p [LWPKT_START_BYTE] =
      some (prv_go_to_next_packet_rx_state cfg
        { p with m := { LWPKT_M_ZERO with
            crc := if cfg.use_crc ≠ 0 then prv_crc_init cfg p.flags else 0 } }) := by
  rw [lwpkt_consume]
  have hstep : lwpkt_read_step cfg p LWPKT_START_BYTE =
      .cont (prv_go_to_next_packet_rx_state cfg
        { p with m := { LWPKT_M_ZERO with
            crc := if cfg.use_crc ≠ 0 then prv_crc_init cfg p.flags else 0 } }) := by
    simp only [lwpkt_read_step, hst, LWPKT_RESET]
    split_ifs <;> rfl
  rw [hstep]
  rfl

lemma lwpkt_consume_from_byte (cfg : lwpkt_cfg) (p : lwpkt_t) (b : Nat)
    (hst : p.m.state = .FROM) (huse : cfg.use_addr ≠ 0)
    (hext : lwpkt_feat_addr_ext cfg p.flags = false)
    (hadv : cfg.addr_extended = 0 ∨ b &&& 0x80 = 0) :
    lwpkt_consume cfg p [b] =
      some (prv_go_to_next_packet_rx_state cfg
        { p with m := { p.m with
            from_ := b, crc := lwpkt_crc_add1 cfg p.flags p.m.crc b } }) := by
  rw [lwpkt_consume]
  have hstep : lwpkt_read_step cfg p b =
      .cont (prv_go_to_next_packet_rx_state cfg
        { p with m := { p.m with
            from_ := b, crc := lwpkt_crc_add1 cfg p.flags p.m.crc b } }) := by
    simp only [lwpkt_read_step, hst, ADD_IN_TO_CRC_eq, if_neg huse, hext,
      Bool.false_eq_true, if_false]
    rw [if_pos (by
      rcases hadv with h0 | hb
      · exact Or.inl h0
      · rcases Nat.eq_zero_or_pos cfg.addr_extended with h0 | hpos
        · exact Or.inl h0
        · exact Or.inr ⟨by omega, hb⟩)]
  rw [hstep]
  rfl

lemma lwpkt_consume_to_byte (cfg : lwpkt_cfg) (p : lwpkt_t) (b : Nat)
    (hst : p.m.state = .TO) (huse : cfg.use_addr ≠ 0)
    (hext : lwpkt_feat_addr_ext cfg p.flags = false) :
    lwpkt_consume cfg p [b] =
      some (prv_go_to_next_packet_rx_state cfg
        { p with m := { p.m with
            to_ := b, crc := lwpkt_crc_add1 cfg p.flags p.m.crc b } }) := by
  rw [lwpkt_consume]
  have hstep : lwpkt_read_step cfg p b =
      .cont (prv_go_to_next_packet_rx_state cfg
        { p with m := { p.m with
            to_ := b, crc := lwpkt_crc_add1 cfg p.flags p.m.crc b } }) := by
    simp only [lwpkt_read_step, hst, ADD_IN_TO_CRC_eq, if_neg huse, hext,
      Bool.false_eq_true, if_false]
    rw [if_pos (Or.inl trivial)]
  rw [hstep]
  rfl

lemma lwpkt_consume_cmd_byte (cfg : lwpkt_cfg) (p : lwpkt_t) (b : Nat)
    (hst : p.m.state = .CMD) (hcmd : cfg.use_cmd ≠ 0) :
    lwpkt_consume cfg p [b] =
      some (prv_go_to_next_packet_rx_state cfg
        { p with m := { p.m with
            cmd := b, crc := lwpkt_crc_add1 cfg p.flags p.m.crc b } }) := by
  rw [lwpkt_consume]
  have hstep : lwpkt_read_step cfg p b =
      .cont (prv_go_to_next_packet_rx_state cfg
        { p with m := { p.m with
            cmd := b, crc := lwpkt_crc_add1 cfg p.flags p.m.crc b } }) := by
    simp only [lwpkt_read_step, hst, ADD_IN_TO_CRC_eq, if_neg hcmd]
  rw [hstep]
  rfl

lemma lwpkt_read_list_stop (cfg : lwpkt_cfg) (p : lwpkt_t) (hst : p.m.state = .STOP)
    (rest : List Nat) :
    lwpkt_read_list cfg p (LWPKT_STOP_BYTE :: rest) =
      (.VALID, prv_go_to_next_packet_rx_state cfg p, rest) := by
  rw [lwpkt_read_list]
  have hstep : lwpkt_read_step cfg p LWPKT_STOP_BYTE =
      .term .VALID (prv_go_to_next_packet_rx_state cfg p) := by
    simp only [lwpkt_read_step, hst, if_true]
  rw [hstep]

/-- Consuming the whole payload in the `DATA` state: bytes are stored at
successive indices, folded into the CRC, and the last byte (the one that
makes `index` reach `len`) advances the state machine. -/
lemma lwpkt_consume_data (cfg : lwpkt_cfg) :
    ∀ (bs : List Nat) (p : lwpkt_t),
    p.m.state = .DATA →
    bs ≠ [] →
    p.m.index + bs.length = p.m.len →
    p.m.len ≤ LWPKT_CFG_MAX_DATA_LEN →
    lwpkt_consume cfg p bs =
      some (prv_go_to_next_packet_rx_state cfg
        { p with data := listSetSeq p.data p.m.index bs,
                 m := { p.m with
                     index := p.m.index + bs.length,
                     crc := lwpkt_crc_add cfg p.flags p.m.crc bs } }) := by
  intro bs
  induction bs with
  | nil => intro p _ hne _ _; exact absurd rfl hne
  | cons b bs ih =>
      intro p hst _ hlen hmax
      have hlt : p.m.index < LWPKT_CFG_MAX_DATA_LEN := by
        simp only [List.length_cons] at hlen; omega
      rw [lwpkt_consume]
      by_cases hend : bs = []
      · subst hend
        have hfin : p.m.index + 1 = p.m.len := by
          simpa using hlen
        have hstep : lwpkt_read_step cfg p b =
            .cont (prv_go_to_next_packet_rx_state cfg
              { p with data := p.data.set p.m.index b,
                       m := { p.m with
                         index := p.m.index + 1,
                         crc := lwpkt_crc_add1 cfg p.flags p.m.crc b } }) := by
          simp only [lwpkt_read_step, hst, ADD_IN_TO_CRC_eq]
          rw [if_pos hlt]
          rw [if_pos hfin]
        rw [hstep]
        rfl
      · have hpos : 0 < bs.length := List.length_pos.mpr hend
        have hne2 : ¬ p.m.index + 1 = p.m.len := by
          simp only [List.length_cons] at hlen; omega
        have hstep : lwpkt_read_step cfg p b =
            .cont { p with data := p.data.set p.m.index b,
                           m := { p.m with
                             index := p.m.index + 1,
                             crc := lwpkt_crc_add1 cfg p.flags p.m.crc b } } := by
          simp only [lwpkt_read_step, hst, ADD_IN_TO_CRC_eq]
          rw [if_pos hlt]
          rw [if_neg hne2]
        rw [hstep]
        set q : lwpkt_t :=
          { p with
            data := p.data.set p.m.index b,
            m := { p.m with
              index := p.m.index + 1,
              crc := lwpkt_crc_add1 cfg p.flags p.m.crc b } } with hq
        dsimp only
        rw [ih q hst hend
          (by show p.m.index + 1 + bs.length = p.m.len
              simp only [List.length_cons] at hlen; omega)
          (by show p.m.len ≤ LWPKT_CFG_MAX_DATA_LEN; exact hmax)]
        congr 1
        congr 1
        rw [hq]
        show ({ p with
            data := listSetSeq (p.data.set p.m.index b) (p.m.index + 1) bs,
            m := { p.m with
                index := (p.m.index + 1) + bs.length,
                crc := lwpkt_crc_add cfg p.flags
                  (lwpkt_crc_add1 cfg p.flags p.m.crc b) bs } } : lwpkt_t) =
          { p with data := listSetSeq p.data p.m.index (b :: bs),
                   m := { p.m with
                       index := p.m.index + (b :: bs).length,
                       crc := lwpkt_crc_add cfg p.flags p.m.crc (b :: bs) } }
        rw [lwpkt_crc_add_cons]
        simp only [listSetSeq, List.length_cons]
        congr 2
        omega

lemma crc_shift_bound {v k : Nat} (hv : v < 2 ^ (8 * (k + 1))) :
    v >>> 8 < 2 ^ (8 * k) := by
  rw [Nat.shiftRight_eq_div_pow]
  have : v < 2 ^ (8 * k) * 2 ^ 8 := by
    rw [← pow_add]
    calc v < 2 ^ (8 * (k + 1)) := hv
    _ = 2 ^ (8 * k + 8) := by ring_nf
  omega

lemma crcLeBytes_length (k : Nat) : ∀ v, (crcLeBytes k v).length = k := by
  induction k with
  | zero => intro v; rfl
  | succ k ih => intro v; simp only [crcLeBytes, List.length_cons, ih]

/-- Consuming the on-wire CRC bytes in the `CRC` state: the little-endian
bytes of the expected CRC are accumulated into `crc_data`; when the byte
count is complete and the finished running CRC matches, the machine moves
to `STOP`. -/
lemma lwpkt_consume_crc (cfg : lwpkt_cfg) :
    ∀ (k : Nat) (p : lwpkt_t) (v : Nat),
    p.m.state = .CRC →
    cfg.use_crc ≠ 0 →
    0 < k →
    p.m.index + k = CRC_DATA_LEN cfg p.flags →
    v < 2 ^ (8 * k) →
    p.m.crc_data < 2 ^ (8 * p.m.index) →
    p.m.crc_data + v * 2 ^ (8 * p.m.index) < 2 ^ 32 →
    prv_crc_finish cfg p.flags p.m.crc =
      p.m.crc_data + v * 2 ^ (8 * p.m.index) →
    lwpkt_consume cfg p (crcLeBytes k v) =
      some (LWPKT_SET_STATE
        { p with m := { p.m with
            crc := prv_crc_finish cfg p.flags p.m.crc,
            crc_data := p.m.crc_data + v * 2 ^ (8 * p.m.index),
            index := p.m.index + k } } .STOP) := by
  intro k
  induction k with
  | zero => omega
  | succ k ih =>
      intro p v hst hcrc _ hidx hv hacc hbound hmatch
      have hlt : p.m.index < CRC_DATA_LEN cfg p.flags := by omega
      have hupd : (p.m.crc_data ||| ((v &&& 0xFF) <<< (8 * p.m.index))) % 2 ^ 32 =
          p.m.crc_data + (v % 256) * 2 ^ (8 * p.m.index) := by
        rw [and_ff_eq, lor_shift_add _ _ _ hacc]
        apply Nat.mod_eq_of_lt
        have : (v % 256) * 2 ^ (8 * p.m.index) ≤ v * 2 ^ (8 * p.m.index) :=
          Nat.mul_le_mul_right _ (Nat.mod_le _ _)
        omega
      rw [show crcLeBytes (k + 1) v = (v &&& 0xFF) :: crcLeBytes k (v >>> 8) from rfl]
      rw [lwpkt_consume]
      rcases Nat.eq_zero_or_pos k with hk0 | hkpos
      · subst hk0
        have hv256 : v < 256 := by simpa using hv
        have hvmod : v % 256 = v := Nat.mod_eq_of_lt hv256
        have hfin : p.m.index + 1 = CRC_DATA_LEN cfg p.flags := by omega
        have hstep : lwpkt_read_step cfg p (v &&& 0xFF) =
            .cont (LWPKT_SET_STATE
              { p with m := { p.m with
                  crc_data := p.m.crc_data + v * 2 ^ (8 * p.m.index),
                  index := p.m.index + 1,
                  crc := prv_crc_finish cfg p.flags p.m.crc } } .STOP) := by
          simp only [lwpkt_read_step, hst]
          rw [if_neg hcrc, if_pos hlt]
          dsimp only
          rw [hupd, hvmod, if_pos hfin]
          rw [if_pos (by exact hmatch)]
        rw [hstep]
        rfl
      · have hne : ¬ p.m.index + 1 = CRC_DATA_LEN cfg p.flags := by omega
        have hstep : lwpkt_read_step cfg p (v &&& 0xFF) =
            .cont { p with m := { p.m with
                crc_data := p.m.crc_data + (v % 256) * 2 ^ (8 * p.m.index),
                index := p.m.index + 1 } } := by
          simp only [lwpkt_read_step, hst]
          rw [if_neg hcrc, if_pos hlt]
          dsimp only
          rw [hupd, if_neg hne]
        rw [hstep]
        set q : lwpkt_t := { p with m := { p.m with
            crc_data := p.m.crc_data + (v % 256) * 2 ^ (8 * p.m.index),
            index := p.m.index + 1 } } with hq
        dsimp only
        have hvid : p.m.crc_data + (v % 256) * 2 ^ (8 * p.m.index)
            + (v >>> 8) * 2 ^ (8 * (p.m.index + 1)) =
            p.m.crc_data + v * 2 ^ (8 * p.m.index) := by
          rw [Nat.shiftRight_eq_div_pow]
          have h1 : (2:Nat) ^ (8 * (p.m.index + 1)) = 2 ^ (8 * p.m.index) * 256 := by
            rw [show 8 * (p.m.index + 1) = 8 * p.m.index + 8 by ring, pow_add]
            norm_num
          rw [h1]
          have h3 : v % 256 + v / 256 * 256 = v := Nat.mod_add_div' v 256
          calc p.m.crc_data + v % 256 * 2 ^ (8 * p.m.index)
                + v / 256 * (2 ^ (8 * p.m.index) * 256)
              = p.m.crc_data + (v % 256 + v / 256 * 256) * 2 ^ (8 * p.m.index) := by
                ring
            _ = p.m.crc_data + v * 2 ^ (8 * p.m.index) := by rw [h3]
        have hqacc : q.m.crc_data < 2 ^ (8 * q.m.index) := by
          rw [hq]
          show p.m.crc_data + (v % 256) * 2 ^ (8 * p.m.index) < 2 ^ (8 * (p.m.index + 1))
          have h1 : (2:Nat) ^ (8 * (p.m.index + 1)) = 2 ^ (8 * p.m.index) * 256 := by
            rw [show 8 * (p.m.index + 1) = 8 * p.m.index + 8 by ring, pow_add]
            norm_num
          have h2 : v % 256 ≤ 255 := by omega
          have h3 : (v % 256) * 2 ^ (8 * p.m.index) ≤ 255 * 2 ^ (8 * p.m.index) :=
            Nat.mul_le_mul_right _ h2
          have h4 : (0:Nat) < 2 ^ (8 * p.m.index) := Nat.pos_pow_of_pos _ (by norm_num)
          rw [h1]
          nlinarith
        rw [ih q (v >>> 8) hst hcrc hkpos
          (by show p.m.index + 1 + k = CRC_DATA_LEN cfg p.flags; omega)
          (crc_shift_bound hv) hqacc
          (by show q.m.crc_data + (v >>> 8) * 2 ^ (8 * q.m.index) < 2 ^ 32
              rw [hq]
              show p.m.crc_data + (v % 256) * 2 ^ (8 * p.m.index)
                + (v >>> 8) * 2 ^ (8 * (p.m.index + 1)) < 2 ^ 32
              rw [hvid]; exact hbound)
          (by show prv_crc_finish cfg p.flags q.m.crc =
                q.m.crc_data + (v >>> 8) * 2 ^ (8 * q.m.index)
              rw [hq]
              show prv_crc_finish cfg p.flags p.m.crc =
                p.m.crc_data + (v % 256) * 2 ^ (8 * p.m.index)
                + (v >>> 8) * 2 ^ (8 * (p.m.index + 1))
              rw [hvid]; exact hmatch)]
        congr 1
        rw [hq]
        show (LWPKT_SET_STATE { p with m := { p.m with
            crc := prv_crc_finish cfg p.flags p.m.crc,
            crc_data := p.m.crc_data + (v % 256) * 2 ^ (8 * p.m.index)
              + (v >>> 8) * 2 ^ (8 * (p.m.index + 1)),
            index := (p.m.index + 1) + k } } .STOP) =
          LWPKT_SET_STATE { p with m := { p.m with
            crc := prv_crc_finish cfg p.flags p.m.crc,
            crc_data := p.m.crc_data + v * 2 ^ (8 * p.m.index),
            index := p.m.index + (k + 1) } } .STOP
        rw [hvid, show p.m.index + 1 + k = p.m.index + (k + 1) by omega]

/-! ### Encoder emission lemmas -/

/-- The wire bytes between START and the CRC field, exactly as
`lwpkt_write` emits them (and CRC covers them). -/
def lwpkt_frame_body (cfg : lwpkt_cfg) (pflags addr to_ flags_ cmd : Nat)
    (data : List Nat) (len : Nat) : List Nat :=
  (if lwpkt_feat_addr cfg pflags then
     (if lwpkt_feat_addr_ext cfg pflags then vlqBytes addr ++ vlqBytes to_
      else [addr % 256, to_ % 256]) else [])
  ++ (if lwpkt_feat_flags cfg pflags then vlqBytes flags_ else [])
  ++ (if lwpkt_feat_cmd cfg pflags then [cmd] else [])
  ++ vlqBytes len
  ++ data.take len

/-- The full wire frame `lwpkt_write` emits. -/
def lwpkt_frame (cfg : lwpkt_cfg) (pflags addr to_ flags_ cmd : Nat)
    (data : List Nat) (len : Nat) : List Nat :=
  LWPKT_START_BYTE :: (lwpkt_frame_body cfg pflags addr to_ flags_ cmd data len
  ++ (if lwpkt_crc_on cfg pflags then
       crcLeBytes (CRC_DATA_LEN cfg pflags)
         (prv_crc_finish cfg pflags
           (lwpkt_crc_add cfg pflags (prv_crc_init cfg pflags)
             (lwpkt_frame_body cfg pflags addr to_ flags_ cmd data len)))
      else [])
  ++ [LWPKT_STOP_BYTE])

/-- One encoder stage appends `bs` to the TX ring and folds `bs` into the
running CRC, preserving the ring geometry. -/
def EmitsTo (cfg : lwpkt_cfg) (pflags : Nat) (st st' : Lwrb × Nat)
    (bs : List Nat) : Prop :=
  st'.1.size = st.1.size ∧ st'.1.r = st.1.r ∧ lwrb_ok st'.1 = true ∧
  lwrb_contents st'.1 = lwrb_contents st.1 ++ bs ∧
  st'.2 = lwpkt_crc_add cfg pflags st.2 bs

lemma EmitsTo_refl {cfg : lwpkt_cfg} {pflags : Nat} {st : Lwrb × Nat}
    (hok : lwrb_ok st.1 = true) : EmitsTo cfg pflags st st [] := by
  refine ⟨rfl, rfl, hok, ?_, rfl⟩
  rw [List.append_nil]

lemma EmitsTo_trans {cfg : lwpkt_cfg} {pflags : Nat} {st1 st2 st3 : Lwrb × Nat}
    {bs1 bs2 : List Nat} (h1 : EmitsTo cfg pflags st1 st2 bs1)
    (h2 : EmitsTo cfg pflags st2 st3 bs2) :
    EmitsTo cfg pflags st1 st3 (bs1 ++ bs2) := by
  obtain ⟨hs1, hr1, hok1, hc1, hcrc1⟩ := h1
  obtain ⟨hs2, hr2, hok2, hc2, hcrc2⟩ := h2
  refine ⟨hs2.trans hs1, hr2.trans hr1, hok2, ?_, ?_⟩
  · rw [hc2, hc1, List.append_assoc]
  · rw [hcrc2, hcrc1, lwpkt_crc_add_append]

lemma EmitsTo_fit {cfg : lwpkt_cfg} {pflags : Nat} {st st' : Lwrb × Nat}
    {bs : List Nat} (hok : lwrb_ok st.1 = true)
    (h : EmitsTo cfg pflags st st' bs) :
    bs.length ≤ lwrb_get_free st.1 ∧
    lwrb_get_free st'.1 = lwrb_get_free st.1 - bs.length := by
  obtain ⟨hs, hr, hok', hc, hcrc⟩ := h
  have hfe := lwrb_get_free_eq hok
  have hfe' := lwrb_get_free_eq hok'
  have hcl := lwrb_contents_length hok
  have hcl' := lwrb_contents_length hok'
  have hful := lwrb_get_full_le hok
  have hful' := lwrb_get_full_le hok'
  rw [hc, List.length_append] at hcl'
  rw [hs] at hfe' hful'
  omega

lemma emit_wwc (cfg : lwpkt_cfg) (pflags : Nat) (st : Lwrb × Nat)
    (bytes : List Nat) (hok : lwrb_ok st.1 = true)
    (hfit : bytes.length ≤ lwrb_get_free st.1) :
    EmitsTo cfg pflags st (WRITE_WITH_CRC cfg pflags st bytes) bytes := by
  obtain ⟨hbtw, hsz, hrr, hok', hc⟩ := lwrb_write_spec hok hfit (le_refl _)
  rw [List.take_length] at hc
  exact ⟨hsz, hrr, hok', hc, (lwpkt_crc_add_eq cfg pflags st.2 bytes).symm⟩

lemma emit_fold1 (cfg : lwpkt_cfg) (pflags : Nat) :
    ∀ (bs : List Nat) (st : Lwrb × Nat), lwrb_ok st.1 = true →
    bs.length ≤ lwrb_get_free st.1 →
    EmitsTo cfg pflags st
      (bs.foldl (fun s b => WRITE_WITH_CRC cfg pflags s [b]) st) bs := by
  intro bs
  induction bs with
  | nil => intro st hok _; exact EmitsTo_refl hok
  | cons b bs ih =>
      intro st hok hfit
      simp only [List.length_cons] at hfit
      have h1 : EmitsTo cfg pflags st (WRITE_WITH_CRC cfg pflags st [b]) [b] :=
        emit_wwc cfg pflags st [b] hok
          (by simp only [List.length_cons, List.length_nil]; omega)
      have hfree1 := EmitsTo_fit hok h1
      have h2 := ih (WRITE_WITH_CRC cfg pflags st [b]) h1.2.2.1
        (by simp only [List.length_cons, List.length_nil] at hfree1 ⊢; omega)
      have := EmitsTo_trans h1 h2
      rw [List.singleton_append] at this
      simpa only [List.foldl_cons] using this

lemma emit_vlq (cfg : lwpkt_cfg) (pflags : Nat) (st : Lwrb × Nat) (v : Nat)
    (hok : lwrb_ok st.1 = true) (hfit : vlqLen v ≤ lwrb_get_free st.1) :
    EmitsTo cfg pflags st (lwpkt_write_vlq cfg pflags st v) (vlqBytes v) :=
  emit_fold1 cfg pflags (vlqBytes v) st hok hfit

/-- The raw per-byte write fold used for the CRC field (no CRC folding). -/
lemma fold_raw_spec :
    ∀ (bs : List Nat) (t : Lwrb), lwrb_ok t = true →
    bs.length ≤ lwrb_get_free t →
    (bs.foldl (fun t b => (lwrb_write t [b] 1).1) t).size = t.size ∧
    (bs.foldl (fun t b => (lwrb_write t [b] 1).1) t).r = t.r ∧
    lwrb_ok (bs.foldl (fun t b => (lwrb_write t [b] 1).1) t) = true ∧
    lwrb_contents (bs.foldl (fun t b => (lwrb_write t [b] 1).1) t) =
      lwrb_contents t ++ bs := by
  intro bs
  induction bs with
  | nil =>
      intro t hok _
      exact ⟨rfl, rfl, hok, by simp⟩
  | cons b bs ih =>
      intro t hok hfit
      simp only [List.length_cons] at hfit
      obtain ⟨hbtw, hsz, hrr, hok', hc⟩ :=
        @lwrb_write_spec t [b] 1 hok (by omega) (by simp)
      have hc1 : lwrb_contents (lwrb_write t [b] 1).1 = lwrb_contents t ++ [b] := by
        simpa using hc
      have hfe := lwrb_get_free_eq hok
      have hfe' := lwrb_get_free_eq hok'
      have hcl := lwrb_contents_length hok
      have hcl' := lwrb_contents_length hok'
      have hful' := lwrb_get_full_le hok'
      rw [hc1, List.length_append] at hcl'
      rw [hsz] at hfe' hful'
      obtain ⟨h1, h2, h3, h4⟩ := ih (lwrb_write t [b] 1).1 hok'
        (by simp only [List.length_cons, List.length_nil] at hcl' ⊢; omega)
      rw [List.foldl_cons]
      refine ⟨h1.trans hsz, h2.trans hrr, h3, ?_⟩
      rw [h4, hc1, List.append_assoc, List.singleton_append]

lemma free_after {rb rb' : Lwrb} {bs : List Nat} (hok : lwrb_ok rb = true)
    (hok' : lwrb_ok rb' = true) (hsz : rb'.size = rb.size)
    (hc : lwrb_contents rb' = lwrb_contents rb ++ bs) :
    lwrb_get_free rb' = lwrb_get_free rb - bs.length ∧
    bs.length ≤ lwrb_get_free rb := by
  have hfe := lwrb_get_free_eq hok
  have hfe' := lwrb_get_free_eq hok'
  have hcl := lwrb_contents_length hok
  have hcl' := lwrb_contents_length hok'
  have hful' := lwrb_get_full_le hok'
  rw [hc, List.length_append] at hcl'
  rw [hsz] at hfe' hful'
  omega

lemma emit_if {cfg : lwpkt_cfg} {pflags : Nat} {st stT : Lwrb × Nat}
    {bs : List Nat} {c : Bool} (hok : lwrb_ok st.1 = true)
    (hT : c = true → EmitsTo cfg pflags st stT bs) :
    EmitsTo cfg pflags st (if c then stT else st) (if c then bs else []) := by
  cases c with
  | false => simpa using EmitsTo_refl hok
  | true => simpa using hT rfl

lemma emit_if2 {cfg : lwpkt_cfg} {pflags : Nat} {st stT stF : Lwrb × Nat}
    {bsT bsF : List Nat} {c : Bool}
    (hT : c = true → EmitsTo cfg pflags st stT bsT)
    (hF : c = false → EmitsTo cfg pflags st stF bsF) :
    EmitsTo cfg pflags st (if c then stT else stF) (if c then bsT else bsF) := by
  cases c with
  | false => simpa using hF rfl
  | true => simpa using hT rfl

lemma emit_if_prop {cfg : lwpkt_cfg} {pflags : Nat} {st stT : Lwrb × Nat}
    {bs : List Nat} {c : Prop} [Decidable c] (hok : lwrb_ok st.1 = true)
    (hT : c → EmitsTo cfg pflags st stT bs) (hbs : ¬ c → bs = []) :
    EmitsTo cfg pflags st (if c then stT else st) bs := by
  by_cases h : c
  · rw [if_pos h]; exact hT h
  · rw [if_neg h, hbs h]; exact EmitsTo_refl hok

/-- `lwpkt_write` with enough TX space succeeds and appends exactly the
wire frame to the TX ring contents. -/
lemma lwpkt_write_ok_spec (cfg : lwpkt_cfg) (p : lwpkt_t) (tx : Lwrb)
    (to_ flags_ cmd : Nat) (data : List Nat) (len : Nat)
    (hok : lwrb_ok tx = true)
    (hfree : ¬ lwrb_get_free tx < lwpkt_write_min_mem cfg p to_ flags_ len) :
    (lwpkt_write cfg p tx to_ flags_ cmd data len).1 = .OK ∧
    lwrb_ok (lwpkt_write cfg p tx to_ flags_ cmd data len).2 = true ∧
    (lwpkt_write cfg p tx to_ flags_ cmd data len).2.size = tx.size ∧
    (lwpkt_write cfg p tx to_ flags_ cmd data len).2.r = tx.r ∧
    lwrb_contents (lwpkt_write cfg p tx to_ flags_ cmd data len).2 =
      lwrb_contents tx ++ lwpkt_frame cfg p.flags p.addr to_ flags_ cmd data len := by
  have hfree0 := Nat.le_of_not_lt hfree
  rw [lwpkt_write_min_mem] at hfree0
  unfold lwpkt_write
  dsimp only
  rw [if_neg hfree]
  set A := (lwrb_write tx [LWPKT_START_BYTE] 1).1 with hA
  set st0 : Lwrb × Nat :=
    (A, if lwpkt_crc_on cfg p.flags then prv_crc_init cfg p.flags else 0) with hst0
  set st1 := (if lwpkt_feat_addr cfg p.flags then
      (if lwpkt_feat_addr_ext cfg p.flags then
        lwpkt_write_vlq cfg p.flags (lwpkt_write_vlq cfg p.flags st0 p.addr) to_
      else
        WRITE_WITH_CRC cfg p.flags
          (WRITE_WITH_CRC cfg p.flags st0 [p.addr % 256]) [to_ % 256])
    else st0) with hst1
  set st2 := (if lwpkt_feat_flags cfg p.flags then lwpkt_write_vlq cfg p.flags st1 flags_
    else st1) with hst2
  set st3 := (if lwpkt_feat_cmd cfg p.flags then WRITE_WITH_CRC cfg p.flags st2 [cmd]
    else st2) with hst3
  set st4 := lwpkt_write_vlq cfg p.flags st3 len with hst4
  set st5 := (if len > 0 then WRITE_WITH_CRC cfg p.flags st4 (data.take len) else st4)
    with hst5
  set B := (if lwpkt_crc_on cfg p.flags then
      (crcLeBytes (CRC_DATA_LEN cfg p.flags) (prv_crc_finish cfg p.flags st5.2)).foldl
        (fun t byt => (lwrb_write t [byt] 1).1) st5.1
    else st5.1) with hB
  set C := (lwrb_write B [LWPKT_STOP_BYTE] 1).1 with hC
  -- START byte
  obtain ⟨-, hAsz, hAr, hAok, hAc0⟩ :=
    @lwrb_write_spec tx [LWPKT_START_BYTE] 1 hok (by omega) (by simp)
  rw [← hA] at hAsz hAr hAok hAc0
  have hAc : lwrb_contents A = lwrb_contents tx ++ [LWPKT_START_BYTE] := by
    simpa using hAc0
  have hAfree := free_after hok hAok hAsz hAc
  simp only [List.length_cons, List.length_nil] at hAfree
  have hok0 : lwrb_ok st0.1 = true := hAok
  have hfree_st0 : lwrb_get_free st0.1 = lwrb_get_free A := rfl
  -- byte-list pieces and their lengths
  set bsA := (if lwpkt_feat_addr cfg p.flags then
      (if lwpkt_feat_addr_ext cfg p.flags then vlqBytes p.addr ++ vlqBytes to_
       else [p.addr % 256, to_ % 256]) else []) with hbsA
  set bsF := (if lwpkt_feat_flags cfg p.flags then vlqBytes flags_ else []) with hbsF
  set bsC := (if lwpkt_feat_cmd cfg p.flags then [cmd] else []) with hbsC
  have hvlA : (vlqBytes p.addr).length = vlqLen p.addr := rfl
  have hvlT : (vlqBytes to_).length = vlqLen to_ := rfl
  have hvlF : (vlqBytes flags_).length = vlqLen flags_ := rfl
  have hvlL : (vlqBytes len).length = vlqLen len := rfl
  have hlenA : bsA.length =
      (if lwpkt_feat_addr cfg p.flags then
        (if lwpkt_feat_addr_ext cfg p.flags then vlqLen p.addr + vlqLen to_ else 2)
       else 0) := by
    rw [hbsA]
    by_cases h1 : lwpkt_feat_addr cfg p.flags = true <;>
      by_cases h2 : lwpkt_feat_addr_ext cfg p.flags = true <;>
      simp [h1, h2, vlqLen]
  have hlenF : bsF.length = (if lwpkt_feat_flags cfg p.flags then vlqLen flags_ else 0) := by
    rw [hbsF]
    by_cases h1 : lwpkt_feat_flags cfg p.flags = true <;> simp [h1, vlqLen]
  have hlenC : bsC.length = (if lwpkt_feat_cmd cfg p.flags then 1 else 0) := by
    rw [hbsC]
    by_cases h1 : lwpkt_feat_cmd cfg p.flags = true <;> simp [h1]
  have hdlen : (data.take len).length ≤ len := by
    simp only [List.length_take]; omega
  -- stage 1: addresses
  have h1 : EmitsTo cfg p.flags st0 st1 bsA := by
    rw [hst1, hbsA]
    refine emit_if hok0 ?_
    intro hA9
    refine emit_if2 ?_ ?_
    · intro hE
      simp only [hA9, hE, if_true] at hfree0
      have e1 := emit_vlq cfg p.flags st0 p.addr hok0
        (by rw [hfree_st0]; omega)
      have hfit1 := EmitsTo_fit hok0 e1
      rw [hvlA, hfree_st0] at hfit1
      have e2 := emit_vlq cfg p.flags (lwpkt_write_vlq cfg p.flags st0 p.addr) to_
        e1.2.2.1 (by omega)
      exact EmitsTo_trans e1 e2
    · intro hE
      simp only [hA9, hE, if_true, Bool.false_eq_true, if_false] at hfree0
      have e1 := emit_wwc cfg p.flags st0 [p.addr % 256] hok0
        (by simp only [List.length_cons, List.length_nil]; rw [hfree_st0]; omega)
      have hfit1 := EmitsTo_fit hok0 e1
      simp only [List.length_cons, List.length_nil] at hfit1
      rw [hfree_st0] at hfit1
      have e2 := emit_wwc cfg p.flags (WRITE_WITH_CRC cfg p.flags st0 [p.addr % 256])
        [to_ % 256] e1.2.2.1
        (by simp only [List.length_cons, List.length_nil]; omega)
      exact EmitsTo_trans e1 e2
  have hfit1 := EmitsTo_fit hok0 h1
  rw [hfree_st0] at hfit1
  -- stage 2: flags
  have h2 : EmitsTo cfg p.flags st1 st2 bsF := by
    rw [hst2, hbsF]
    refine emit_if h1.2.2.1 ?_
    intro hF
    simp only [hF, if_true] at hfree0
    exact emit_vlq cfg p.flags st1 flags_ h1.2.2.1 (by omega)
  have hfit2 := EmitsTo_fit h1.2.2.1 h2
  -- stage 3: cmd
  have h3 : EmitsTo cfg p.flags st2 st3 bsC := by
    rw [hst3, hbsC]
    refine emit_if h2.2.2.1 ?_
    intro hCm
    simp only [hCm, if_true] at hfree0
    exact emit_wwc cfg p.flags st2 [cmd] h2.2.2.1
      (by simp only [List.length_cons, List.length_nil]; omega)
  have hfit3 := EmitsTo_fit h2.2.2.1 h3
  -- stage 4: length
  have h4 : EmitsTo cfg p.flags st3 st4 (vlqBytes len) := by
    rw [hst4]
    exact emit_vlq cfg p.flags st3 len h3.2.2.1 (by omega)
  have hfit4 := EmitsTo_fit h3.2.2.1 h4
  rw [hvlL] at hfit4
  -- stage 5: payload
  have h5 : EmitsTo cfg p.flags st4 st5 (data.take len) := by
    rw [hst5]
    refine emit_if_prop h4.2.2.1 ?_ ?_
    · intro _
      exact emit_wwc cfg p.flags st4 (data.take len) h4.2.2.1 (by omega)
    · intro h0
      have hz : len = 0 := by omega
      rw [hz, List.take_zero]
  have hfit5 := EmitsTo_fit h4.2.2.1 h5
  -- the whole body
  have hbody : EmitsTo cfg p.flags st0 st5
      (bsA ++ (bsF ++ (bsC ++ (vlqBytes len ++ data.take len)))) :=
    EmitsTo_trans h1 (EmitsTo_trans h2 (EmitsTo_trans h3 (EmitsTo_trans h4 h5)))
  have hbodyeq : bsA ++ (bsF ++ (bsC ++ (vlqBytes len ++ data.take len))) =
      lwpkt_frame_body cfg p.flags p.addr to_ flags_ cmd data len := by
    rw [hbsA, hbsF, hbsC, lwpkt_frame_body]
    simp only [List.append_assoc]
  rw [hbodyeq] at hbody
  have hok5 : lwrb_ok st5.1 = true := hbody.2.2.1
  have hfitbody := EmitsTo_fit hok0 hbody
  rw [hfree_st0] at hfitbody
  have hbl : (lwpkt_frame_body cfg p.flags p.addr to_ flags_ cmd data len).length =
      bsA.length + (bsF.length + (bsC.length
        + (vlqLen len + (data.take len).length))) := by
    rw [← hbodyeq]
    simp only [List.length_append, hvlL]
  have hcrc5 : st5.2 = lwpkt_crc_add cfg p.flags
      (if lwpkt_crc_on cfg p.flags then prv_crc_init cfg p.flags else 0)
      (lwpkt_frame_body cfg p.flags p.addr to_ flags_ cmd data len) :=
    hbody.2.2.2.2
  -- CRC field
  have hBfacts : B.size = st5.1.size ∧ B.r = st5.1.r ∧ lwrb_ok B = true ∧
      lwrb_contents B = lwrb_contents st5.1 ++
        (if lwpkt_crc_on cfg p.flags then
          crcLeBytes (CRC_DATA_LEN cfg p.flags) (prv_crc_finish cfg p.flags st5.2)
         else []) := by
    rw [hB]
    by_cases hcr : lwpkt_crc_on cfg p.flags = true
    · simp only [hcr, if_true] at hfree0 ⊢
      refine fold_raw_spec _ _ hok5 ?_
      rw [crcLeBytes_length]
      omega
    · simp only [Bool.not_eq_true] at hcr
      simp only [hcr, Bool.false_eq_true, if_false]
      exact ⟨trivial, trivial, hok5, (List.append_nil _).symm⟩
  have hbsKlen : (if lwpkt_crc_on cfg p.flags then
      crcLeBytes (CRC_DATA_LEN cfg p.flags) (prv_crc_finish cfg p.flags st5.2)
     else ([] : List Nat)).length =
      (if lwpkt_crc_on cfg p.flags then CRC_DATA_LEN cfg p.flags else 0) := by
    by_cases hcr : lwpkt_crc_on cfg p.flags = true <;> simp [hcr, crcLeBytes_length]
  have hBfree := free_after hok5 hBfacts.2.2.1 hBfacts.1 hBfacts.2.2.2
  rw [hbsKlen] at hBfree
  -- STOP byte
  obtain ⟨-, hCsz, hCr, hCok, hCc0⟩ :=
    @lwrb_write_spec B [LWPKT_STOP_BYTE] 1 hBfacts.2.2.1 (by omega) (by simp)
  rw [← hC] at hCsz hCr hCok hCc0
  have hCc : lwrb_contents C = lwrb_contents B ++ [LWPKT_STOP_BYTE] := by
    simpa using hCc0
  refine ⟨rfl, hCok, ?_, ?_, ?_⟩
  · exact hCsz.trans (hBfacts.1.trans (hbody.1.trans hAsz))
  · exact hCr.trans (hBfacts.2.1.trans (hbody.2.1.trans hAr))
  · show lwrb_contents C = _
    rw [hCc, hBfacts.2.2.2, hbody.2.2.2.1]
    show lwrb_contents A ++ _ ++ _ ++ _ = _
    rw [hAc, hcrc5, lwpkt_frame]
    simp only [List.append_assoc, List.cons_append, List.singleton_append,
      List.nil_append]
    by_cases hcr : lwpkt_crc_on cfg p.flags = true
    · simp [hcr]
    · simp only [Bool.not_eq_true] at hcr
      simp [hcr]

/-- `ERRMEM` path of `lwpkt_write`: nothing is written. -/
lemma lwpkt_write_errmem (cfg : lwpkt_cfg) (p : lwpkt_t) (tx : Lwrb)
    (to_ flags_ cmd : Nat) (data : List Nat) (len : Nat)
    (hfree : lwrb_get_free tx < lwpkt_write_min_mem cfg p to_ flags_ len) :
    lwpkt_write cfg p tx to_ flags_ cmd data len = (.ERRMEM, tx) := by
  unfold lwpkt_write
  dsimp only
  rw [if_pos hfree]

/-- The frame is exactly `min_mem` bytes long. -/
lemma lwpkt_frame_length (cfg : lwpkt_cfg) (p : lwpkt_t) (to_ flags_ cmd : Nat)
    (data : List Nat) (len : Nat) (hlen : len ≤ data.length) :
    (lwpkt_frame cfg p.flags p.addr to_ flags_ cmd data len).length =
      lwpkt_write_min_mem cfg p to_ flags_ len := by
  rw [lwpkt_frame, lwpkt_write_min_mem, lwpkt_frame_body]
  simp only [List.length_cons, List.length_append]
  split_ifs <;>
    simp only [List.length_append, List.length_cons, List.length_nil,
      List.length_take, crcLeBytes_length, vlqLen] <;>
    omega

lemma lwpkt_feat_addr_ne_zero {cfg : lwpkt_cfg} {pflags : Nat}
    (h : lwpkt_feat_addr cfg pflags = true) : cfg.use_addr ≠ 0 := by
  unfold lwpkt_feat_addr CHECK_FEATURE_CONFIG_MODE_ENABLED at h
  simp at h
  rcases h with h | h <;> omega

lemma lwpkt_feat_flags_ne_zero {cfg : lwpkt_cfg} {pflags : Nat}
    (h : lwpkt_feat_flags cfg pflags = true) : cfg.use_flags ≠ 0 := by
  unfold lwpkt_feat_flags CHECK_FEATURE_CONFIG_MODE_ENABLED at h
  simp at h
  rcases h with h | h <;> omega

lemma lwpkt_feat_cmd_ne_zero {cfg : lwpkt_cfg} {pflags : Nat}
    (h : lwpkt_feat_cmd cfg pflags = true) : cfg.use_cmd ≠ 0 := by
  unfold lwpkt_feat_cmd CHECK_FEATURE_CONFIG_MODE_ENABLED at h
  simp at h
  rcases h with h | h <;> omega

lemma lwpkt_crc_on_ne_zero {cfg : lwpkt_cfg} {pflags : Nat}
    (h : lwpkt_crc_on cfg pflags = true) : cfg.use_crc ≠ 0 := by
  unfold lwpkt_crc_on CHECK_FEATURE_CONFIG_MODE_ENABLED at h
  simp at h
  rcases h with h | h <;> omega

/-- Active CRC accumulator width in bits. -/
def lwpkt_crcW (cfg : lwpkt_cfg) (pflags : Nat) : Nat :=
  if lwpkt_crc32_on cfg pflags then 32 else 8

lemma lwpkt_crcW_eq (cfg : lwpkt_cfg) (pflags : Nat) :
    8 * CRC_DATA_LEN cfg pflags = lwpkt_crcW cfg pflags := by
  unfold CRC_DATA_LEN lwpkt_crcW
  split_ifs <;> rfl

lemma lwpkt_crcW_le (cfg : lwpkt_cfg) (pflags : Nat) :
    lwpkt_crcW cfg pflags ≤ 32 := by
  unfold lwpkt_crcW
  split_ifs <;> omega

lemma lwpkt_crc_poly_lt (cfg : lwpkt_cfg) (pflags : Nat) :
    lwpkt_crc_poly cfg pflags < 2 ^ lwpkt_crcW cfg pflags := by
  unfold lwpkt_crc_poly lwpkt_crcW CRC_POLY_32 CRC_POLY_8
  split_ifs <;> norm_num

lemma prv_crc_init_lt (cfg : lwpkt_cfg) (pflags : Nat) :
    prv_crc_init cfg pflags < 2 ^ lwpkt_crcW cfg pflags := by
  unfold prv_crc_init lwpkt_crcW
  split_ifs <;> norm_num

lemma prv_crc_calc_one_lt {w : Nat} (c b poly : Nat)
    (hc : c < 2 ^ w) (hp : poly < 2 ^ w) :
    prv_crc_calc_one c b poly < 2 ^ w := by
  unfold prv_crc_calc_one
  have key : ∀ (l : List Nat) (st : Nat × Nat), st.1 < 2 ^ w →
      (l.foldl (fun st _ =>
        let mix := (st.1 ^^^ st.2) &&& 0x01
        let c := st.1 >>> 1
        let c := if mix > 0 then c ^^^ poly else c
        (c, st.2 >>> 1)) st).1 < 2 ^ w := by
    intro l
    induction l with
    | nil => intro st h; exact h
    | cons x l ih =>
        intro st h
        rw [List.foldl_cons]
        apply ih
        dsimp only
        have hshift : st.1 >>> 1 < 2 ^ w :=
          lt_of_le_of_lt (by rw [Nat.shiftRight_eq_div_pow]; exact Nat.div_le_self _ _) h
        split_ifs
        · exact Nat.xor_lt_two_pow hshift hp
        · exact hshift
  exact key _ _ hc

lemma lwpkt_crc_add1_lt (cfg : lwpkt_cfg) (pflags c b : Nat)
    (hc : c < 2 ^ lwpkt_crcW cfg pflags) :
    lwpkt_crc_add1 cfg pflags c b < 2 ^ lwpkt_crcW cfg pflags := by
  unfold lwpkt_crc_add1
  split_ifs
  · exact prv_crc_calc_one_lt _ _ _ hc (lwpkt_crc_poly_lt cfg pflags)
  · exact hc

lemma lwpkt_crc_add_lt (cfg : lwpkt_cfg) (pflags : Nat) :
    ∀ (bs : List Nat) (c : Nat), c < 2 ^ lwpkt_crcW cfg pflags →
    lwpkt_crc_add cfg pflags c bs < 2 ^ lwpkt_crcW cfg pflags := by
  intro bs
  induction bs with
  | nil => intro c h; exact h
  | cons b bs ih =>
      intro c h
      rw [lwpkt_crc_add_cons]
      exact ih _ (lwpkt_crc_add1_lt cfg pflags c b h)

lemma prv_crc_finish_lt (cfg : lwpkt_cfg) (pflags c : Nat)
    (hc : c < 2 ^ lwpkt_crcW cfg pflags) :
    prv_crc_finish cfg pflags c < 2 ^ lwpkt_crcW cfg pflags := by
  unfold lwpkt_crcW at hc
  unfold prv_crc_finish lwpkt_crcW
  split_ifs at hc ⊢ with h
  · exact Nat.xor_lt_two_pow hc (by norm_num)
  · exact hc

/-! ### State-advance junction lemmas -/

lemma prv_next_after_to_ne_end (cfg : lwpkt_cfg) (f : Nat) :
    prv_next_after_to cfg f ≠ .END := by
  unfold prv_next_after_to
  split_ifs <;> simp

lemma prv_next_after_flags_ne_end (cfg : lwpkt_cfg) (f : Nat) :
    prv_next_after_flags cfg f ≠ .END := by
  unfold prv_next_after_flags
  split_ifs <;> simp

lemma prv_next_after_data_ne_end (cfg : lwpkt_cfg) (f : Nat) :
    prv_next_after_data cfg f ≠ .END := by
  unfold prv_next_after_data
  split_ifs <;> simp

lemma prv_next_after_len_ne_end (cfg : lwpkt_cfg) (f l : Nat) :
    prv_next_after_len cfg f l ≠ .END := by
  unfold prv_next_after_len
  split_ifs <;> simp [prv_next_after_data_ne_end]

lemma prv_go_start1 (cfg : lwpkt_cfg) (q : lwpkt_t) (h : q.m.state = .START) :
    prv_go_to_next_packet_rx_state cfg q =
      { q with m := { q.m with
          state := if lwpkt_feat_addr cfg q.flags then .FROM
                   else prv_next_after_to cfg q.flags,
          index := 0 } } := by
  unfold prv_go_to_next_packet_rx_state
  rw [h]
  dsimp only
  rw [if_pos (by
    by_cases h1 : lwpkt_feat_addr cfg q.flags = true
    · simp [h1]
    · simp only [Bool.not_eq_true] at h1
      simp [h1, prv_next_after_to_ne_end])]
  rfl

lemma prv_go_from1 (cfg : lwpkt_cfg) (q : lwpkt_t) (h : q.m.state = .FROM) :
    prv_go_to_next_packet_rx_state cfg q =
      { q with m := { q.m with state := .TO, index := 0 } } := by
  unfold prv_go_to_next_packet_rx_state
  rw [h]
  dsimp only
  rw [if_pos (by simp)]
  rfl

lemma prv_go_to1 (cfg : lwpkt_cfg) (q : lwpkt_t) (h : q.m.state = .TO) :
    prv_go_to_next_packet_rx_state cfg q =
      { q with m := { q.m with
          state := prv_next_after_to cfg q.flags, index := 0 } } := by
  unfold prv_go_to_next_packet_rx_state
  rw [h]
  dsimp only
  rw [if_pos (by simp [prv_next_after_to_ne_end])]
  rfl

lemma prv_go_flags1 (cfg : lwpkt_cfg) (q : lwpkt_t) (h : q.m.state = .FLAGS) :
    prv_go_to_next_packet_rx_state cfg q =
      { q with m := { q.m with
          state := prv_next_after_flags cfg q.flags, index := 0 } } := by
  unfold prv_go_to_next_packet_rx_state
  rw [h]
  dsimp only
  rw [if_pos (by simp [prv_next_after_flags_ne_end])]
  rfl

lemma prv_go_cmd1 (cfg : lwpkt_cfg) (q : lwpkt_t) (h : q.m.state = .CMD) :
    prv_go_to_next_packet_rx_state cfg q =
      { q with m := { q.m with state := .LEN, index := 0 } } := by
  unfold prv_go_to_next_packet_rx_state
  rw [h]
  dsimp only
  rw [if_pos (by simp)]
  rfl

lemma prv_go_len1 (cfg : lwpkt_cfg) (q : lwpkt_t) (h : q.m.state = .LEN) :
    prv_go_to_next_packet_rx_state cfg q =
      { q with m := { q.m with
          state := prv_next_after_len cfg q.flags q.m.len, index := 0 } } := by
  unfold prv_go_to_next_packet_rx_state
  rw [h]
  dsimp only
  rw [if_pos (by simp [prv_next_after_len_ne_end])]
  rfl

lemma prv_go_data1 (cfg : lwpkt_cfg) (q : lwpkt_t) (h : q.m.state = .DATA) :
    prv_go_to_next_packet_rx_state cfg q =
      { q with m := { q.m with
          state := prv_next_after_data cfg q.flags, index := 0 } } := by
  unfold prv_go_to_next_packet_rx_state
  rw [h]
  dsimp only
  rw [if_pos (by simp [prv_next_after_data_ne_end])]
  rfl

lemma prv_go_stop1 (cfg : lwpkt_cfg) (q : lwpkt_t) (h : q.m.state = .STOP) :
    prv_go_to_next_packet_rx_state cfg q =
      { q with m := { q.m with state := .START, index := 0 } } := by
  unfold prv_go_to_next_packet_rx_state
  rw [h]
  dsimp only
  rw [if_pos (by simp)]
  rfl

lemma lwpkt_consume_chain {cfg : lwpkt_cfg} {p r s : lwpkt_t} {xs ys : List Nat}
    (h1 : lwpkt_consume cfg p xs = some r) (h2 : lwpkt_consume cfg r ys = some s) :
    lwpkt_consume cfg p (xs ++ ys) = some s := by
  rw [lwpkt_consume_append h1]
  exact h2

/-- Header segment from the CMD junction on: consume the optional command
byte and land in `LEN`. -/
lemma lwpkt_consume_header3 (cfg : lwpkt_cfg) (q : lwpkt_t) (cmd : Nat)
    (hstate : q.m.state = prv_next_after_flags cfg q.flags)
    (hidx : q.m.index = 0) (hcmd0 : q.m.cmd = 0) :
    lwpkt_consume cfg q (if lwpkt_feat_cmd cfg q.flags then [cmd] else []) =
      some { q with m := { q.m with
          state := .LEN, index := 0,
          cmd := if lwpkt_feat_cmd cfg q.flags then cmd else 0,
          crc := lwpkt_crc_add cfg q.flags q.m.crc
            (if lwpkt_feat_cmd cfg q.flags then [cmd] else []) } } := by
  by_cases hC : lwpkt_feat_cmd cfg q.flags = true
  · simp only [prv_next_after_flags, hC, if_true] at hstate
    simp only [hC, if_true]
    refine Eq.trans (lwpkt_consume_cmd_byte cfg q cmd hstate
      (lwpkt_feat_cmd_ne_zero hC)) ?_
    simp only [prv_go_cmd1, hstate]
    rfl
  · simp only [Bool.not_eq_true] at hC
    simp only [prv_next_after_flags, hC, Bool.false_eq_true, if_false] at hstate ⊢
    obtain ⟨qa, qd, qf, ql, qm⟩ := q
    obtain ⟨s, c, cd, fr, t, fl, cm, l, i⟩ := qm
    dsimp only at hstate hidx hcmd0 ⊢
    subst hstate hidx hcmd0
    rfl

/-- Header segment from the FLAGS junction on: consume the optional VLQ7
flags and command byte and land in `LEN`. -/
lemma lwpkt_consume_header2 (cfg : lwpkt_cfg) (q : lwpkt_t) (flags_ cmd : Nat)
    (hstate : q.m.state = prv_next_after_to cfg q.flags)
    (hidx : q.m.index = 0) (hflags0 : q.m.flags = 0) (hcmd0 : q.m.cmd = 0)
    (hflagsb : flags_ < 2 ^ 32) :
    lwpkt_consume cfg q
      ((if lwpkt_feat_flags cfg q.flags then vlqBytes flags_ else [])
        ++ (if lwpkt_feat_cmd cfg q.flags then [cmd] else [])) =
      some { q with m := { q.m with
          state := .LEN, index := 0,
          flags := if lwpkt_feat_flags cfg q.flags then flags_ else 0,
          cmd := if lwpkt_feat_cmd cfg q.flags then cmd else 0,
          crc := lwpkt_crc_add cfg q.flags q.m.crc
            ((if lwpkt_feat_flags cfg q.flags then vlqBytes flags_ else [])
              ++ (if lwpkt_feat_cmd cfg q.flags then [cmd] else [])) } } := by
  by_cases hF : lwpkt_feat_flags cfg q.flags = true
  · simp only [prv_next_after_to, hF, if_true] at hstate
    simp only [hF, if_true, vlqBytes]
    refine lwpkt_consume_chain
      (lwpkt_consume_vlq_flags cfg (lwpkt_feat_flags_ne_zero hF) 10 q flags_
        (by norm_num) hstate
        (lt_of_lt_of_le hflagsb (by norm_num))
        (by rw [hflags0, hidx]; norm_num)
        (by rw [hflags0, hidx]; simpa using hflagsb)) ?_
    simp only [prv_go_flags1, hstate]
    simp only [hflags0, hidx, Nat.mul_zero, pow_zero, mul_one, Nat.zero_add]
    refine Eq.trans (lwpkt_consume_header3 cfg _ cmd rfl rfl
      (by exact hcmd0)) ?_
    rw [← lwpkt_crc_add_append]
  · simp only [Bool.not_eq_true] at hF
    have hstate2 : q.m.state = prv_next_after_flags cfg q.flags := by
      rw [hstate]
      simp only [prv_next_after_to, prv_next_after_flags, hF,
        Bool.false_eq_true, if_false]
    simp only [hF, Bool.false_eq_true, if_false, List.nil_append]
    refine Eq.trans (lwpkt_consume_header3 cfg q cmd hstate2 hidx hcmd0) ?_
    simp only [hflags0]

/-- Full header: optional addresses (VLQ7 or raw bytes), flags and command,
from the post-START state down to `LEN`. -/
lemma lwpkt_consume_header (cfg : lwpkt_cfg) (q : lwpkt_t) (a to_ flags_ cmd : Nat)
    (hstate : q.m.state =
      (if lwpkt_feat_addr cfg q.flags then .FROM else prv_next_after_to cfg q.flags))
    (hidx : q.m.index = 0) (hfrom : q.m.from_ = 0) (hto : q.m.to_ = 0)
    (hflags0 : q.m.flags = 0) (hcmd0 : q.m.cmd = 0)
    (hext_bounds : lwpkt_feat_addr_ext cfg q.flags = true → a < 2 ^ 32 ∧ to_ < 2 ^ 32)
    (hnonext : lwpkt_feat_addr cfg q.flags = true →
      lwpkt_feat_addr_ext cfg q.flags = false →
      a < 256 ∧ to_ < 256 ∧ (cfg.addr_extended = 0 ∨ a &&& 0x80 = 0))
    (hflagsb : flags_ < 2 ^ 32) :
    lwpkt_consume cfg q
      ((if lwpkt_feat_addr cfg q.flags then
          (if lwpkt_feat_addr_ext cfg q.flags then vlqBytes a ++ vlqBytes to_
           else [a % 256, to_ % 256]) else [])
        ++ ((if lwpkt_feat_flags cfg q.flags then vlqBytes flags_ else [])
            ++ (if lwpkt_feat_cmd cfg q.flags then [cmd] else []))) =
      some { q with m := { q.m with
          state := .LEN, index := 0,
          from_ := if lwpkt_feat_addr cfg q.flags then a else 0,
          to_ := if lwpkt_feat_addr cfg q.flags then to_ else 0,
          flags := if lwpkt_feat_flags cfg q.flags then flags_ else 0,
          cmd := if lwpkt_feat_cmd cfg q.flags then cmd else 0,
          crc := lwpkt_crc_add cfg q.flags q.m.crc
            ((if lwpkt_feat_addr cfg q.flags then
                (if lwpkt_feat_addr_ext cfg q.flags then vlqBytes a ++ vlqBytes to_
                 else [a % 256, to_ % 256]) else [])
              ++ ((if lwpkt_feat_flags cfg q.flags then vlqBytes flags_ else [])
                  ++ (if lwpkt_feat_cmd cfg q.flags then [cmd] else []))) } } := by
  by_cases hA : lwpkt_feat_addr cfg q.flags = true
  · simp only [hA, if_true] at hstate ⊢
    by_cases hE : lwpkt_feat_addr_ext cfg q.flags = true
    · obtain ⟨ha32, ht32⟩ := hext_bounds hE
      simp only [hE, if_true, vlqBytes, List.append_assoc]
      refine lwpkt_consume_chain
        (lwpkt_consume_vlq_from cfg (lwpkt_feat_addr_ne_zero hA) 10 q a
          (by norm_num) hstate hE
          (lt_of_lt_of_le ha32 (by norm_num))
          (by rw [hfrom, hidx]; norm_num)
          (by rw [hfrom, hidx]; simpa using ha32)) ?_
      simp only [prv_go_from1, hstate]
      simp only [hfrom, hidx, Nat.mul_zero, pow_zero, mul_one, Nat.zero_add]
      refine lwpkt_consume_chain
        (lwpkt_consume_vlq_to cfg (lwpkt_feat_addr_ne_zero hA) 10 _ to_
          (by norm_num) rfl hE
          (lt_of_lt_of_le ht32 (by norm_num))
          (by simp only [hto]; norm_num)
          (by simp only [hto, Nat.mul_zero, pow_zero, mul_one, Nat.zero_add]
              exact ht32)) ?_
      simp only [prv_go_to1]
      simp only [hto, Nat.mul_zero, pow_zero, mul_one, Nat.zero_add]
      refine Eq.trans (lwpkt_consume_header2 cfg _ flags_ cmd rfl rfl
        (by exact hflags0) (by exact hcmd0) hflagsb) ?_
      simp only [← lwpkt_crc_add_append, List.append_assoc]
      rfl
    · simp only [Bool.not_eq_true] at hE
      obtain ⟨ha256, ht256, hadv⟩ := hnonext hA hE
      simp only [hE, Bool.false_eq_true, if_false,
        Nat.mod_eq_of_lt ha256, Nat.mod_eq_of_lt ht256]
      generalize hR : ((if lwpkt_feat_flags cfg q.flags then vlqBytes flags_ else [])
        ++ (if lwpkt_feat_cmd cfg q.flags then [cmd] else [])) = R
      rw [show ([a, to_] : List Nat) ++ R = [a] ++ ([to_] ++ R) from rfl]
      refine lwpkt_consume_chain
        (lwpkt_consume_from_byte cfg q a hstate (lwpkt_feat_addr_ne_zero hA)
          hE hadv) ?_
      simp only [prv_go_from1, hstate]
      refine lwpkt_consume_chain
        (lwpkt_consume_to_byte cfg _ to_ rfl (lwpkt_feat_addr_ne_zero hA) hE) ?_
      simp only [prv_go_to1]
      rw [← hR]
      refine Eq.trans (lwpkt_consume_header2 cfg _ flags_ cmd rfl rfl
        (by exact hflags0) (by exact hcmd0) hflagsb) ?_
      rfl
  · simp only [Bool.not_eq_true] at hA
    simp only [hA, Bool.false_eq_true, if_false, List.nil_append] at hstate ⊢
    refine Eq.trans (lwpkt_consume_header2 cfg q flags_ cmd hstate hidx
      hflags0 hcmd0 hflagsb) ?_
    simp only [hfrom, hto]

/-- From the post-payload junction: consume the optional on-wire CRC and
land in `STOP`. -/
lemma lwpkt_consume_tail2 (cfg : lwpkt_cfg) (r : lwpkt_t)
    (hstate : r.m.state = prv_next_after_data cfg r.flags)
    (hidx : r.m.index = 0) (hcrcd0 : r.m.crc_data = 0)
    (hcrcb : r.m.crc < 2 ^ lwpkt_crcW cfg r.flags) :
    lwpkt_consume cfg r
      (if lwpkt_crc_on cfg r.flags then
        crcLeBytes (CRC_DATA_LEN cfg r.flags) (prv_crc_finish cfg r.flags r.m.crc)
       else []) =
      some { r with m := { r.m with
          state := .STOP, index := 0,
          crc := if lwpkt_crc_on cfg r.flags then prv_crc_finish cfg r.flags r.m.crc
                 else r.m.crc,
          crc_data := if lwpkt_crc_on cfg r.flags then
              prv_crc_finish cfg r.flags r.m.crc else 0 } } := by
  by_cases hK : lwpkt_crc_on cfg r.flags = true
  · simp only [prv_next_after_data, hK, if_true] at hstate ⊢
    refine Eq.trans (lwpkt_consume_crc cfg (CRC_DATA_LEN cfg r.flags) r
      (prv_crc_finish cfg r.flags r.m.crc) hstate (lwpkt_crc_on_ne_zero hK)
      (by unfold CRC_DATA_LEN; split_ifs <;> norm_num)
      (by rw [hidx]; omega)
      (by rw [lwpkt_crcW_eq]; exact prv_crc_finish_lt cfg r.flags _ hcrcb)
      (by rw [hcrcd0, hidx]; norm_num)
      (by rw [hcrcd0, hidx]
          simp only [Nat.mul_zero, pow_zero, mul_one, Nat.zero_add]
          exact lt_of_lt_of_le (prv_crc_finish_lt cfg r.flags _ hcrcb)
            (Nat.pow_le_pow_right (by norm_num) (lwpkt_crcW_le cfg r.flags)))
      (by rw [hcrcd0, hidx]; simp)) ?_
    simp only [LWPKT_SET_STATE, hcrcd0, hidx, Nat.mul_zero, pow_zero, mul_one,
      Nat.zero_add]
  · simp only [Bool.not_eq_true] at hK
    simp only [prv_next_after_data, hK, Bool.false_eq_true, if_false] at hstate ⊢
    obtain ⟨ra, rd, rf, rl, rm⟩ := r
    obtain ⟨s, c, cd, fr, t, fl, cm, l, i⟩ := rm
    dsimp only at hstate hidx hcrcd0 ⊢
    subst hstate hidx hcrcd0
    rfl

/-- Tail of a frame from the `LEN` state: VLQ7 length, payload and
optional CRC, down to `STOP`. -/
lemma lwpkt_consume_tail (cfg : lwpkt_cfg) (q : lwpkt_t) (len : Nat)
    (data : List Nat)
    (hstate : q.m.state = .LEN) (hidx : q.m.index = 0) (hlen0 : q.m.len = 0)
    (hcrcd0 : q.m.crc_data = 0)
    (hlen256 : len ≤ LWPKT_CFG_MAX_DATA_LEN) (hlendata : len ≤ data.length)
    (hcrcb : q.m.crc < 2 ^ lwpkt_crcW cfg q.flags) :
    lwpkt_consume cfg q
      (vlqBytes len ++ (data.take len ++
        (if lwpkt_crc_on cfg q.flags then
          crcLeBytes (CRC_DATA_LEN cfg q.flags)
            (prv_crc_finish cfg q.flags
              (lwpkt_crc_add cfg q.flags q.m.crc (vlqBytes len ++ data.take len)))
         else []))) =
      some { q with
        data := listSetSeq q.data 0 (data.take len),
        m := { q.m with
          state := .STOP, index := 0, len := len,
          crc := if lwpkt_crc_on cfg q.flags then
              prv_crc_finish cfg q.flags
                (lwpkt_crc_add cfg q.flags q.m.crc (vlqBytes len ++ data.take len))
            else lwpkt_crc_add cfg q.flags q.m.crc (vlqBytes len ++ data.take len),
          crc_data := if lwpkt_crc_on cfg q.flags then
              prv_crc_finish cfg q.flags
                (lwpkt_crc_add cfg q.flags q.m.crc (vlqBytes len ++ data.take len))
            else 0 } } := by
  have hlen256' : len ≤ 256 := hlen256
  simp only [vlqBytes]
  refine lwpkt_consume_chain
    (lwpkt_consume_vlq_len cfg 10 q len (by norm_num) hstate
      (lt_of_le_of_lt hlen256' (by norm_num))
      (by rw [hlen0, hidx]; norm_num)
      (by rw [hlen0, hidx]
          simp only [Nat.mul_zero, pow_zero, mul_one, Nat.zero_add]
          exact lt_of_le_of_lt hlen256' (by norm_num))) ?_
  simp only [prv_go_len1, hstate]
  simp only [hlen0, hidx, Nat.mul_zero, pow_zero, mul_one, Nat.zero_add]
  by_cases hL : 0 < len
  · rw [show prv_next_after_len cfg q.flags len = .DATA from by
      unfold prv_next_after_len; rw [if_pos hL]]
    have htklen : (data.take len).length = len := by
      simp only [List.length_take]; omega
    refine lwpkt_consume_chain
      (lwpkt_consume_data cfg (data.take len) _ rfl
        (by intro hnil; rw [hnil] at htklen; simp at htklen; omega)
        (by simp only [htklen]; omega)
        (by exact hlen256)) ?_
    simp only [prv_go_data1]
    simp only [lwpkt_crc_add_append]
    refine Eq.trans (lwpkt_consume_tail2 cfg _ rfl rfl ?_ ?_) ?_
    · exact hcrcd0
    · show lwpkt_crc_add cfg q.flags _ _ < _
      exact lwpkt_crc_add_lt cfg q.flags _ _
        (lwpkt_crc_add_lt cfg q.flags _ _ hcrcb)
    · rfl
  · have hz : len = 0 := by omega
    subst hz
    rw [show prv_next_after_len cfg q.flags 0 = prv_next_after_data cfg q.flags from by
      unfold prv_next_after_len; rw [if_neg (by omega)]]
    simp only [List.take_zero, List.nil_append, List.append_nil]
    refine Eq.trans (lwpkt_consume_tail2 cfg _ rfl rfl ?_ ?_) ?_
    · exact hcrcd0
    · show lwpkt_crc_add cfg q.flags _ _ < _
      exact lwpkt_crc_add_lt cfg q.flags _ _ hcrcb
    · simp only [listSetSeq]

/-- Feeding one complete frame (as emitted by `lwpkt_write`) to the
decoder from the `START` state yields `VALID`, leaves the trailing bytes
unconsumed and recovers every encoded field.  The hypothesis `hnonext`
excludes the compile-vs-runtime extended-address corner in the `FROM`
state. -/
lemma lwpkt_frame_decode (cfg : lwpkt_cfg) (p : lwpkt_t) (to_ flags_ cmd : Nat)
    (data : List Nat) (len : Nat) (rest : List Nat)
    (hst : p.m.state = .START)
    (hext_bounds : lwpkt_feat_addr_ext cfg p.flags = true →
      p.addr < 2 ^ 32 ∧ to_ < 2 ^ 32)
    (hnonext : lwpkt_feat_addr cfg p.flags = true →
      lwpkt_feat_addr_ext cfg p.flags = false →
      p.addr < 256 ∧ to_ < 256 ∧ (cfg.addr_extended = 0 ∨ p.addr &&& 0x80 = 0))
    (hflagsb : flags_ < 2 ^ 32)
    (hlen256 : len ≤ LWPKT_CFG_MAX_DATA_LEN) (hlendata : len ≤ data.length)
    (hpdata : len ≤ p.data.length) :
    ∃ pfin, lwpkt_read_list cfg p
        (lwpkt_frame cfg p.flags p.addr to_ flags_ cmd data len ++ rest) =
        (.VALID, pfin, rest) ∧
      pfin.m.state = .START ∧ pfin.m.index = 0 ∧
      (lwpkt_feat_addr cfg p.flags = true →
        pfin.m.from_ = p.addr ∧ pfin.m.to_ = to_) ∧
      (lwpkt_feat_flags cfg p.flags = true → pfin.m.flags = flags_) ∧
      (lwpkt_feat_cmd cfg p.flags = true → pfin.m.cmd = cmd) ∧
      pfin.m.len = len ∧
      pfin.data.take len = data.take len ∧
      pfin.addr = p.addr ∧ pfin.flags = p.flags := by
  have htklen : (data.take len).length = len := by
    simp only [List.length_take]; omega
  refine ⟨?pfin, ?heq, ?props⟩
  case heq =>
    rw [show lwpkt_frame cfg p.flags p.addr to_ flags_ cmd data len ++ rest =
        ([LWPKT_START_BYTE] ++
          (((if lwpkt_feat_addr cfg p.flags then
              (if lwpkt_feat_addr_ext cfg p.flags then vlqBytes p.addr ++ vlqBytes to_
               else [p.addr % 256, to_ % 256]) else [])
            ++ ((if lwpkt_feat_flags cfg p.flags then vlqBytes flags_ else [])
                ++ (if lwpkt_feat_cmd cfg p.flags then [cmd] else [])))
           ++ (vlqBytes len ++ (data.take len ++
            (if lwpkt_crc_on cfg p.flags then
              crcLeBytes (CRC_DATA_LEN cfg p.flags)
                (prv_crc_finish cfg p.flags
                  (lwpkt_crc_add cfg p.flags
                    (lwpkt_crc_add cfg p.flags
                      (if cfg.use_crc ≠ 0 then prv_crc_init cfg p.flags else 0)
                      ((if lwpkt_feat_addr cfg p.flags then
                          (if lwpkt_feat_addr_ext cfg p.flags then
                            vlqBytes p.addr ++ vlqBytes to_
                           else [p.addr % 256, to_ % 256]) else [])
                        ++ ((if lwpkt_feat_flags cfg p.flags then vlqBytes flags_
                             else [])
                            ++ (if lwpkt_feat_cmd cfg p.flags then [cmd] else []))))
                    (vlqBytes len ++ data.take len)))
             else [])))))
        ++ (LWPKT_STOP_BYTE :: rest) from by
      by_cases hK : lwpkt_crc_on cfg p.flags = true
      · simp only [lwpkt_frame, lwpkt_frame_body, hK, if_true,
          ← lwpkt_crc_add_append, if_pos (lwpkt_crc_on_ne_zero hK),
          List.append_assoc, List.cons_append, List.singleton_append,
          List.nil_append]
      · simp only [lwpkt_frame, lwpkt_frame_body, hK, Bool.false_eq_true,
          if_false, List.append_assoc, List.cons_append, List.singleton_append,
          List.nil_append, List.append_nil]]
    apply Eq.trans (lwpkt_read_list_of_consume ?hcons (LWPKT_STOP_BYTE :: rest))
    case hcons =>
      apply lwpkt_consume_chain (lwpkt_consume_start cfg p hst)
      simp only [LWPKT_M_ZERO, prv_go_start1]
      apply lwpkt_consume_chain
      case h1 =>
        exact lwpkt_consume_header cfg _ p.addr to_ flags_ cmd rfl rfl rfl rfl
          rfl rfl (by exact hext_bounds) (by exact hnonext) hflagsb
      case h2 =>
        exact lwpkt_consume_tail cfg _ len data rfl rfl rfl rfl hlen256 hlendata
          (by show lwpkt_crc_add cfg p.flags
                (if cfg.use_crc ≠ 0 then prv_crc_init cfg p.flags else 0)
                _ < _
              refine lwpkt_crc_add_lt cfg p.flags _ _ ?_
              split_ifs
              · exact prv_crc_init_lt cfg p.flags
              · exact Nat.pos_pow_of_pos _ (by norm_num))
    refine lwpkt_read_list_stop cfg _ ?_ rest
    rfl
  case props =>
    refine ⟨?_, ?_, ?_, ?_, ?_, ?_, ?_, ?_, ?_⟩
    · simp only [prv_go_stop1]
    · simp only [prv_go_stop1]
    · intro h
      constructor
      · simp only [prv_go_stop1, h, if_true]
      · simp only [prv_go_stop1, h, if_true]
    · intro h
      simp only [prv_go_stop1, h, if_true]
    · intro h
      simp only [prv_go_stop1, h, if_true]
    · simp only [prv_go_stop1]
    · simp only [prv_go_stop1]
      show (listSetSeq p.data 0 (data.take len)).take len = data.take len
      rw [listSetSeq_eq_copy _ _ _ (by rw [htklen]; omega)]
      rw [listCopy, List.take_zero, List.nil_append, Nat.zero_add]
      exact take_len_append htklen
    · simp only [prv_go_stop1]
    · simp only [prv_go_stop1]

/-! ### Accessors (`lwpkt_get_*`) and the spec's CRC algorithms -/

def lwpkt_get_from_addr (p : lwpkt_t) : Nat := p.m.from_

def lwpkt_get_to_addr (p : lwpkt_t) : Nat := p.m.to_

def lwpkt_get_data_len (p : lwpkt_t) : Nat := p.m.len

def lwpkt_get_data (p : lwpkt_t) : List Nat := p.data

def lwpkt_get_cmd (p : lwpkt_t) : Nat := p.m.cmd

/-- Modelled from the spec: the v1.3.0 flags getter (`pkt->m.flags`); the
stale v1.2.0 header in `src` predates the flags feature. -/
def lwpkt_get_flags (p : lwpkt_t) : Nat := p.m.flags

/-- The spec's CRC-8 wording: poly `0x8C`, init `0`, no final XOR; per
byte, 8 rounds of `mix = (crc XOR byte) AND 1; crc = crc >> 1;
if mix then crc = crc XOR 0x8C; byte = byte >> 1`. -/
def spec_crc8 (bytes : List Nat) : Nat :=
  bytes.foldl
    (fun crc byte =>
      ((List.range 8).foldl
        (fun st _ =>
          let mix := (st.1 ^^^ st.2) &&& 0x01
          let c := st.1 >>> 1
          ((if mix ≠ 0 then c ^^^ 0x8C else c), st.2 >>> 1))
        (crc, byte)).1)
    0

/-- The spec's CRC-32 wording: reflected poly `0xEDB88320`, init
`0xFFFFFFFF`, final XOR `0xFFFFFFFF`. -/
def spec_crc32 (bytes : List Nat) : Nat :=
  (bytes.foldl
    (fun crc byte =>
      ((List.range 8).foldl
        (fun st _ =>
          let mix := (st.1 ^^^ st.2) &&& 0x01
          let c := st.1 >>> 1
          ((if mix ≠ 0 then c ^^^ 0xEDB88320 else c), st.2 >>> 1))
        (crc, byte)).1)
    0xFFFFFFFF) ^^^ 0xFFFFFFFF

lemma spec_round_eq (poly : Nat) :
    (fun (st : Nat × Nat) (_ : Nat) =>
      let mix := (st.1 ^^^ st.2) &&& 0x01
      let c := st.1 >>> 1
      ((if mix ≠ 0 then c ^^^ poly else c), st.2 >>> 1)) =
    (fun (st : Nat × Nat) (_ : Nat) =>
      let mix := (st.1 ^^^ st.2) &&& 0x01
      let c := st.1 >>> 1
      let c := if mix > 0 then c ^^^ poly else c
      (c, st.2 >>> 1)) := by
  funext st x
  dsimp only
  congr 1
  rcases Nat.eq_zero_or_pos ((st.1 ^^^ st.2) &&& 0x01) with h | h
  · rw [h]
    simp
  · rw [if_pos (by omega), if_pos h]

/-- The source CRC-8 chain computes the spec's CRC-8. -/
lemma spec_crc8_eq (cfg : lwpkt_cfg) (pflags : Nat)
    (h32 : lwpkt_crc32_on cfg pflags = false) (bytes : List Nat) :
    prv_crc_finish cfg pflags
      (prv_crc_in cfg pflags (prv_crc_init cfg pflags) bytes) = spec_crc8 bytes := by
  unfold prv_crc_finish prv_crc_in prv_crc_init prv_crc_calc_one lwpkt_crc_poly
  unfold spec_crc8
  simp only [h32, Bool.false_eq_true, if_false, CRC_POLY_8, spec_round_eq]

/-- The source CRC-32 chain computes the spec's CRC-32. -/
lemma spec_crc32_eq (cfg : lwpkt_cfg) (pflags : Nat)
    (h32 : lwpkt_crc32_on cfg pflags = true) (bytes : List Nat) :
    prv_crc_finish cfg pflags
      (prv_crc_in cfg pflags (prv_crc_init cfg pflags) bytes) = spec_crc32 bytes := by
  unfold prv_crc_finish prv_crc_in prv_crc_init prv_crc_calc_one lwpkt_crc_poly
  unfold spec_crc32
  simp only [h32, if_true, CRC_POLY_32, spec_round_eq]

/-! ## Claim theorems -/

/-- C2: `lwpkt_write` computes the exact on-wire size `min_mem`; with less
free TX space it returns `ERRMEM` and the ring is completely untouched;
otherwise it writes the whole frame in wire order and returns `OK` — no
partial frame is ever written. -/
theorem C2_write_atomic (cfg : lwpkt_cfg) (p : lwpkt_t) (tx : Lwrb)
    (to_ flags_ cmd : Nat) (data : List Nat) (len : Nat)
    (hok : lwrb_ok tx = true) (hlen : len ≤ data.length) :
    (lwrb_get_free tx < lwpkt_write_min_mem cfg p to_ flags_ len →
      lwpkt_write cfg p tx to_ flags_ cmd data len = (.ERRMEM, tx)) ∧
    (¬ lwrb_get_free tx < lwpkt_write_min_mem cfg p to_ flags_ len →
      (lwpkt_write cfg p tx to_ flags_ cmd data len).1 = .OK ∧
      lwrb_contents (lwpkt_write cfg p tx to_ flags_ cmd data len).2 =
        lwrb_contents tx ++ lwpkt_frame cfg p.flags p.addr to_ flags_ cmd data len) ∧
    (lwpkt_frame cfg p.flags p.addr to_ flags_ cmd data len).length =
      lwpkt_write_min_mem cfg p to_ flags_ len := by
  refine ⟨fun h => lwpkt_write_errmem cfg p tx to_ flags_ cmd data len h,
    fun h => ?_, lwpkt_frame_length cfg p to_ flags_ cmd data len hlen⟩
  obtain ⟨h1, -, -, -, h5⟩ := lwpkt_write_ok_spec cfg p tx to_ flags_ cmd data len hok h
  exact ⟨h1, h5⟩

theorem C2_write_atomic_witness :
    lwrb_ok ⟨32, List.replicate 32 0, 0, 0⟩ = true ∧
    2 ≤ ([1, 2] : List Nat).length ∧
    ((lwrb_get_free ⟨32, List.replicate 32 0, 0, 0⟩ <
        lwpkt_write_min_mem ⟨1, 0, 0, 1, 1, 0⟩ { lwpkt_init with addr := 0x12 }
          0x11 0 2 →
      lwpkt_write ⟨1, 0, 0, 1, 1, 0⟩ { lwpkt_init with addr := 0x12 }
          ⟨32, List.replicate 32 0, 0, 0⟩ 0x11 0 0x85 [1, 2] 2 =
        (.ERRMEM, ⟨32, List.replicate 32 0, 0, 0⟩)) ∧
    (¬ lwrb_get_free ⟨32, List.replicate 32 0, 0, 0⟩ <
        lwpkt_write_min_mem ⟨1, 0, 0, 1, 1, 0⟩ { lwpkt_init with addr := 0x12 }
          0x11 0 2 →
      (lwpkt_write ⟨1, 0, 0, 1, 1, 0⟩ { lwpkt_init with addr := 0x12 }
          ⟨32, List.replicate 32 0, 0, 0⟩ 0x11 0 0x85 [1, 2] 2).1 = .OK ∧
      lwrb_contents (lwpkt_write ⟨1, 0, 0, 1, 1, 0⟩
          { lwpkt_init with addr := 0x12 }
          ⟨32, List.replicate 32 0, 0, 0⟩ 0x11 0 0x85 [1, 2] 2).2 =
        lwrb_contents ⟨32, List.replicate 32 0, 0, 0⟩ ++
          lwpkt_frame ⟨1, 0, 0, 1, 1, 0⟩ { lwpkt_init with addr := 0x12 }.flags
            { lwpkt_init with addr := 0x12 }.addr 0x11 0 0x85 [1, 2] 2) ∧
    (lwpkt_frame ⟨1, 0, 0, 1, 1, 0⟩ { lwpkt_init with addr := 0x12 }.flags
        { lwpkt_init with addr := 0x12 }.addr 0x11 0 0x85 [1, 2] 2).length =
      lwpkt_write_min_mem ⟨1, 0, 0, 1, 1, 0⟩ { lwpkt_init with addr := 0x12 }
        0x11 0 2) :=
  ⟨by decide, by decide,
   C2_write_atomic ⟨1, 0, 0, 1, 1, 0⟩ { lwpkt_init with addr := 0x12 }
     ⟨32, List.replicate 32 0, 0, 0⟩ 0x11 0 0x85 [1, 2] 2 (by decide) (by decide)⟩

/-- C3: the decoder's verdict and recovered fields are invariant under any
chunking of the input byte stream; a terminal verdict stops consumption
immediately (the bytes behind it survive verbatim for the next call), and a
non-terminal call consumes its whole chunk and continues seamlessly. -/
theorem C3_chunking (cfg : lwpkt_cfg) (p : lwpkt_t) (xs ys : List Nat) :
    (lwpkt_result_is_terminal (lwpkt_read_list cfg p xs).1 = true →
      lwpkt_read_list cfg p (xs ++ ys) =
        ((lwpkt_read_list cfg p xs).1, (lwpkt_read_list cfg p xs).2.1,
         (lwpkt_read_list cfg p xs).2.2 ++ ys)) ∧
    (lwpkt_result_is_terminal (lwpkt_read_list cfg p xs).1 = false →
      (lwpkt_read_list cfg p xs).2.2 = [] ∧
      lwpkt_read_list cfg p (xs ++ ys) =
        lwpkt_read_list cfg (lwpkt_read_list cfg p xs).2.1 ys) :=
  lwpkt_read_list_append cfg p xs ys

theorem C3_chunking_witness :
    lwpkt_result_is_terminal
      (lwpkt_read_list ⟨0, 0, 0, 0, 0, 0⟩ lwpkt_init [0xAA, 0x00, 0x55]).1 = true ∧
    lwpkt_read_list ⟨0, 0, 0, 0, 0, 0⟩ lwpkt_init ([0xAA, 0x00, 0x55] ++ [0xAA]) =
      ((lwpkt_read_list ⟨0, 0, 0, 0, 0, 0⟩ lwpkt_init [0xAA, 0x00, 0x55]).1,
       (lwpkt_read_list ⟨0, 0, 0, 0, 0, 0⟩ lwpkt_init [0xAA, 0x00, 0x55]).2.1,
       (lwpkt_read_list ⟨0, 0, 0, 0, 0, 0⟩ lwpkt_init [0xAA, 0x00, 0x55]).2.2
         ++ [0xAA]) :=
  ⟨by decide,
   (C3_chunking ⟨0, 0, 0, 0, 0, 0⟩ lwpkt_init [0xAA, 0x00, 0x55] [0xAA]).1
     (by decide)⟩

/-- C4: the CRC the encoder emits is the spec's reflected CRC-8
(poly `0x8C`, init 0, no final XOR) or CRC-32 (poly `0xEDB88320`, init and
final XOR `0xFFFFFFFF`) over exactly the wire bytes of addresses, flags,
cmd, length and payload (`lwpkt_frame_body`), and over nothing else: START,
the CRC bytes and STOP are outside the covered region. -/
theorem C4_crc_coverage (cfg : lwpkt_cfg) (p : lwpkt_t) (tx : Lwrb)
    (to_ flags_ cmd : Nat) (data : List Nat) (len : Nat)
    (hok : lwrb_ok tx = true)
    (hfree : ¬ lwrb_get_free tx < lwpkt_write_min_mem cfg p to_ flags_ len)
    (hcrc : lwpkt_crc_on cfg p.flags = true) :
    lwrb_contents (lwpkt_write cfg p tx to_ flags_ cmd data len).2 =
      lwrb_contents tx ++
        (LWPKT_START_BYTE ::
          (lwpkt_frame_body cfg p.flags p.addr to_ flags_ cmd data len
            ++ crcLeBytes (CRC_DATA_LEN cfg p.flags)
                (if lwpkt_crc32_on cfg p.flags = true then
                  spec_crc32 (lwpkt_frame_body cfg p.flags p.addr to_ flags_ cmd
                    data len)
                 else spec_crc8 (lwpkt_frame_body cfg p.flags p.addr to_ flags_ cmd
                    data len))
            ++ [LWPKT_STOP_BYTE])) := by
  obtain ⟨-, -, -, -, h5⟩ := lwpkt_write_ok_spec cfg p tx to_ flags_ cmd data len hok hfree
  rw [h5, lwpkt_frame, if_pos hcrc, lwpkt_crc_add_eq, if_pos hcrc]
  by_cases h32 : lwpkt_crc32_on cfg p.flags = true
  · rw [if_pos h32, spec_crc32_eq cfg p.flags h32]
  · rw [if_neg h32, spec_crc8_eq cfg p.flags (by simpa using h32)]

theorem C4_crc_coverage_witness :
    lwrb_ok ⟨16, List.replicate 16 0, 0, 0⟩ = true ∧
    lwpkt_crc_on ⟨0, 0, 0, 0, 1, 0⟩ lwpkt_init.flags = true ∧
    lwrb_contents (lwpkt_write ⟨0, 0, 0, 0, 1, 0⟩ lwpkt_init
        ⟨16, List.replicate 16 0, 0, 0⟩ 0 0 0 [9] 1).2 =
      lwrb_contents ⟨16, List.replicate 16 0, 0, 0⟩ ++
        (LWPKT_START_BYTE ::
          (lwpkt_frame_body ⟨0, 0, 0, 0, 1, 0⟩ lwpkt_init.flags lwpkt_init.addr
              0 0 0 [9] 1
            ++ crcLeBytes (CRC_DATA_LEN ⟨0, 0, 0, 0, 1, 0⟩ lwpkt_init.flags)
                (if lwpkt_crc32_on ⟨0, 0, 0, 0, 1, 0⟩ lwpkt_init.flags = true then
                  spec_crc32 (lwpkt_frame_body ⟨0, 0, 0, 0, 1, 0⟩ lwpkt_init.flags
                    lwpkt_init.addr 0 0 0 [9] 1)
                 else spec_crc8 (lwpkt_frame_body ⟨0, 0, 0, 0, 1, 0⟩ lwpkt_init.flags
                    lwpkt_init.addr 0 0 0 [9] 1))
            ++ [LWPKT_STOP_BYTE])) :=
  ⟨by decide, by decide,
   C4_crc_coverage ⟨0, 0, 0, 0, 1, 0⟩ lwpkt_init ⟨16, List.replicate 16 0, 0, 0⟩
     0 0 0 [9] 1 (by decide) (by decide) (by decide)⟩

/-- C5 counterexample: a `VALID` verdict does not fully zero `m` — the
decoded length (and other fields) survive for the accessors. -/
theorem C5_reset_counterexample :
    (lwpkt_read_list ⟨0, 0, 0, 0, 0, 0⟩ lwpkt_init [0xAA, 0x01, 0x62, 0x55]).1 =
      .VALID ∧
    (lwpkt_read_list ⟨0, 0, 0, 0, 0, 0⟩ lwpkt_init
      [0xAA, 0x01, 0x62, 0x55]).2.1.m ≠ LWPKT_M_ZERO := by decide

/-- C5 (amended): after a terminal verdict the state machine is back at
`START` with `index` zeroed; `m` is fully zeroed exactly on the fatal
errors (`ERRCRC`, `ERRMEM`, `ERR`), while `VALID`/`ERRSTOP` keep the
decoded fields for the accessors. -/
theorem C5_terminal_reset (cfg : lwpkt_cfg) (p : lwpkt_t) (rx : Lwrb)
    (r : lwpktr_t) (p' : lwpkt_t) (rx' : Lwrb)
    (hok : lwrb_ok rx = true)
    (h : lwpkt_read cfg p rx = (r, p', rx'))
    (ht : lwpkt_result_is_terminal r = true) :
    p'.m.state = .START ∧ p'.m.index = 0 ∧
    ((r = .ERRCRC ∨ r = .ERRMEM ∨ r = .ERR) → p'.m = LWPKT_M_ZERO) := by
  obtain ⟨e1, e2, -, -, -, -, -⟩ := @lwpkt_read_eq_list cfg p rx hok
  rw [h] at e1 e2
  dsimp only at e1 e2
  have hlist : lwpkt_read_list cfg p (lwrb_contents rx) =
      (r, p', (lwpkt_read_list cfg p (lwrb_contents rx)).2.2) := by
    rw [e1, e2]
  exact lwpkt_read_list_term_props hlist ht

theorem C5_terminal_reset_witness :
    lwrb_ok ⟨8, [0xAA, 0x00, 0x55, 0, 0, 0, 0, 0], 3, 0⟩ = true ∧
    ((lwpkt_read ⟨0, 0, 0, 0, 0, 0⟩ lwpkt_init
        ⟨8, [0xAA, 0x00, 0x55, 0, 0, 0, 0, 0], 3, 0⟩).2.1.m.state = .START ∧
     (lwpkt_read ⟨0, 0, 0, 0, 0, 0⟩ lwpkt_init
        ⟨8, [0xAA, 0x00, 0x55, 0, 0, 0, 0, 0], 3, 0⟩).2.1.m.index = 0 ∧
     (((lwpkt_read ⟨0, 0, 0, 0, 0, 0⟩ lwpkt_init
          ⟨8, [0xAA, 0x00, 0x55, 0, 0, 0, 0, 0], 3, 0⟩).1 = .ERRCRC ∨
       (lwpkt_read ⟨0, 0, 0, 0, 0, 0⟩ lwpkt_init
          ⟨8, [0xAA, 0x00, 0x55, 0, 0, 0, 0, 0], 3, 0⟩).1 = .ERRMEM ∨
       (lwpkt_read ⟨0, 0, 0, 0, 0, 0⟩ lwpkt_init
          ⟨8, [0xAA, 0x00, 0x55, 0, 0, 0, 0, 0], 3, 0⟩).1 = .ERR) →
      (lwpkt_read ⟨0, 0, 0, 0, 0, 0⟩ lwpkt_init
          ⟨8, [0xAA, 0x00, 0x55, 0, 0, 0, 0, 0], 3, 0⟩).2.1.m = LWPKT_M_ZERO)) :=
  ⟨by decide,
   C5_terminal_reset ⟨0, 0, 0, 0, 0, 0⟩ lwpkt_init
     ⟨8, [0xAA, 0x00, 0x55, 0, 0, 0, 0, 0], 3, 0⟩ _ _ _ (by decide) rfl (by decide)⟩

/-- C6: no overlong-VLQ7 guard exists — six continuation bytes for the
32-bit flags field leave the decoder still accumulating (`INPROG`, index
6 > 5) instead of failing with `ERR`; in the C source the corresponding
shift `7 * index` on a 32-bit value is undefined once `index ≥ 5`. -/
theorem C6_overlong_accumulation :
    (lwpkt_read_list ⟨0, 0, 1, 0, 0, 0⟩ lwpkt_init
      [0xAA, 0x81, 0x81, 0x81, 0x81, 0x81, 0x81]).1 = .INPROG ∧
    (lwpkt_read_list ⟨0, 0, 1, 0, 0, 0⟩ lwpkt_init
      [0xAA, 0x81, 0x81, 0x81, 0x81, 0x81, 0x81]).2.1.m.state = .FLAGS ∧
    (lwpkt_read_list ⟨0, 0, 1, 0, 0, 0⟩ lwpkt_init
      [0xAA, 0x81, 0x81, 0x81, 0x81, 0x81, 0x81]).2.1.m.index = 6 ∧
    ¬ (lwpkt_read_list ⟨0, 0, 1, 0, 0, 0⟩ lwpkt_init
      [0xAA, 0x81, 0x81, 0x81, 0x81, 0x81, 0x81]).1 = .ERR := by decide

/-- C7: `lwpkt_process` runs the decoder once; on `VALID` it stamps
`last_rx_time` and emits the packet event; on `INPROG` it resets the
parser, stamps the time and emits the timeout event exactly when the
32-bit modular elapsed time reaches the 100 ms threshold, and is a no-op
otherwise; every other verdict just stamps the time.  The 32-bit modular
difference recovers the true elapsed interval. -/
theorem C7_process_behavior (cfg : lwpkt_cfg) (p : lwpkt_t) (rx : Lwrb)
    (time : Nat) :
    ((lwpkt_read cfg p rx).1 = .VALID →
      lwpkt_process cfg p rx time =
        ((lwpkt_read cfg p rx).1,
         { (lwpkt_read cfg p rx).2.1 with last_rx_time := time },
         (lwpkt_read cfg p rx).2.2, [.PKT])) ∧
    ((lwpkt_read cfg p rx).1 = .INPROG →
      (((time + 2 ^ 32 - (lwpkt_read cfg p rx).2.1.last_rx_time) % 2 ^ 32 ≥
          LWPKT_CFG_PROCESS_INPROG_TIMEOUT →
        lwpkt_process cfg p rx time =
          ((lwpkt_read cfg p rx).1,
           { LWPKT_RESET (lwpkt_read cfg p rx).2.1 with last_rx_time := time },
           (lwpkt_read cfg p rx).2.2, [.TIMEOUT])) ∧
       ((time + 2 ^ 32 - (lwpkt_read cfg p rx).2.1.last_rx_time) % 2 ^ 32 <
          LWPKT_CFG_PROCESS_INPROG_TIMEOUT →
        lwpkt_process cfg p rx time =
          ((lwpkt_read cfg p rx).1, (lwpkt_read cfg p rx).2.1,
           (lwpkt_read cfg p rx).2.2, [])))) ∧
    ((lwpkt_read cfg p rx).1 ≠ .VALID → (lwpkt_read cfg p rx).1 ≠ .INPROG →
      lwpkt_process cfg p rx time =
        ((lwpkt_read cfg p rx).1,
         { (lwpkt_read cfg p rx).2.1 with last_rx_time := time },
         (lwpkt_read cfg p rx).2.2, [])) ∧
    (∀ l e, l < 2 ^ 32 → e < 2 ^ 32 →
      ((l + e) % 2 ^ 32 + 2 ^ 32 - l) % 2 ^ 32 = e) := by
  refine ⟨fun h => ?_, fun h => ⟨fun h2 => ?_, fun h2 => ?_⟩,
    fun h1 h2 => ?_, fun l e hl he => ?_⟩
  · unfold lwpkt_process
    dsimp only
    rw [if_pos h]
  · unfold lwpkt_process
    dsimp only
    rw [if_neg (by rw [h]; decide), if_pos h, if_pos h2]
  · unfold lwpkt_process
    dsimp only
    rw [if_neg (by rw [h]; decide), if_pos h, if_neg (by omega)]
  · unfold lwpkt_process
    dsimp only
    rw [if_neg h1, if_neg h2]
  · omega

/-- C8 counterexample: from the reachable full state `(w, r) = (1, 0)` of a
size-2 ring a 1-byte write is silently dropped, so write-then-read does not
return the written byte. -/
theorem C8_ring_counterexample :
    lwrb_ok ⟨2, [7, 0], 1, 0⟩ = true ∧
    ([9] : List Nat).length ≤ 2 - 1 ∧
    (lwrb_read (lwrb_write ⟨2, [7, 0], 1, 0⟩ [9] 1).1 1).2 ≠ [9] := by decide

/-- C8 (amended): write-then-read returns the written bytes from every
valid *empty* ring state (not from every reachable `(w, r)` pair), and
`free + full = S − 1` holds in every valid state. -/
theorem C8_ring_roundtrip (rb : Lwrb) (B : List Nat)
    (hok : lwrb_ok rb = true) (hempty : lwrb_contents rb = [])
    (hlen : B.length ≤ rb.size - 1) :
    (lwrb_read (lwrb_write rb B B.length).1 B.length).2 = B ∧
    (∀ q : Lwrb, lwrb_ok q = true →
      lwrb_get_free q + lwrb_get_full q = q.size - 1) := by
  constructor
  · have hfull0 : lwrb_get_full rb = 0 := by
      rw [← lwrb_contents_length hok, hempty]
      rfl
    have hfree : B.length ≤ lwrb_get_free rb := by
      rw [lwrb_get_free_eq hok, hfull0]
      omega
    obtain ⟨hbtw, hsz, hrr, hok2, hc⟩ := lwrb_write_spec hok hfree (le_refl _)
    rw [List.take_length, hempty, List.nil_append] at hc
    have hfull2 : B.length ≤ lwrb_get_full (lwrb_write rb B B.length).1 := by
      rw [← lwrb_contents_length hok2, hc]
    obtain ⟨hr1, -, -, -, -, -⟩ := lwrb_read_spec hok2 hfull2
    rw [hr1, hc, List.take_length]
  · intro q hq
    have h1 := lwrb_get_free_eq hq
    have h2 := lwrb_get_full_le hq
    have h3 := (lwrb_ok_elim hq).1
    omega

theorem C8_ring_roundtrip_witness :
    lwrb_ok ⟨4, [0, 0, 0, 0], 0, 0⟩ = true ∧
    lwrb_contents ⟨4, [0, 0, 0, 0], 0, 0⟩ = [] ∧
    ([5, 6] : List Nat).length ≤ 4 - 1 ∧
    ((lwrb_read (lwrb_write ⟨4, [0, 0, 0, 0], 0, 0⟩ [5, 6] ([5, 6] : List Nat).length).1
        ([5, 6] : List Nat).length).2 = [5, 6] ∧
     (∀ q : Lwrb, lwrb_ok q = true →
       lwrb_get_free q + lwrb_get_full q = q.size - 1)) :=
  ⟨by decide, by decide, by decide,
   C8_ring_roundtrip ⟨4, [0, 0, 0, 0], 0, 0⟩ [5, 6] (by decide) (by decide)
     (by decide)⟩

/-- C9: `lwrb_find` misses needles its own readable region contains: the
loop bound `skip_x < full - start_offset - len` excludes the last valid
offsets, so here the needle `[7]` sits at consumer offset 0 of the
readable bytes yet the search reports not-found. -/
theorem C9_find_missed_match :
    lwrb_contents ⟨2, [7, 0], 1, 0⟩ = [7] ∧
    lwrb_find_match ⟨2, [7, 0], 1, 0⟩ [7] 1 0 = true ∧
    lwrb_find ⟨2, [7, 0], 1, 0⟩ [7] 1 0 = none := by decide

/-- C10: `lwpkt_init` zeroes the whole instance, leaves the parser at
`START`, and sets all instance flag bits, so every feature compiled in
dynamic mode (2) starts out enabled. -/
theorem C10_init_defaults :
    lwpkt_init.flags = 0xFF ∧ lwpkt_init.m = LWPKT_M_ZERO ∧
    lwpkt_init.m.state = .START ∧ lwpkt_init.addr = 0 ∧
    lwpkt_init.last_rx_time = 0 ∧
    lwpkt_init.data = List.replicate LWPKT_CFG_MAX_DATA_LEN 0 ∧
    (∀ cfg : lwpkt_cfg,
      (cfg.use_addr = 2 → lwpkt_feat_addr cfg lwpkt_init.flags = true) ∧
      (cfg.addr_extended = 2 → lwpkt_feat_addr_ext cfg lwpkt_init.flags = true) ∧
      (cfg.use_flags = 2 → lwpkt_feat_flags cfg lwpkt_init.flags = true) ∧
      (cfg.use_cmd = 2 → lwpkt_feat_cmd cfg lwpkt_init.flags = true) ∧
      (cfg.use_crc = 2 → lwpkt_crc_on cfg lwpkt_init.flags = true) ∧
      (cfg.crc32 = 2 → lwpkt_crc32_on cfg lwpkt_init.flags = true)) := by
  refine ⟨by decide, by decide, by decide, by decide, by decide, by decide, ?_⟩
  intro cfg
  refine ⟨fun h => ?_, fun h => ?_, fun h => ?_, fun h => ?_, fun h => ?_,
    fun h => ?_⟩ <;>
  · simp only [lwpkt_feat_addr, lwpkt_feat_addr_ext, lwpkt_feat_flags,
      lwpkt_feat_cmd, lwpkt_crc_on, lwpkt_crc32_on,
      CHECK_FEATURE_CONFIG_MODE_ENABLED, h, lwpkt_init]
    decide

/-- C1 counterexample: with extended addressing compiled in dynamic mode
(`LWPKT_CFG_ADDR_EXTENDED = 2`) but disabled at runtime, and own address
`0x85` (high bit set), `lwpkt_write` succeeds yet the decoder never leaves
the `FROM` state correctly: the roundtrip does not yield `VALID`.  The
`FROM` state tests the compile-time `LWPKT_CFG_ADDR_EXTENDED` instead of
the runtime feature check the `TO` state uses. -/
theorem C1_roundtrip_counterexample :
    (lwpkt_write ⟨2, 2, 0, 0, 0, 0⟩ { lwpkt_init with addr := 0x85, flags := 0xF7 }
      ⟨16, List.replicate 16 0, 0, 0⟩ 0x11 0 0 [] 0).1 = .OK ∧
    (lwpkt_read ⟨2, 2, 0, 0, 0, 0⟩ { lwpkt_init with addr := 0x85, flags := 0xF7 }
      (lwpkt_write ⟨2, 2, 0, 0, 0, 0⟩ { lwpkt_init with addr := 0x85, flags := 0xF7 }
        ⟨16, List.replicate 16 0, 0, 0⟩ 0x11 0 0 [] 0).2).1 ≠ .VALID := by decide

/-- C1 (amended): encode-then-decode roundtrip.  Writing a message into an
empty TX ring with enough space and feeding those bytes to `lwpkt_read`
yields `VALID`, empties the ring and the accessors recover exactly the
encoded addresses, flags, command, payload bytes and payload length.
Amended with `hnonext`, which excludes the `FROM`-state corner (extended
addressing compiled in but runtime-disabled while the own address has the
top bit of its low byte set) exhibited by the counterexample. -/
theorem C1_roundtrip (cfg : lwpkt_cfg) (p : lwpkt_t) (tx : Lwrb)
    (to_ flags_ cmd : Nat) (data : List Nat)
    (hok : lwrb_ok tx = true)
    (hempty : lwrb_contents tx = [])
    (hfree : ¬ lwrb_get_free tx < lwpkt_write_min_mem cfg p to_ flags_ data.length)
    (hst : p.m.state = .START)
    (hdlen : data.length ≤ LWPKT_CFG_MAX_DATA_LEN)
    (hpdata : data.length ≤ p.data.length)
    (hext_bounds : lwpkt_feat_addr_ext cfg p.flags = true →
      p.addr < 2 ^ 32 ∧ to_ < 2 ^ 32)
    (hnonext : lwpkt_feat_addr cfg p.flags = true →
      lwpkt_feat_addr_ext cfg p.flags = false →
      p.addr < 256 ∧ to_ < 256 ∧ (cfg.addr_extended = 0 ∨ p.addr &&& 0x80 = 0))
    (hflagsb : flags_ < 2 ^ 32) :
    (lwpkt_write cfg p tx to_ flags_ cmd data data.length).1 = .OK ∧
    (lwpkt_read cfg p
      (lwpkt_write cfg p tx to_ flags_ cmd data data.length).2).1 = .VALID ∧
    (lwpkt_feat_addr cfg p.flags = true →
      lwpkt_get_from_addr (lwpkt_read cfg p
        (lwpkt_write cfg p tx to_ flags_ cmd data data.length).2).2.1 = p.addr ∧
      lwpkt_get_to_addr (lwpkt_read cfg p
        (lwpkt_write cfg p tx to_ flags_ cmd data data.length).2).2.1 = to_) ∧
    (lwpkt_feat_flags cfg p.flags = true →
      lwpkt_get_flags (lwpkt_read cfg p
        (lwpkt_write cfg p tx to_ flags_ cmd data data.length).2).2.1 = flags_) ∧
    (lwpkt_feat_cmd cfg p.flags = true →
      lwpkt_get_cmd (lwpkt_read cfg p
        (lwpkt_write cfg p tx to_ flags_ cmd data data.length).2).2.1 = cmd) ∧
    lwpkt_get_data_len (lwpkt_read cfg p
      (lwpkt_write cfg p tx to_ flags_ cmd data data.length).2).2.1 = data.length ∧
    (lwpkt_get_data (lwpkt_read cfg p
      (lwpkt_write cfg p tx to_ flags_ cmd data data.length).2).2.1).take
        data.length = data ∧
    lwrb_contents (lwpkt_read cfg p
      (lwpkt_write cfg p tx to_ flags_ cmd data data.length).2).2.2 = [] := by
  obtain ⟨hW1, hWok, hWsz, hWr, hWc⟩ :=
    lwpkt_write_ok_spec cfg p tx to_ flags_ cmd data data.length hok hfree
  rw [hempty, List.nil_append] at hWc
  obtain ⟨pfin, hread, hstf, hidxf, haddrf, hflagsf, hcmdf, hlenf, hdataf, -, -⟩ :=
    lwpkt_frame_decode cfg p to_ flags_ cmd data data.length [] hst hext_bounds
      hnonext hflagsb hdlen (le_refl _) hpdata
  rw [List.append_nil] at hread
  obtain ⟨e1, e2, -, -, -, -, e7⟩ :=
    @lwpkt_read_eq_list cfg p (lwpkt_write cfg p tx to_ flags_ cmd data
      data.length).2 hWok
  rw [hWc, hread] at e1 e2 e7
  dsimp only at e1 e2 e7
  refine ⟨hW1, e1, ?_, ?_, ?_, ?_, ?_, e7⟩
  · intro h
    obtain ⟨ha, hb⟩ := haddrf h
    exact ⟨by rw [lwpkt_get_from_addr, e2, ha],
           by rw [lwpkt_get_to_addr, e2, hb]⟩
  · intro h
    rw [lwpkt_get_flags, e2, hflagsf h]
  · intro h
    rw [lwpkt_get_cmd, e2, hcmdf h]
  · rw [lwpkt_get_data_len, e2, hlenf]
  · rw [lwpkt_get_data, e2, hdataf, List.take_length]

theorem C1_roundtrip_witness :
    lwrb_ok ⟨32, List.replicate 32 0, 0, 0⟩ = true ∧
    lwrb_contents ⟨32, List.replicate 32 0, 0, 0⟩ = [] ∧
    ((lwpkt_write ⟨1, 0, 0, 1, 1, 0⟩ { lwpkt_init with addr := 0x12 }
        ⟨32, List.replicate 32 0, 0, 0⟩ 0x11 0 0x85 [1, 2, 3]
        ([1, 2, 3] : List Nat).length).1 = .OK ∧
     (lwpkt_read ⟨1, 0, 0, 1, 1, 0⟩ { lwpkt_init with addr := 0x12 }
       (lwpkt_write ⟨1, 0, 0, 1, 1, 0⟩ { lwpkt_init with addr := 0x12 }
         ⟨32, List.replicate 32 0, 0, 0⟩ 0x11 0 0x85 [1, 2, 3]
         ([1, 2, 3] : List Nat).length).2).1 = .VALID ∧
     (lwpkt_feat_addr ⟨1, 0, 0, 1, 1, 0⟩ { lwpkt_init with addr := 0x12 }.flags =
        true →
       lwpkt_get_from_addr (lwpkt_read ⟨1, 0, 0, 1, 1, 0⟩
         { lwpkt_init with addr := 0x12 }
         (lwpkt_write ⟨1, 0, 0, 1, 1, 0⟩ { lwpkt_init with addr := 0x12 }
           ⟨32, List.replicate 32 0, 0, 0⟩ 0x11 0 0x85 [1, 2, 3]
           ([1, 2, 3] : List Nat).length).2).2.1 =
         { lwpkt_init with addr := 0x12 }.addr ∧
       lwpkt_get_to_addr (lwpkt_read ⟨1, 0, 0, 1, 1, 0⟩
         { lwpkt_init with addr := 0x12 }
         (lwpkt_write ⟨1, 0, 0, 1, 1, 0⟩ { lwpkt_init with addr := 0x12 }
           ⟨32, List.replicate 32 0, 0, 0⟩ 0x11 0 0x85 [1, 2, 3]
           ([1, 2, 3] : List Nat).length).2).2.1 = 0x11) ∧
     (lwpkt_feat_flags ⟨1, 0, 0, 1, 1, 0⟩ { lwpkt_init with addr := 0x12 }.flags =
        true →
       lwpkt_get_flags (lwpkt_read ⟨1, 0, 0, 1, 1, 0⟩
         { lwpkt_init with addr := 0x12 }
         (lwpkt_write ⟨1, 0, 0, 1, 1, 0⟩ { lwpkt_init with addr := 0x12 }
           ⟨32, List.replicate 32 0, 0, 0⟩ 0x11 0 0x85 [1, 2, 3]
           ([1, 2, 3] : List Nat).length).2).2.1 = 0) ∧
     (lwpkt_feat_cmd ⟨1, 0, 0, 1, 1, 0⟩ { lwpkt_init with addr := 0x12 }.flags =
        true →
       lwpkt_get_cmd (lwpkt_read ⟨1, 0, 0, 1, 1, 0⟩
         { lwpkt_init with addr := 0x12 }
         (lwpkt_write ⟨1, 0, 0, 1, 1, 0⟩ { lwpkt_init with addr := 0x12 }
           ⟨32, List.replicate 32 0, 0, 0⟩ 0x11 0 0x85 [1, 2, 3]
           ([1, 2, 3] : List Nat).length).2).2.1 = 0x85) ∧
     lwpkt_get_data_len (lwpkt_read ⟨1, 0, 0, 1, 1, 0⟩
       { lwpkt_init with addr := 0x12 }
       (lwpkt_write ⟨1, 0, 0, 1, 1, 0⟩ { lwpkt_init with addr := 0x12 }
         ⟨32, List.replicate 32 0, 0, 0⟩ 0x11 0 0x85 [1, 2, 3]
         ([1, 2, 3] : List Nat).length).2).2.1 = ([1, 2, 3] : List Nat).length ∧
     (lwpkt_get_data (lwpkt_read ⟨1, 0, 0, 1, 1, 0⟩
       { lwpkt_init with addr := 0x12 }
       (lwpkt_write ⟨1, 0, 0, 1, 1, 0⟩ { lwpkt_init with addr := 0x12 }
         ⟨32, List.replicate 32 0, 0, 0⟩ 0x11 0 0x85 [1, 2, 3]
         ([1, 2, 3] : List Nat).length).2).2.1).take
       ([1, 2, 3] : List Nat).length = [1, 2, 3] ∧
     lwrb_contents (lwpkt_read ⟨1, 0, 0, 1, 1, 0⟩
       { lwpkt_init with addr := 0x12 }
       (lwpkt_write ⟨1, 0, 0, 1, 1, 0⟩ { lwpkt_init with addr := 0x12 }
         ⟨32, List.replicate 32 0, 0, 0⟩ 0x11 0 0x85 [1, 2, 3]
         ([1, 2, 3] : List Nat).length).2).2.2 = []) :=
  ⟨by decide, by decide,
   C1_roundtrip ⟨1, 0, 0, 1, 1, 0⟩ { lwpkt_init with addr := 0x12 }
     ⟨32, List.replicate 32 0, 0, 0⟩ 0x11 0 0x85 [1, 2, 3]
     (by decide) (by decide) (by decide) (by decide) (by decide) (by decide)
     (by decide) (by decide) (by decide)⟩

end Lwpkt
